import Mathlib

/-!
Verification development for the obsidian-todo-collector plugin
(`src/main.ts`, with `tests/__mocks__/obsidian.ts` supplying the
`parseYaml` semantics used by the repository's own test harness).

The embedding works at the level of JavaScript string/array semantics:
strings are Lean `String`s manipulated through their character lists,
`split`/`join`/`trim`/`startsWith`/`slice` are defined character-wise to
match the JavaScript built-ins on the inputs the plugin handles.
-/

namespace ObsidianTodo

/-! ## JS string primitives -/

def isWs (c : Char) : Bool := c.isWhitespace

/-- JS `str.split(sep)` on character lists (single-character separator). -/
def splitChOn (sep : Char) : List Char → List (List Char)
  | [] => [[]]
  | c :: cs =>
    if c = sep then [] :: splitChOn sep cs
    else (c :: (splitChOn sep cs).headI) :: (splitChOn sep cs).tail

/-- JS `arr.join(sep)` on character lists (single-character separator). -/
def joinChOn (sep : Char) : List (List Char) → List Char
  | [] => []
  | [x] => x
  | x :: y :: t => x ++ sep :: joinChOn sep (y :: t)

/-- JS `str.split(sep)` for a one-character separator. -/
def jsSplit (sep : Char) (s : String) : List String :=
  (splitChOn sep s.data).map String.mk

/-- JS `arr.join(sep)` for a one-character separator. -/
def jsJoin (sep : Char) (L : List String) : String :=
  String.mk (joinChOn sep (L.map String.data))

/-- JS `str.trim()`. -/
def trimCh (cs : List Char) : List Char :=
  ((cs.dropWhile isWs).reverse.dropWhile isWs).reverse

def jsTrim (s : String) : String := String.mk (trimCh s.data)

/-- JS `str.startsWith(p)`. -/
def jsStartsWith (s p : String) : Bool :=
  s.data.take p.data.length == p.data

/-- JS `str.endsWith(p)`. -/
def jsEndsWith (s p : String) : Bool :=
  s.data.reverse.take p.data.length == p.data.reverse

/-- JS `str.substring(n)` (drop the first `n` code units; the inputs in
scope are such that code units and characters agree on the dropped span). -/
def jsDrop (s : String) (n : Nat) : String := String.mk (s.data.drop n)

/-- JS `str.toLowerCase()` (ASCII-adequate). -/
def jsToLower (s : String) : String := String.mk (s.data.map Char.toLower)

/-- JS `s || d` for strings: the default replaces the empty (falsy) string. -/
def jsOr (s d : String) : String := if s = "" then d else s

/-- Clamp a JS `slice` index (negative counts from the end). -/
def jsSliceIdx (n : Nat) (a : Int) : Nat :=
  if a < 0 then (max 0 ((n : Int) + a)).toNat else min a.toNat n

/-- JS `arr.slice(a, b)` with full negative-index semantics. -/
def jsSlice {α : Type} (l : List α) (a b : Int) : List α :=
  let s := jsSliceIdx l.length a
  let e := jsSliceIdx l.length b
  (l.drop s).take (e - s)

/-- JS `arr.slice(a)`. -/
def jsSliceFrom {α : Type} (l : List α) (a : Int) : List α :=
  jsSlice l a l.length

/-! ## Frontmatter mapping (JS object of string values)

`parseYaml` is the Obsidian API function; the repository pins its
semantics in `tests/__mocks__/obsidian.ts`: each line is split at its
first `:`; lines without a colon or with an empty key part are skipped;
keys and values are trimmed; later assignments to the same key overwrite
the value in place (JS object insertion-order semantics; the plugin's
frontmatter keys are not array-index-like, so insertion order is the
`Object.entries` order). -/

def fmUpsert (m : List (String × String)) (k v : String) : List (String × String) :=
  if m.any (fun e => e.1 == k) then
    m.map (fun e => if e.1 == k then (e.1, v) else e)
  else m ++ [(k, v)]

def parseYamlLine (obj : List (String × String)) (line : String) : List (String × String) :=
  let parts := jsSplit ':' line
  if parts.length < 2 then obj
  else if parts.headI == "" then obj
  else fmUpsert obj (jsTrim parts.headI) (jsTrim (jsJoin ':' parts.tail))

/-- `parseYaml` from `tests/__mocks__/obsidian.ts`. -/
def parseYaml (content : String) : List (String × String) :=
  (jsSplit '\n' content).foldl parseYamlLine []

/-- `Object.entries(fm).map(([k, v]) => k + ": " + v)` (src/main.ts 288-290). -/
def renderFm (m : List (String × String)) : List String :=
  m.map (fun e => e.1 ++ ": " ++ e.2)

def fmLookup (m : List (String × String)) (k : String) : Option String :=
  (m.find? (fun e => e.1 == k)).map (·.2)

/-- JS truthiness of `frontmatter.add_todo`: present with a non-empty
string value (the mock parser only produces string values). -/
def addTodoTruthy (m : List (String × String)) : Bool :=
  match fmLookup m "add_todo" with
  | some v => v != ""
  | none => false

/-! ## Frontmatter marker scan

The loop at src/main.ts 215-226 (and 383-394): walk the lines, remember
the index of the first line trimming to `---`, stop at the second such
line. Unset positions stay `-1`. -/

def isMarkerLine (l : String) : Bool := jsTrim l == "---"

def fmScanGo : List String → Nat → Int → Int × Int
  | [], _, st => (st, -1)
  | l :: ls, i, st =>
    if isMarkerLine l then
      if st == -1 then fmScanGo ls (i + 1) (Int.ofNat i) else (st, Int.ofNat i)
    else fmScanGo ls (i + 1) st

def fmScan (lines : List String) : Int × Int := fmScanGo lines 0 (-1)

/-! ## Data model -/

inductive TodoHandling
  | immediate
  | delayed
  | keep
deriving DecidableEq, Repr

structure CompletedTodo where
  text : String
  completedAt : Int
deriving DecidableEq, Repr

structure Settings where
  targetDirectories : List String
  todoTags : List String
  completedTodoHandling : TodoHandling
  autoDeleteHours : Int
  completedTodos : List CompletedTodo
  outputFilePath : String
  protectClassifiedFiles : Bool
  lastClassificationTime : Int
deriving DecidableEq, Repr

/-- A vault file as the mock `TFile` carries it: path, basename, content. -/
structure VFile where
  path : String
  basename : String
  content : String
deriving DecidableEq, Repr

/-- Observable store effects of a pass. -/
inductive Eff
  | notice (msg : String)
  | modifyF (path content : String)
  | createF (path content : String)
deriving DecidableEq, Repr

def getFile (v : List VFile) (p : String) : Option VFile :=
  v.find? (fun f => f.path == p)

/-- Mock `vault.read`: missing files read as `""`. -/
def readV (v : List VFile) (p : String) : String :=
  match getFile v p with
  | some f => f.content
  | none => ""

/-- Mock `vault.modify`: update the content of an existing file. -/
def modifyV (v : List VFile) (p c : String) : List VFile :=
  v.map (fun f => if f.path == p then ⟨f.path, f.basename, c⟩ else f)

/-! ## Tag scanner

`^\s*<tag>\s+(.+)$` (src/main.ts 252) with the tag spliced in verbatim;
the embedding treats the tag literally, which agrees with the regex for
tags that contain no regex metacharacters and do not begin with
whitespace (all configured tags: `#TODO`, `#t`, ...). The capture
follows the regex's greedy/backtracking behaviour: `\s+` takes the
maximal whitespace run that still leaves at least one character for
`(.+)`. -/

def tagMatch (line tag : String) : Option String :=
  let rest := line.data.dropWhile isWs
  if rest.take tag.data.length == tag.data then
    let s := rest.drop tag.data.length
    let k := (s.takeWhile isWs).length
    if k = 0 then none
    else if k < s.length then some (String.mk (s.drop k))
    else if 2 ≤ k then some (String.mk (s.drop (k - 1)))
    else none
  else none

/-- The inner tag loop (src/main.ts 251-267): try tags in list order,
first match wins, `break` after a match. -/
def scanLine (line : String) : List String → Option (String × String)
  | [] => none
  | tag :: rest =>
    match tagMatch line tag with
    | some txt => some (tag, txt)
    | none => scanLine line rest

/-! ## Collection engine (`collectTodos`, src/main.ts 129-365) -/

/-- A line is one of the output document's rendered item lines. -/
def isTaskLine (l : String) : Bool :=
  jsStartsWith l "- [ ]" || jsStartsWith l "- [x]"

/-- `Set.add`: insert if absent (membership is all that is observed). -/
def addTask (E : List String) (t : String) : List String :=
  if E.contains t then E else E ++ [t]

/-- Seed `existingTasks` from the output document (src/main.ts 170-175). -/
def seedTasks (lines : List String) : List String :=
  lines.foldl (fun E l => if isTaskLine l then addTask E l else E) []

structure ScanAcc where
  existingTasks : List String
  newTasks : List String
  todoFound : Bool
deriving DecidableEq, Repr

/-- One body line of a candidate document (src/main.ts 248-268). -/
def scanLineStep (tags : List String) (basename : String) (acc : ScanAcc) (line : String) : ScanAcc :=
  match scanLine line tags with
  | none => acc
  | some m =>
    let newTask := "- [ ] " ++ m.2 ++ " (" ++ basename ++ ")"
    if acc.existingTasks.contains newTask then { acc with todoFound := true }
    else
      { existingTasks := acc.existingTasks ++ [newTask]
        newTasks := acc.newTasks ++ [newTask]
        todoFound := true }

/-- The per-file scan loop over all lines (src/main.ts 247-268). -/
def scanFileLines (tags : List String) (basename : String) (E N : List String)
    (lines : List String) : ScanAcc :=
  lines.foldl (scanLineStep tags basename) ⟨E, N, false⟩

/-- Rewrite of a contributing source document (src/main.ts 271-296):
prepend a fresh frontmatter block when no complete block exists
(`hasFrontmatter` requires both markers), otherwise re-render the parsed
block with `add_todo: true` spliced in. -/
def sourceFileNewContent (content : String) : String :=
  let lines := jsSplit '\n' content
  let se := fmScan lines
  if se.2 == -1 then
    "---\n" ++ "add_todo: true\n" ++ "---\n" ++ content
  else
    let fmObj := parseYaml (jsJoin '\n' (jsSlice lines (se.1 + 1) se.2))
    let fmObj' := fmUpsert fmObj "add_todo" "true"
    jsJoin '\n' (jsSlice lines 0 (se.1 + 1)) ++ "\n" ++
      jsJoin '\n' (renderFm fmObj') ++ "\n" ++
      jsJoin '\n' (jsSliceFrom lines se.2)

/-- The sentinel check (src/main.ts 229-244): parse the frontmatter block
when one is recognized and test `add_todo` for truthiness. -/
def skipByFrontmatter (content : String) : Bool :=
  let lines := jsSplit '\n' content
  let se := fmScan lines
  if se.2 == -1 then false
  else addTodoTruthy (parseYaml (jsJoin '\n' (jsSlice lines (se.1 + 1) se.2)))

structure PassSt where
  vault : List VFile
  existingTasks : List String
  newTasks : List String
  effs : List Eff
deriving DecidableEq, Repr

/-- Processing of one candidate document (src/main.ts 201-301). -/
def processFile (s : Settings) (st : PassSt) (path basename : String) : PassSt :=
  let content := readV st.vault path
  if skipByFrontmatter content then st
  else
    let acc := scanFileLines s.todoTags basename st.existingTasks st.newTasks
      (jsSplit '\n' content)
    if acc.todoFound then
      let nc := sourceFileNewContent content
      { vault := modifyV st.vault path nc
        existingTasks := acc.existingTasks
        newTasks := acc.newTasks
        effs := st.effs ++ [Eff.modifyF path nc] }
    else
      { st with existingTasks := acc.existingTasks, newTasks := acc.newTasks }

/-- Directory filter (src/main.ts 180-199): trim, force a trailing slash,
case-insensitive path-prefix test, output document excluded. -/
def dirWithSlash (dir : String) : String :=
  let nd := jsTrim dir
  if jsEndsWith nd "/" then nd else nd ++ "/"

def dirFiles (allFiles : List (String × String)) (out : String) (dir : String) :
    List (String × String) :=
  allFiles.filter (fun f =>
    f.1 != out && jsStartsWith (jsToLower f.1) (jsToLower (dirWithSlash dir)))

/-- `vault.getMarkdownFiles()` of the mock store: files whose path ends
in `.md`, keeping store order; only path and basename are consumed. -/
def mdFiles (v : List VFile) : List (String × String) :=
  (v.filter (fun f => jsEndsWith f.path ".md")).map (fun f => (f.path, f.basename))

/-- The two nested loops of the scan phase (src/main.ts 180-302). -/
def scanDirs (s : Settings) (out : String) (allFiles : List (String × String))
    (st : PassSt) : PassSt :=
  s.targetDirectories.foldl
    (fun st dir =>
      (dirFiles allFiles out dir).foldl (fun st f => processFile s st f.1 f.2) st)
    st

/-- The `delayed` retention predicate (src/main.ts 320-331): first record
whose `text` equals the line after the 6-character checked prefix, then
the freshness test on that record. -/
def delayedKeepChecked (s : Settings) (now : Int) (line : String) : Bool :=
  jsStartsWith line "- [x]" &&
    (match s.completedTodos.find? (fun t => t.text == jsDrop line 6) with
     | some c => decide (now - c.completedAt < s.autoDeleteHours * 3600 * 1000)
     | none => false)

/-- Rebuild of the output document (src/main.ts 304-357). -/
def rebuildOutput (s : Settings) (now : Int) (existingContent : String)
    (newTasks : List String) : String :=
  let lines := jsSplit '\n' existingContent
  match s.completedTodoHandling with
  | .immediate =>
    jsJoin '\n' (lines.filter (fun l => jsStartsWith l "- [ ]") ++ newTasks)
  | .delayed =>
    jsJoin '\n' (lines.filter (delayedKeepChecked s now) ++
      lines.filter (fun l => jsStartsWith l "- [ ]") ++ newTasks)
  | .keep =>
    jsJoin '\n' (lines.filter (fun l => jsStartsWith l "- [x]") ++
      lines.filter (fun l => jsStartsWith l "- [ ]") ++ newTasks)

/-- `settings.outputFilePath || "TODO.md"` (src/main.ts 134). -/
def outPathOf (s : Settings) : String := jsOr s.outputFilePath "TODO.md"

/-- Scan phase followed by the output rebuild (src/main.ts 160-364),
entered once the output file was found and the protection check passed.
The final `if (todoFile)` re-check (line 306) is kept, together with its
`vault.create` else-branch (lines 360-364, where `finalContent` is
re-assigned to `newTasks.join("\n")`). -/
def collectTodosMain (v0 : List VFile) (s : Settings) (now : Int) (tf : VFile) :
    List VFile × List Eff :=
  let out := outPathOf s
  let existingContent := tf.content
  let E0 := seedTasks (jsSplit '\n' existingContent)
  let st1 := scanDirs s out (mdFiles v0) ⟨v0, E0, [], []⟩
  let finalContent := rebuildOutput s now existingContent st1.newTasks
  match getFile v0 out with
  | some _ =>
    (modifyV st1.vault out finalContent, st1.effs ++ [Eff.modifyF out finalContent])
  | none =>
    (st1.vault ++ [⟨out, "", jsJoin '\n' st1.newTasks⟩],
      st1.effs ++ [Eff.createF out (jsJoin '\n' st1.newTasks)])

/-- `collectTodos` (src/main.ts 129-365) as a pure pass over the mock
store: returns the updated store and the trace of store effects. -/
def collectTodos (v0 : List VFile) (s : Settings) (now : Int) : List VFile × List Eff :=
  match getFile v0 (outPathOf s) with
  | none => (v0, [Eff.notice ("出力ファイルが存在しません: " ++ outPathOf s)])
  | some tf =>
    if s.protectClassifiedFiles && decide (s.lastClassificationTime > 0) &&
        decide (now - s.lastClassificationTime < 24 * 3600 * 1000) then
      (v0, [Eff.notice "分類済みファイルは保護されています（24時間以内）"])
    else collectTodosMain v0 s now tf

/-- `collectTodos` together with the settings object it leaves behind:
the method reads `this.settings` but contains no assignment to it, so
the stored `completedTodos` list (and everything else in the settings)
passes through unchanged. -/
def collectTodosRun (v0 : List VFile) (s : Settings) (now : Int) :
    List VFile × Settings × List Eff :=
  let r := collectTodos v0 s now
  (r.1, s, r.2)

/-! ## Completed-item sweep (`processCompletedTodos`, src/main.ts 368-461) -/

def processCompletedTodos (s : Settings) (content filePath : String) : String :=
  let lines := jsSplit '\n' content
  let se := fmScan lines
  let hasCompleted := lines.any (fun l => jsStartsWith l "- [x]")
  if hasCompleted then
    if s.completedTodoHandling = .immediate then
      jsJoin '\n' (lines.filter (fun l => !jsStartsWith l "- [x]"))
    else
      let out := jsOr s.outputFilePath "TODO.md"
      if se.1 == -1 then
        let fm : List (String × String) :=
          if filePath != out then [("add_todo", "true")] else []
        jsJoin '\n' (["---", jsJoin '\n' (renderFm fm), "---"] ++ lines)
      else
        let fmObj := parseYaml (jsJoin '\n' (jsSlice lines (se.1 + 1) se.2))
        let fmObj' := if filePath != out then fmUpsert fmObj "add_todo" "true" else fmObj
        jsJoin '\n' (jsSlice lines 0 (se.1 + 1) ++ renderFm fmObj' ++ jsSliceFrom lines se.2)
  else content

/-! ## Classification reconciliation (src/main.ts 542-708, 759-964) -/

def DEFAULT_GROUPS : List String :=
  ["買い物関連", "開発関連", "学習関連", "家事関連", "仕事関連", "健康関連", "未分類"]

def gLookup (g : List (String × List String)) (k : String) : Option (List String) :=
  (g.find? (fun e => e.1 == k)).map (·.2)

/-- `if (!groups[k]) groups[k] = []` (an existing array, even empty, is truthy). -/
def gEnsure (g : List (String × List String)) (k : String) : List (String × List String) :=
  if (gLookup g k).isSome then g else g ++ [(k, [])]

/-- `groups[k].push(line)` on a present key. -/
def gPush (g : List (String × List String)) (k line : String) : List (String × List String) :=
  g.map (fun e => if e.1 == k then (e.1, e.2 ++ [line]) else e)

/-- `if (!groups[k]) groups[k] = []; groups[k].push(...items)`. -/
def gPushAll (g : List (String × List String)) (k : String) (items : List String) :
    List (String × List String) :=
  (gEnsure g k).map (fun e => if e.1 == k then (e.1, e.2 ++ items) else e)

structure SepSt where
  groups : List (String × List String)
  currentGroup : String
  inGroup : Bool
deriving DecidableEq, Repr

/-- One line of `separateExistingAndNewTodos` (src/main.ts 558-592). -/
def separateStep (st : SepSt) (line : String) : SepSt :=
  let t := jsTrim line
  if jsStartsWith t "## " then
    let name := jsTrim (jsDrop t 3)
    { groups := gEnsure st.groups name, currentGroup := name, inGroup := true }
  else if jsStartsWith t "- [ ]" || jsStartsWith t "- [x]" then
    if st.inGroup && st.currentGroup != "" then
      { st with groups := gPush st.groups st.currentGroup line }
    else
      { st with groups := gPush (gEnsure st.groups "未分類") "未分類" line }
  else st

/-- `separateExistingAndNewTodos` (src/main.ts 543-595): groups seeded
with the seven default names; `newTodos` is never pushed to. -/
def separateExistingAndNewTodos (content : String) :
    List (String × List String) × List String :=
  let init := DEFAULT_GROUPS.map (fun g => (g, ([] : List String)))
  (((jsSplit '\n' content).foldl separateStep ⟨init, "", false⟩).groups, [])

structure MergeSt where
  groups : List (String × List String)
  currentGroup : String
deriving DecidableEq, Repr

/-- One line of the classifier-text parse inside
`mergeExistingAndNewClassification` (src/main.ts 630-665). -/
def mergeParseStep (st : MergeSt) (line : String) : MergeSt :=
  let t := jsTrim line
  if jsStartsWith t "# " then
    let name := jsTrim (jsDrop t 2)
    { groups := gEnsure st.groups name, currentGroup := name }
  else if jsStartsWith t "## " then
    let name := jsTrim (jsDrop t 3)
    { groups := gEnsure st.groups name, currentGroup := name }
  else if jsStartsWith t "- [ ]" || jsStartsWith t "- [x]" then
    if st.currentGroup != "" && jsTrim st.currentGroup != "" then
      { st with groups := gPush (gEnsure st.groups st.currentGroup) st.currentGroup line }
    else
      { st with groups := gPush (gEnsure st.groups "未分類") "未分類" line }
  else st

/-- `mergeExistingAndNewClassification` (src/main.ts 621-694). -/
def mergeExistingAndNewClassification (existingGroups : List (String × List String))
    (newClassification : String) : String :=
  let newGroups := ((jsSplit '\n' newClassification).foldl mergeParseStep ⟨[], ""⟩).groups
  let part1 := DEFAULT_GROUPS.foldl
    (fun acc g =>
      let merged := (gLookup existingGroups g).getD [] ++ (gLookup newGroups g).getD []
      if merged != [] then acc ++ ["## " ++ g, ""] ++ merged ++ [""] else acc)
    []
  let part2 := newGroups.foldl
    (fun acc e =>
      if !DEFAULT_GROUPS.contains e.1 && e.2 != [] then
        acc ++ ["## " ++ e.1, ""] ++ e.2 ++ [""]
      else acc)
    part1
  jsJoin '\n' part2

/-- `convertGroupsToContent` (src/main.ts 697-708). -/
def convertGroupsToContent (groups : List (String × List String)) : String :=
  jsJoin '\n' (groups.foldl
    (fun acc e => if e.2 != [] then acc ++ ["## " ++ e.1, ""] ++ e.2 ++ [""] else acc)
    [])

/-- `existingGroups` as `classifyNewTodosWithAi` computes it
(src/main.ts 773-781): empty unless the output document exists with
non-blank content. -/
def classifyExistingGroups (outputContent : Option String) : List (String × List String) :=
  match outputContent with
  | some c => if jsTrim c != "" then (separateExistingAndNewTodos c).1 else []
  | none => []

/-- Fallback (src/main.ts 889-908 and 923-940): push all new items into
the catch-all group of the existing structure and emit it. -/
def classifyFallback (g : List (String × List String)) (newTodos : List String) : String :=
  convertGroupsToContent (gPushAll g "未分類" newTodos)

/-- Output content written by `classifyNewTodosWithAi` (src/main.ts
799-941) on the non-JSON routes. `resp` is the `classifiedContent`
field: `none` when the field is missing, `some c` otherwise. A missing
or empty (falsy) field takes the fallback; a non-empty field that the
external `JSON.parse` probe rejects (invalid JSON, or JSON without a
`groups` object — the probe is a JS built-in, not repository code) is
parsed as markdown and merged; an empty merge result again takes the
fallback. The JSON-success branch is a separate path not modelled here. -/
def classifyWritten (g : List (String × List String)) (newTodos : List String)
    (resp : Option String) : String :=
  match resp with
  | none => classifyFallback g newTodos
  | some c =>
    if c == "" then classifyFallback g newTodos
    else
      let merged := mergeExistingAndNewClassification g c
      if jsTrim merged == "" then classifyFallback g newTodos else merged

/-- Modelled from the spec (§4.1), for comparison with the code's
recognition: a frontmatter block is recognized iff the first non-empty
region of the document is a marker line, zero or more `key: value`
lines, then a second marker line. -/
def specKvLine (l : String) : Bool :=
  match jsSplit ':' l with
  | [] => false
  | [_] => false
  | key :: _ => jsTrim key != ""

def specFmTail : List String → Bool
  | [] => false
  | l :: ls => if isMarkerLine l then true else specKvLine l && specFmTail ls

def specFmRecognized (content : String) : Bool :=
  match (jsSplit '\n' content).dropWhile (fun l => jsTrim l == "") with
  | [] => false
  | first :: rest => isMarkerLine first && specFmTail rest

/-- The code's recognition of a complete frontmatter block: the scan
found a second marker (src/main.ts 216-226 sets `hasFrontmatter` there;
368-461 tests `frontmatterStart/End !== -1` equivalently). -/
def codeFmRecognized (content : String) : Bool :=
  (fmScan (jsSplit '\n' content)).2 != -1

/-- Settings used in the concrete check instances. -/
def mkSettings (dirs tags : List String) (h : TodoHandling) (hours : Int)
    (recs : List CompletedTodo) : Settings :=
  ⟨dirs, tags, h, hours, recs, "TODO.md", false, 0⟩

/-! ## Derived notions used in statements -/

/-- The rendered item lines of a document, in order. -/
def taskLines (content : String) : List String :=
  (jsSplit '\n' content).filter isTaskLine

/-- Content of the output document in a store state, when it exists. -/
def outContent (v : List VFile) (s : Settings) : Option String :=
  (getFile v (outPathOf s)).map (·.content)

/-- Well-formedness of a frontmatter mapping as `parseYaml` produces it:
distinct keys, keys trimmed / colon-free / newline-free, values trimmed
and newline-free. -/
def WfFmEntry (e : String × String) : Prop :=
  jsTrim e.1 = e.1 ∧ ':' ∉ e.1.data ∧ '\n' ∉ e.1.data ∧ jsTrim e.2 = e.2 ∧ '\n' ∉ e.2.data

def WfFm (m : List (String × String)) : Prop :=
  (m.map (·.1)).Nodup ∧ ∀ e ∈ m, WfFmEntry e

/-- The no-newline invariant over a groups accumulator. -/
def GNl (g : List (String × List String)) : Prop :=
  ∀ e ∈ g, ('\n' : Char) ∉ e.1.data ∧ ∀ l ∈ e.2, ('\n' : Char) ∉ l.data

/-- Invariant of the duplicate-suppression state during a scan pass:
`seed0` is the set of item lines of the pre-existing output document;
`E` is the accumulated `existingTasks` set, `N` the collected new tasks. -/
def ScanInv (seed0 E N : List String) : Prop :=
  (∀ t ∈ seed0, t ∈ E) ∧ N.Nodup ∧ (∀ t ∈ N, t ∈ E) ∧
  (∀ t ∈ N, t ∉ seed0) ∧
  (∀ t ∈ N, jsStartsWith t "- [ ] " = true ∧ ('\n' : Char) ∉ t.data)

/-- A document is inert for the scan: it is either skipped by the
sentinel, or no line of it matches any configured tag. An inert
document contributes nothing and is not modified. -/
def Inert (s : Settings) (content : String) : Prop :=
  skipByFrontmatter content = true ∨
    ∀ line ∈ jsSplit '\n' content, scanLine line s.todoTags = none

/-! # Lemmas -/

/-! ## Character-level split/join -/

theorem mk_data (s : String) : String.mk s.data = s := by cases s; rfl

theorem splitChOn_ne_nil (sep : Char) (cs : List Char) : splitChOn sep cs ≠ [] := by
  cases cs with
  | nil => simp [splitChOn]
  | cons c cs => by_cases hc : c = sep <;> simp [splitChOn, hc]

theorem splitChOn_cons_sep (sep : Char) (cs : List Char) :
    splitChOn sep (sep :: cs) = [] :: splitChOn sep cs := by
  simp [splitChOn]

theorem splitChOn_cons_ne (sep c : Char) (cs : List Char) (hc : c ≠ sep)
    {h : List Char} {t : List (List Char)} (he : splitChOn sep cs = h :: t) :
    splitChOn sep (c :: cs) = (c :: h) :: t := by
  simp [splitChOn, hc, he]

theorem splitChOn_of_no_sep (sep : Char) (cs : List Char) (h : sep ∉ cs) :
    splitChOn sep cs = [cs] := by
  induction cs with
  | nil => rfl
  | cons c cs ih =>
    have hc : c ≠ sep := by rintro rfl; exact h (List.mem_cons_self c cs)
    have hcs := ih (fun hm => h (List.mem_cons_of_mem _ hm))
    exact splitChOn_cons_ne sep c cs hc hcs

theorem splitChOn_append_no_sep (sep : Char) (a b : List Char) (ha : sep ∉ a)
    {h : List Char} {t : List (List Char)} (hb : splitChOn sep b = h :: t) :
    splitChOn sep (a ++ b) = (a ++ h) :: t := by
  induction a with
  | nil => simpa using hb
  | cons c a ih =>
    have hc : c ≠ sep := by rintro rfl; exact ha (List.mem_cons_self c a)
    have ih' := ih (fun hm => ha (List.mem_cons_of_mem _ hm))
    rw [List.cons_append]
    rw [splitChOn_cons_ne sep c (a ++ b) hc ih']
    rfl

theorem not_mem_of_mem_splitChOn (sep : Char) (cs : List Char) (l : List Char)
    (hl : l ∈ splitChOn sep cs) : sep ∉ l := by
  induction cs generalizing l with
  | nil =>
    simp [splitChOn] at hl
    simp [hl]
  | cons c cs ih =>
    obtain ⟨h, t, he⟩ := List.exists_cons_of_ne_nil (splitChOn_ne_nil sep cs)
    by_cases hc : c = sep
    · subst hc
      rw [splitChOn_cons_sep] at hl
      rcases List.mem_cons.mp hl with rfl | hl
      · simp
      · exact ih l hl
    · rw [splitChOn_cons_ne sep c cs hc he] at hl
      rcases List.mem_cons.mp hl with rfl | hl
      · intro hmem
        rcases List.mem_cons.mp hmem with rfl | hmem
        · exact hc rfl
        · exact ih h (he ▸ List.mem_cons_self h t) hmem
      · exact ih l (he ▸ List.mem_cons_of_mem h hl)

theorem joinChOn_cons (sep : Char) (x : List Char) (L : List (List Char)) (hL : L ≠ []) :
    joinChOn sep (x :: L) = x ++ sep :: joinChOn sep L := by
  cases L with
  | nil => exact absurd rfl hL
  | cons y t => rfl

theorem joinChOn_splitChOn (sep : Char) (cs : List Char) :
    joinChOn sep (splitChOn sep cs) = cs := by
  induction cs with
  | nil => rfl
  | cons c cs ih =>
    obtain ⟨h, t, he⟩ := List.exists_cons_of_ne_nil (splitChOn_ne_nil sep cs)
    rw [he] at ih
    by_cases hc : c = sep
    · subst hc
      rw [splitChOn_cons_sep, he]
      rw [joinChOn_cons c [] (h :: t) (by simp), ih]
      rfl
    · rw [splitChOn_cons_ne sep c cs hc he]
      cases t with
      | nil =>
        simp only [joinChOn] at ih ⊢
        rw [ih]
      | cons z t' =>
        rw [joinChOn_cons sep h (z :: t') (by simp)] at ih
        rw [joinChOn_cons sep (c :: h) (z :: t') (by simp)]
        rw [List.cons_append, ih]

theorem splitChOn_joinChOn (sep : Char) (L : List (List Char)) (hL : L ≠ [])
    (hm : ∀ l ∈ L, sep ∉ l) : splitChOn sep (joinChOn sep L) = L := by
  induction L with
  | nil => exact absurd rfl hL
  | cons x L ih =>
    cases L with
    | nil => exact splitChOn_of_no_sep sep x (hm x (List.mem_cons_self x []))
    | cons y t =>
      rw [joinChOn_cons _ _ _ (by simp)]
      have hx : sep ∉ x := hm x (List.mem_cons_self _ _)
      have ih' : splitChOn sep (joinChOn sep (y :: t)) = y :: t :=
        ih (by simp) (fun l hl => hm l (List.mem_cons_of_mem _ hl))
      have h2 : splitChOn sep (sep :: joinChOn sep (y :: t)) = [] :: y :: t := by
        rw [splitChOn_cons_sep, ih']
      have h3 := splitChOn_append_no_sep sep x _ hx h2
      simpa using h3

/-! ## String-level split/join -/

theorem jsSplit_ne_nil (sep : Char) (s : String) : jsSplit sep s ≠ [] := by
  unfold jsSplit
  intro h
  exact splitChOn_ne_nil sep s.data (List.map_eq_nil_iff.mp h)

theorem no_sep_of_mem_jsSplit (sep : Char) (s : String) (l : String)
    (hl : l ∈ jsSplit sep s) : sep ∉ l.data := by
  unfold jsSplit at hl
  obtain ⟨cs, hcs, rfl⟩ := List.mem_map.mp hl
  exact not_mem_of_mem_splitChOn sep s.data cs hcs

theorem jsSplit_jsJoin (sep : Char) (L : List String) (hL : L ≠ [])
    (hm : ∀ l ∈ L, sep ∉ l.data) : jsSplit sep (jsJoin sep L) = L := by
  unfold jsSplit jsJoin
  have hd : (String.mk (joinChOn sep (L.map String.data))).data
      = joinChOn sep (L.map String.data) := rfl
  rw [hd, splitChOn_joinChOn sep (L.map String.data)
        (by simpa using hL)
        (by intro l hl; obtain ⟨x, hx, rfl⟩ := List.mem_map.mp hl; exact hm x hx)]
  rw [List.map_map]
  conv_rhs => rw [← List.map_id L]
  exact List.map_congr_left (fun x _ => mk_data x)

theorem jsJoin_jsSplit (sep : Char) (s : String) : jsJoin sep (jsSplit sep s) = s := by
  unfold jsSplit jsJoin
  rw [List.map_map]
  have : (splitChOn sep s.data).map (String.data ∘ String.mk) = splitChOn sep s.data := by
    conv_rhs => rw [← List.map_id (splitChOn sep s.data)]
    exact List.map_congr_left (fun x _ => rfl)
  rw [this, joinChOn_splitChOn, mk_data]

theorem jsSplit_append_sep (sep : Char) (x rest : String) (hx : sep ∉ x.data) :
    jsSplit sep (x ++ String.mk [sep] ++ rest) = x :: jsSplit sep rest := by
  unfold jsSplit
  rw [String.data_append, String.data_append]
  obtain ⟨h, t, he⟩ := List.exists_cons_of_ne_nil (splitChOn_ne_nil sep rest.data)
  have h1 : splitChOn sep (sep :: rest.data) = [] :: h :: t := by
    rw [splitChOn_cons_sep, he]
  have h2 := splitChOn_append_no_sep sep x.data (sep :: rest.data) hx h1
  have hshape : x.data ++ (String.mk [sep]).data ++ rest.data = x.data ++ (sep :: rest.data) := by
    simp
  rw [hshape, h2, he]
  simp [mk_data]

theorem jsSplit_newline_cons (x rest : String) (hx : ('\n' : Char) ∉ x.data) :
    jsSplit '\n' (x ++ "\n" ++ rest) = x :: jsSplit '\n' rest := by
  have : ("\n" : String) = String.mk ['\n'] := rfl
  rw [this]
  exact jsSplit_append_sep '\n' x rest hx

theorem jsSplit_join_append (A : List String) (rest : String) (hA : A ≠ [])
    (hm : ∀ l ∈ A, ('\n' : Char) ∉ l.data) :
    jsSplit '\n' (jsJoin '\n' A ++ "\n" ++ rest) = A ++ jsSplit '\n' rest := by
  induction A with
  | nil => exact absurd rfl hA
  | cons a A ih =>
    cases A with
    | nil =>
      have : jsJoin '\n' [a] = a := by
        unfold jsJoin joinChOn
        simp [mk_data]
      rw [this]
      rw [jsSplit_newline_cons a rest (hm a (List.mem_cons_self _ _))]
      rfl
    | cons b B =>
      have hj : jsJoin '\n' (a :: b :: B) = a ++ "\n" ++ jsJoin '\n' (b :: B) := by
        unfold jsJoin
        rw [show (a :: b :: B).map String.data = a.data :: (b :: B).map String.data from rfl]
        rw [joinChOn_cons _ _ _ (by simp)]
        apply String.ext
        simp [String.data_append]
      rw [hj]
      have hassoc : a ++ "\n" ++ jsJoin '\n' (b :: B) ++ "\n" ++ rest
          = a ++ "\n" ++ (jsJoin '\n' (b :: B) ++ "\n" ++ rest) := by
        apply String.ext
        simp [String.data_append]
      rw [hassoc]
      rw [jsSplit_newline_cons a _ (hm a (List.mem_cons_self _ _))]
      rw [ih (by simp) (fun l hl => hm l (List.mem_cons_of_mem _ hl))]
      rfl

theorem data_jsJoin (sep : Char) (L : List String) :
    (jsJoin sep L).data = joinChOn sep (L.map String.data) := rfl

theorem jsJoin_nil (sep : Char) : jsJoin sep [] = "" := rfl

theorem jsJoin_singleton (sep : Char) (a : String) : jsJoin sep [a] = a := by
  unfold jsJoin
  simp [joinChOn, mk_data]

theorem jsSplit_empty (sep : Char) : jsSplit sep "" = [""] := rfl

/-! ## jsSlice arithmetic -/

theorem jsSliceIdx_coe (n m : Nat) : jsSliceIdx n (Int.ofNat m) = min m n := by
  unfold jsSliceIdx
  rw [if_neg (by exact not_lt.mpr (Int.ofNat_nonneg m))]
  simp

theorem jsSliceIdx_zero (n : Nat) : jsSliceIdx n 0 = 0 := by
  unfold jsSliceIdx
  rw [if_neg (by omega)]
  simp

theorem jsSliceIdx_neg_one (n : Nat) : jsSliceIdx n (-1) = n - 1 := by
  unfold jsSliceIdx
  rw [if_pos (by omega)]
  omega

theorem jsSlice_coe {α : Type} (l : List α) (a b : Nat) :
    jsSlice l (Int.ofNat a) (Int.ofNat b) =
      (l.drop (min a l.length)).take (min b l.length - min a l.length) := by
  unfold jsSlice
  rw [jsSliceIdx_coe, jsSliceIdx_coe]

theorem jsSlice_zero_coe {α : Type} (l : List α) (m : Nat) :
    jsSlice l 0 (Int.ofNat m) = l.take m := by
  unfold jsSlice
  rw [jsSliceIdx_zero, jsSliceIdx_coe]
  simp only [List.drop_zero, Nat.sub_zero]
  rcases le_total m l.length with h | h
  · rw [min_eq_left h]
  · rw [min_eq_right h, List.take_of_length_le le_rfl, List.take_of_length_le h]

theorem jsSliceFrom_coe {α : Type} (l : List α) (a : Nat) :
    jsSliceFrom l (Int.ofNat a) = l.drop a := by
  unfold jsSliceFrom jsSlice
  rw [show ((l.length : Int)) = Int.ofNat l.length from rfl]
  rw [jsSliceIdx_coe, jsSliceIdx_coe, min_self]
  rw [List.take_of_length_le (by rw [List.length_drop])]
  rcases le_total a l.length with h | h
  · rw [min_eq_left h]
  · rw [min_eq_right h, List.drop_of_length_le le_rfl, List.drop_of_length_le h]

theorem jsSliceFrom_neg_one {α : Type} (l : List α) :
    jsSliceFrom l (-1) = l.drop (l.length - 1) := by
  unfold jsSliceFrom jsSlice
  rw [show ((l.length : Int)) = Int.ofNat l.length from rfl]
  rw [jsSliceIdx_neg_one, jsSliceIdx_coe, min_self]
  rw [List.take_of_length_le (by rw [List.length_drop])]

theorem jsSlice_coe_neg_one {α : Type} (l : List α) (a : Nat) :
    jsSlice l (Int.ofNat a) (-1) =
      (l.drop (min a l.length)).take (l.length - 1 - min a l.length) := by
  unfold jsSlice
  rw [jsSliceIdx_coe, jsSliceIdx_neg_one]

/-! ## Trim -/

theorem dropWhile_idem (p : α → Bool) (l : List α) :
    (l.dropWhile p).dropWhile p = l.dropWhile p := by
  induction l with
  | nil => rfl
  | cons c l ih =>
    by_cases hc : p c
    · have h1 : List.dropWhile p (c :: l) = List.dropWhile p l := by
        rw [List.dropWhile_cons, if_pos hc]
      rw [h1]
      exact ih
    · have h1 : List.dropWhile p (c :: l) = c :: l := by
        rw [List.dropWhile_cons, if_neg hc]
      rw [h1]
      exact h1

theorem dropWhile_eq_self_of_append (p : α → Bool) (w s : List α)
    (h : (w ++ s).dropWhile p = w ++ s) : w.dropWhile p = w := by
  cases w with
  | nil => rfl
  | cons c w' =>
    have hc : p c = false := by
      by_contra hpc
      have hpc' : p c = true := by revert hpc; cases p c <;> simp
      rw [List.cons_append, List.dropWhile_cons, if_pos hpc'] at h
      have hlen := congrArg List.length h
      rw [List.length_cons] at hlen
      have hsub := (List.dropWhile_sublist (l := w' ++ s) p).length_le
      omega
    rw [List.dropWhile_cons, if_neg (by simp [hc])]

theorem revDropRev_append (p : α → Bool) (z : List α) :
    z = (z.reverse.dropWhile p).reverse ++ (z.reverse.takeWhile p).reverse := by
  conv_lhs => rw [← List.reverse_reverse z]
  rw [← List.reverse_append, List.takeWhile_append_dropWhile]

theorem dropWhile_revDropRev_self (p : α → Bool) (x : List α)
    (hx : x.dropWhile p = x) :
    ((x.reverse.dropWhile p).reverse).dropWhile p = (x.reverse.dropWhile p).reverse := by
  apply dropWhile_eq_self_of_append p _ ((x.reverse.takeWhile p).reverse)
  rw [← revDropRev_append p x]
  exact hx

theorem trimCh_idem (cs : List Char) : trimCh (trimCh cs) = trimCh cs := by
  have hg : (trimCh cs).dropWhile isWs = trimCh cs := by
    unfold trimCh
    exact dropWhile_revDropRev_self isWs (cs.dropWhile isWs) (dropWhile_idem isWs cs)
  show ((((trimCh cs).dropWhile isWs).reverse.dropWhile isWs)).reverse = trimCh cs
  rw [hg]
  unfold trimCh
  rw [List.reverse_reverse, dropWhile_idem]

theorem jsTrim_idem (s : String) : jsTrim (jsTrim s) = jsTrim s := by
  unfold jsTrim
  rw [show (String.mk (trimCh s.data)).data = trimCh s.data from rfl, trimCh_idem]

theorem mem_of_mem_trimCh (c : Char) (cs : List Char) (h : c ∈ trimCh cs) : c ∈ cs := by
  unfold trimCh at h
  rw [List.mem_reverse] at h
  have h1 := (List.dropWhile_sublist isWs).mem h
  rw [List.mem_reverse] at h1
  exact (List.dropWhile_sublist isWs).mem h1

theorem mem_dropWhile_of_not (p : α → Bool) (c : α) (l : List α)
    (hc : p c = false) (h : c ∈ l) : c ∈ l.dropWhile p := by
  induction l with
  | nil => cases h
  | cons a l ih =>
    by_cases ha : p a
    · rw [List.dropWhile_cons, if_pos ha]
      rcases List.mem_cons.mp h with rfl | h
      · rw [ha] at hc; cases hc
      · exact ih h
    · rw [List.dropWhile_cons, if_neg ha]
      exact h

theorem mem_trimCh_of_not_ws (c : Char) (cs : List Char)
    (hc : isWs c = false) (h : c ∈ cs) : c ∈ trimCh cs := by
  unfold trimCh
  rw [List.mem_reverse]
  apply mem_dropWhile_of_not _ _ _ hc
  rw [List.mem_reverse]
  exact mem_dropWhile_of_not _ _ _ hc h

theorem trimCh_cons_ws (c : Char) (cs : List Char) (hc : isWs c = true) :
    trimCh (c :: cs) = trimCh cs := by
  unfold trimCh
  rw [List.dropWhile_cons, if_pos hc]

/-! ## startsWith -/

theorem jsStartsWith_iff (s p : String) :
    jsStartsWith s p = true ↔ s.data.take p.data.length = p.data := by
  unfold jsStartsWith
  exact beq_iff_eq

theorem jsStartsWith_of_append (s p r : String) (h : s = p ++ r) :
    jsStartsWith s p = true := by
  rw [jsStartsWith_iff, h, String.data_append]
  exact List.take_left p.data r.data

theorem not_jsStartsWith_of_ne (l p q : String)
    (hlen : p.data.length = q.data.length) (hne : p ≠ q)
    (h : jsStartsWith l p = true) : jsStartsWith l q = false := by
  by_contra hq
  have hq' : jsStartsWith l q = true := by revert hq; cases jsStartsWith l q <;> simp
  rw [jsStartsWith_iff] at h hq'
  rw [hlen] at h
  exact hne (String.ext (h ▸ hq'))

/-! ## fmScan -/

theorem fmScanGo_nil (i : Nat) (st : Int) : fmScanGo [] i st = (st, -1) := rfl

theorem fmScanGo_cons_not (l : String) (ls : List String) (i : Nat) (st : Int)
    (h : isMarkerLine l = false) :
    fmScanGo (l :: ls) i st = fmScanGo ls (i + 1) st := by
  simp [fmScanGo, h]

theorem fmScanGo_cons_marker_unset (l : String) (ls : List String) (i : Nat)
    (h : isMarkerLine l = true) :
    fmScanGo (l :: ls) i (-1) = fmScanGo ls (i + 1) (Int.ofNat i) := by
  simp [fmScanGo, h]

theorem fmScanGo_cons_marker_set (l : String) (ls : List String) (i j : Nat)
    (h : isMarkerLine l = true) :
    fmScanGo (l :: ls) i (Int.ofNat j) = (Int.ofNat j, Int.ofNat i) := by
  have hne : (Int.ofNat j == -1) = false := by
    rw [beq_eq_false_iff_ne]
    intro hcon
    have hpos : (0 : Int) ≤ Int.ofNat j := Int.ofNat_nonneg j
    rw [hcon] at hpos
    norm_num at hpos
  simp [fmScanGo, h, hne]

theorem fmScanGo_append (A ls : List String) (i : Nat) (st : Int)
    (h : ∀ l ∈ A, isMarkerLine l = false) :
    fmScanGo (A ++ ls) i st = fmScanGo ls (i + A.length) st := by
  induction A generalizing i with
  | nil => simp
  | cons a A ih =>
    rw [List.cons_append, fmScanGo_cons_not a _ i st (h a (List.mem_cons_self _ _))]
    rw [ih (i + 1) (fun l hl => h l (List.mem_cons_of_mem _ hl))]
    congr 1
    simp
    omega

theorem fmScan_all_not (ls : List String) (h : ∀ l ∈ ls, isMarkerLine l = false) :
    fmScan ls = (-1, -1) := by
  unfold fmScan
  have := fmScanGo_append ls [] 0 (-1) h
  simpa using this

theorem fmScan_one_marker (A : List String) (m : String) (B : List String)
    (hA : ∀ l ∈ A, isMarkerLine l = false) (hm : isMarkerLine m = true)
    (hB : ∀ l ∈ B, isMarkerLine l = false) :
    fmScan (A ++ m :: B) = (Int.ofNat A.length, -1) := by
  unfold fmScan
  rw [fmScanGo_append A (m :: B) 0 (-1) hA]
  rw [fmScanGo_cons_marker_unset m B (0 + A.length) hm]
  have := fmScanGo_append B [] (0 + A.length + 1) (Int.ofNat (0 + A.length)) hB
  rw [List.append_nil] at this
  rw [this, fmScanGo_nil]
  simp

theorem fmScan_two_markers (A : List String) (m : String) (B : List String)
    (m' : String) (C : List String)
    (hA : ∀ l ∈ A, isMarkerLine l = false) (hm : isMarkerLine m = true)
    (hB : ∀ l ∈ B, isMarkerLine l = false) (hm' : isMarkerLine m' = true) :
    fmScan (A ++ m :: (B ++ m' :: C)) =
      (Int.ofNat A.length, Int.ofNat (A.length + 1 + B.length)) := by
  unfold fmScan
  rw [fmScanGo_append A _ 0 (-1) hA]
  rw [fmScanGo_cons_marker_unset m _ (0 + A.length) hm]
  rw [fmScanGo_append B _ (0 + A.length + 1) (Int.ofNat (0 + A.length)) hB]
  rw [fmScanGo_cons_marker_set m' C (0 + A.length + 1 + B.length) (0 + A.length) hm']
  simp

/-! ## parseYaml and renderFm -/

theorem mem_of_mem_splitChOn_mem (sep : Char) (cs l : List Char) (c : Char)
    (hl : l ∈ splitChOn sep cs) (hc : c ∈ l) : c ∈ cs := by
  induction cs generalizing l with
  | nil =>
    simp [splitChOn] at hl
    subst hl
    cases hc
  | cons a cs ih =>
    obtain ⟨h, t, he⟩ := List.exists_cons_of_ne_nil (splitChOn_ne_nil sep cs)
    by_cases ha : a = sep
    · subst ha
      rw [splitChOn_cons_sep] at hl
      rcases List.mem_cons.mp hl with rfl | hl
      · cases hc
      · exact List.mem_cons_of_mem _ (ih l hl hc)
    · rw [splitChOn_cons_ne sep a cs ha he] at hl
      rcases List.mem_cons.mp hl with rfl | hl
      · rcases List.mem_cons.mp hc with rfl | hc
        · exact List.mem_cons_self _ _
        · exact List.mem_cons_of_mem _ (ih h (he ▸ List.mem_cons_self _ _) hc)
      · exact List.mem_cons_of_mem _ (ih l (he ▸ List.mem_cons_of_mem _ hl) hc)

theorem mem_of_mem_jsSplit_mem (sep : Char) (s l : String) (c : Char)
    (hl : l ∈ jsSplit sep s) (hc : c ∈ l.data) : c ∈ s.data := by
  unfold jsSplit at hl
  obtain ⟨cs, hcs, rfl⟩ := List.mem_map.mp hl
  exact mem_of_mem_splitChOn_mem sep s.data cs c hcs hc

theorem mem_data_jsJoin (sep : Char) (L : List String) (c : Char)
    (hc : c ∈ (jsJoin sep L).data) : c = sep ∨ ∃ l ∈ L, c ∈ l.data := by
  rw [data_jsJoin] at hc
  induction L with
  | nil => cases hc
  | cons x L ih =>
    cases L with
    | nil =>
      simp [joinChOn] at hc
      exact Or.inr ⟨x, List.mem_cons_self _ _, hc⟩
    | cons y t =>
      rw [show (x :: y :: t).map String.data = x.data :: (y :: t).map String.data from rfl,
        joinChOn_cons sep x.data ((y :: t).map String.data) (by simp)] at hc
      rcases List.mem_append.mp hc with hx | hrest
      · exact Or.inr ⟨x, List.mem_cons_self _ _, hx⟩
      · rcases List.mem_cons.mp hrest with rfl | hmem
        · exact Or.inl rfl
        · rcases ih hmem with rfl | ⟨l, hlmem, hcl⟩
          · exact Or.inl rfl
          · exact Or.inr ⟨l, List.mem_cons_of_mem _ hlmem, hcl⟩

theorem no_nl_jsTrim (s : String) (h : ('\n' : Char) ∉ s.data) :
    ('\n' : Char) ∉ (jsTrim s).data := by
  intro hc
  exact h (mem_of_mem_trimCh _ _ hc)

theorem jsTrim_space_append (v : String) : jsTrim (" " ++ v) = jsTrim v := rfl

theorem fmUpsert_eq_append (m : List (String × String)) (k v : String)
    (h : m.any (fun e => e.1 == k) = false) : fmUpsert m k v = m ++ [(k, v)] := by
  unfold fmUpsert
  rw [if_neg (by simp [h])]

theorem keys_not_mem_of_any_false (m : List (String × String)) (k : String)
    (h : m.any (fun e => e.1 == k) = false) : k ∉ m.map (·.1) := by
  intro hmem
  obtain ⟨e, he, hek⟩ := List.mem_map.mp hmem
  have := List.any_eq_false.mp h e he
  simp at this
  exact this hek

theorem any_false_of_keys_not_mem (m : List (String × String)) (k : String)
    (h : k ∉ m.map (·.1)) : m.any (fun e => e.1 == k) = false := by
  rw [List.any_eq_false]
  intro e he
  simp only [beq_iff_eq]
  intro hek
  exact h (List.mem_map.mpr ⟨e, he, hek⟩)

/-- One rendered entry line, parsed back. -/
theorem parseYamlLine_render (obj : List (String × String)) (k v : String)
    (hk : ':' ∉ k.data) (hktrim : jsTrim k = k) (hvtrim : jsTrim v = v) :
    parseYamlLine obj (k ++ ": " ++ v) =
      if k == "" then obj else fmUpsert obj k v := by
  have hshape : k ++ ": " ++ v = k ++ String.mk [':'] ++ (" " ++ v) := by
    apply String.ext
    simp [String.data_append]
  have hsplit : jsSplit ':' (k ++ ": " ++ v) = k :: jsSplit ':' (" " ++ v) := by
    rw [hshape]
    exact jsSplit_append_sep ':' k (" " ++ v) hk
  obtain ⟨r1, rrest, hr⟩ := List.exists_cons_of_ne_nil (jsSplit_ne_nil ':' (" " ++ v))
  unfold parseYamlLine
  rw [hsplit, hr]
  simp only [List.length_cons, List.headI, List.tail]
  rw [if_neg (by omega)]
  by_cases hke : k = ""
  · rw [if_pos (by simp [hke]), if_pos (by simp [hke])]
  · rw [if_neg (by simp [hke]), if_neg (by simp [hke])]
    rw [← hr, jsJoin_jsSplit, jsTrim_space_append, hktrim, hvtrim]

/-- The rendered-entries fold: entries upserted in order, empty-key
entries skipped. -/
theorem foldl_parseYamlLine_render (m acc : List (String × String))
    (hm : ∀ e ∈ m, jsTrim e.1 = e.1 ∧ ':' ∉ e.1.data ∧ jsTrim e.2 = e.2)
    (hnodup : (m.map (·.1)).Nodup)
    (hdisj : ∀ kk ∈ m.map (·.1), kk ∉ acc.map (·.1)) :
    (renderFm m).foldl parseYamlLine acc = acc ++ m.filter (fun e => !(e.1 == "")) := by
  induction m generalizing acc with
  | nil => simp [renderFm]
  | cons e m ih =>
    obtain ⟨htrim, hcolon, hvtrim⟩ := hm e (List.mem_cons_self _ _)
    have hrender : renderFm (e :: m) = (e.1 ++ ": " ++ e.2) :: renderFm m := rfl
    rw [hrender, List.foldl_cons, parseYamlLine_render acc e.1 e.2 hcolon htrim hvtrim]
    by_cases hke : e.1 = ""
    · rw [if_pos (by simp [hke])]
      rw [ih acc (fun x hx => hm x (List.mem_cons_of_mem _ hx))
        (by simpa using hnodup.of_cons)
        (fun kk hkk => hdisj kk (by simp [hkk]))]
      have : List.filter (fun e => !(e.1 == "")) (e :: m)
          = List.filter (fun e => !(e.1 == "")) m := by
        rw [List.filter_cons, if_neg (by simp [hke])]
      rw [this]
    · rw [if_neg (by simp [hke])]
      have hknotacc : e.1 ∉ acc.map (·.1) := hdisj e.1 (by simp)
      rw [fmUpsert_eq_append acc e.1 e.2 (any_false_of_keys_not_mem acc e.1 hknotacc)]
      have hknotm : e.1 ∉ m.map (·.1) := by
        have := hnodup
        rw [show ((e :: m).map (·.1)) = e.1 :: m.map (·.1) from rfl] at this
        exact (List.nodup_cons.mp this).1
      rw [ih (acc ++ [(e.1, e.2)]) (fun x hx => hm x (List.mem_cons_of_mem _ hx))
        (by simpa using hnodup.of_cons)
        (by
          intro kk hkk
          rw [List.map_append, List.mem_append]
          rintro (hin | hin)
          · exact hdisj kk (by simp [hkk]) hin
          · simp at hin
            subst hin
            exact hknotm hkk)]
      have : List.filter (fun x => !(x.1 == "")) (e :: m)
          = (e.1, e.2) :: List.filter (fun x => !(x.1 == "")) m := by
        rw [List.filter_cons, if_pos (by simp [hke])]
      rw [this]
      simp

/-- `parseYaml` applied to a rendered mapping recovers the mapping minus
empty-key entries. -/
theorem parseYaml_render (m : List (String × String)) (hwf : WfFm m) :
    parseYaml (jsJoin '\n' (renderFm m)) = m.filter (fun e => !(e.1 == "")) := by
  rcases m with _ | ⟨e, m'⟩
  · rfl
  · unfold parseYaml
    rw [jsSplit_jsJoin '\n' (renderFm (e :: m')) (by simp [renderFm])
      (by
        intro l hl
        unfold renderFm at hl
        obtain ⟨x, hx, rfl⟩ := List.mem_map.mp hl
        obtain ⟨_, _, hk, _, hv⟩ := hwf.2 x hx
        intro hc
        rw [String.data_append, String.data_append] at hc
        rcases List.mem_append.mp hc with hc | hc
        · rcases List.mem_append.mp hc with hc | hc
          · exact hk hc
          · simp at hc
        · exact hv hc)]
    exact foldl_parseYamlLine_render (e :: m') []
      (fun x hx => by
        obtain ⟨h1, h2, _, h4, _⟩ := hwf.2 x hx
        exact ⟨h1, h2, h4⟩)
      hwf.1
      (by simp)

theorem keys_fmUpsert_present (m : List (String × String)) (k v : String)
    (h : m.any (fun e => e.1 == k) = true) :
    (fmUpsert m k v).map (·.1) = m.map (·.1) := by
  unfold fmUpsert
  rw [if_pos h, List.map_map]
  apply List.map_congr_left
  intro e _
  by_cases he : (e.1 == k) = true
  · show (if e.1 == k then (e.1, v) else e).1 = e.1
    rw [if_pos he]
  · show (if e.1 == k then (e.1, v) else e).1 = e.1
    rw [if_neg he]

theorem fmUpsert_wf (m : List (String × String)) (k v : String) (hm : WfFm m)
    (hk1 : jsTrim k = k) (hk2 : ':' ∉ k.data) (hk3 : '\n' ∉ k.data)
    (hv1 : jsTrim v = v) (hv2 : '\n' ∉ v.data) : WfFm (fmUpsert m k v) := by
  by_cases h : m.any (fun e => e.1 == k)
  · constructor
    · rw [keys_fmUpsert_present m k v h]
      exact hm.1
    · intro e he
      unfold fmUpsert at he
      rw [if_pos h] at he
      obtain ⟨x, hx, hxe⟩ := List.mem_map.mp he
      by_cases hxk : x.1 == k
      · rw [if_pos hxk] at hxe
        obtain ⟨w1, w2, w3, _, _⟩ := hm.2 x hx
        subst hxe
        exact ⟨w1, w2, w3, hv1, hv2⟩
      · rw [if_neg hxk] at hxe
        subst hxe
        exact hm.2 x hx
  · have hfalse : m.any (fun e => e.1 == k) = false := by
      revert h; cases m.any (fun e => e.1 == k) <;> simp
    rw [fmUpsert_eq_append m k v hfalse]
    constructor
    · rw [List.map_append]
      rw [List.nodup_append]
      refine ⟨hm.1, by simp, ?_⟩
      intro a ha hb
      simp at hb
      rw [hb] at ha
      exact keys_not_mem_of_any_false m k hfalse ha
    · intro e he
      rcases List.mem_append.mp he with he | he
      · exact hm.2 e he
      · simp at he
        subst he
        exact ⟨hk1, hk2, hk3, hv1, hv2⟩

theorem fmUpsert_mem_self (m : List (String × String)) (k v : String) :
    (k, v) ∈ fmUpsert m k v := by
  by_cases h : m.any (fun e => e.1 == k)
  · unfold fmUpsert
    rw [if_pos h]
    obtain ⟨e, he, hek⟩ := List.any_eq_true.mp h
    refine List.mem_map.mpr ⟨e, he, ?_⟩
    rw [if_pos hek]
    have : e.1 = k := by simpa using hek
    rw [this]
  · have hfalse : m.any (fun e => e.1 == k) = false := by
      revert h; cases m.any (fun e => e.1 == k) <;> simp
    rw [fmUpsert_eq_append m k v hfalse]
    simp

theorem fmLookup_of_mem (m : List (String × String)) (k v : String)
    (hnodup : (m.map (·.1)).Nodup) (hmem : (k, v) ∈ m) : fmLookup m k = some v := by
  induction m with
  | nil => cases hmem
  | cons e m ih =>
    by_cases hek : (e.1 == k) = true
    · unfold fmLookup
      rw [List.find?_cons_of_pos (p := fun x => x.1 == k) m hek]
      have hek' : e.1 = k := by simpa using hek
      rcases List.mem_cons.mp hmem with heq | hmem'
      · rw [← heq]
        rfl
      · exfalso
        have hkm : k ∈ m.map (·.1) := List.mem_map.mpr ⟨(k, v), hmem', rfl⟩
        rw [show ((e :: m).map (·.1)) = e.1 :: m.map (·.1) from rfl] at hnodup
        exact (List.nodup_cons.mp hnodup).1 (hek' ▸ hkm)
    · unfold fmLookup
      rw [List.find?_cons_of_neg (p := fun x => x.1 == k) m hek]
      rcases List.mem_cons.mp hmem with heq | hmem'
      · exfalso
        apply hek
        rw [← heq]
        simp
      · have := ih (by
          rw [show ((e :: m).map (·.1)) = e.1 :: m.map (·.1) from rfl] at hnodup
          exact (List.nodup_cons.mp hnodup).2) hmem'
        unfold fmLookup at this
        exact this

theorem parseYamlLine_wf (acc : List (String × String)) (line : String)
    (hline : ('\n' : Char) ∉ line.data) (h : WfFm acc) : WfFm (parseYamlLine acc line) := by
  unfold parseYamlLine
  by_cases h1 : (jsSplit ':' line).length < 2
  · rw [if_pos h1]; exact h
  · rw [if_neg h1]
    by_cases h2 : (jsSplit ':' line).headI == ""
    · rw [if_pos h2]; exact h
    · rw [if_neg h2]
      have hne := jsSplit_ne_nil ':' line
      have hmem : (jsSplit ':' line).headI ∈ jsSplit ':' line := by
        obtain ⟨h0, t0, he0⟩ := List.exists_cons_of_ne_nil hne
        rw [he0]
        simp [List.headI]
      apply fmUpsert_wf acc _ _ h
      · exact jsTrim_idem _
      · intro hc
        exact no_sep_of_mem_jsSplit ':' line _ hmem (mem_of_mem_trimCh _ _ hc)
      · intro hc
        exact hline (mem_of_mem_jsSplit_mem ':' line _ '\n' hmem (mem_of_mem_trimCh _ _ hc))
      · exact jsTrim_idem _
      · intro hc
        have hc' := mem_of_mem_trimCh _ _ hc
        rcases mem_data_jsJoin ':' (jsSplit ':' line).tail '\n' hc' with heq | ⟨l, hl, hcl⟩
        · cases heq
        · exact hline (mem_of_mem_jsSplit_mem ':' line l '\n' (List.mem_of_mem_tail hl) hcl)

theorem parseYaml_wf (c : String) : WfFm (parseYaml c) := by
  unfold parseYaml
  have hlines : ∀ l ∈ jsSplit '\n' c, ('\n' : Char) ∉ l.data :=
    fun l hl => no_sep_of_mem_jsSplit '\n' c l hl
  have : ∀ (lines : List String) (acc : List (String × String)),
      (∀ l ∈ lines, ('\n' : Char) ∉ l.data) → WfFm acc →
      WfFm (lines.foldl parseYamlLine acc) := by
    intro lines
    induction lines with
    | nil => intro acc _ h; exact h
    | cons l lines ih =>
      intro acc hnl hacc
      rw [List.foldl_cons]
      exact ih _ (fun x hx => hnl x (List.mem_cons_of_mem _ hx))
        (parseYamlLine_wf acc l (hnl l (List.mem_cons_self _ _)) hacc)
  exact this _ [] hlines ⟨List.nodup_nil, by simp⟩

theorem renderFm_not_marker (m : List (String × String)) (l : String)
    (hl : l ∈ renderFm m) : isMarkerLine l = false := by
  unfold renderFm at hl
  obtain ⟨e, _, rfl⟩ := List.mem_map.mp hl
  unfold isMarkerLine
  rw [beq_eq_false_iff_ne]
  intro heq
  have hcolon : (':' : Char) ∈ (jsTrim (e.1 ++ ": " ++ e.2)).data := by
    apply mem_trimCh_of_not_ws ':' _ (by decide)
    rw [String.data_append, String.data_append]
    refine List.mem_append.mpr (Or.inl (List.mem_append.mpr (Or.inr ?_)))
    simp [show (": " : String).data = [':', ' '] from rfl]
  rw [heq] at hcolon
  simp [show ("---" : String).data = ['-', '-', '-'] from rfl] at hcolon

theorem filter_wf (m : List (String × String)) (p : String × String → Bool)
    (h : WfFm m) : WfFm (m.filter p) := by
  constructor
  · exact ((List.filter_sublist m).map (·.1)).nodup h.1
  · intro e he
    exact h.2 e (List.mem_of_mem_filter he)

/-- `add_todo` remains truthy through render-and-reparse. -/
theorem addTodoTruthy_parse_render (m : List (String × String)) (hwf : WfFm m)
    (hmem : ("add_todo", "true") ∈ m) :
    addTodoTruthy (parseYaml (jsJoin '\n' (renderFm m))) = true := by
  rw [parseYaml_render m hwf]
  unfold addTodoTruthy
  have hmem' : ("add_todo", "true") ∈ m.filter (fun e => !(e.1 == "")) :=
    List.mem_filter.mpr ⟨hmem, by decide⟩
  have hnodup : ((m.filter (fun e => !(e.1 == ""))).map (·.1)).Nodup :=
    (filter_wf m _ hwf).1
  rw [fmLookup_of_mem _ "add_todo" "true" hnodup hmem']
  decide

/-! ## startsWith consequences -/

theorem jsStartsWith_length_le (s p : String) (h : jsStartsWith s p = true) :
    p.data.length ≤ s.data.length := by
  rw [jsStartsWith_iff] at h
  have := congrArg List.length h
  rw [List.length_take] at this
  omega

theorem jsStartsWith_mono (s q p : String) (hq : jsStartsWith s q = true)
    (hp : jsStartsWith q p = true) : jsStartsWith s p = true := by
  have hle : p.data.length ≤ q.data.length := jsStartsWith_length_le q p hp
  rw [jsStartsWith_iff] at hq hp ⊢
  rw [← hq] at hp
  rw [List.take_take, min_eq_left hle] at hp
  exact hp

theorem ne_empty_of_jsStartsWith (s p : String) (h : jsStartsWith s p = true)
    (hp : p ≠ "") : s ≠ "" := by
  intro hs
  subst hs
  rw [jsStartsWith_iff] at h
  simp [show ("" : String).data = [] from rfl] at h
  exact hp (String.ext (by rw [h]))

/-! ## Joined document membership -/

theorem mem_jsSplit_jsJoin_iff (L : List String) (l : String)
    (hm : ∀ x ∈ L, ('\n' : Char) ∉ x.data) :
    l ∈ jsSplit '\n' (jsJoin '\n' L) ↔ ((L = [] ∧ l = "") ∨ l ∈ L) := by
  rcases hL : L with _ | ⟨x, t⟩
  · constructor
    · intro h
      simp [jsJoin_nil, jsSplit_empty] at h
      exact Or.inl ⟨rfl, h⟩
    · rintro (⟨_, rfl⟩ | h)
      · simp [jsJoin_nil, jsSplit_empty]
      · cases h
  · rw [jsSplit_jsJoin '\n' (x :: t) (by simp) (hL ▸ hm)]
    constructor
    · exact fun h => Or.inr h
    · rintro (⟨hcon, _⟩ | h)
      · cases hcon
      · exact h

/-! ## Group structure lemmas -/

theorem keys_gPush (g : List (String × List String)) (k line : String) :
    (gPush g k line).map (·.1) = g.map (·.1) := by
  unfold gPush
  rw [List.map_map]
  apply List.map_congr_left
  intro e _
  by_cases he : (e.1 == k) = true
  · show (if e.1 == k then (e.1, e.2 ++ [line]) else e).1 = e.1
    rw [if_pos he]
  · show (if e.1 == k then (e.1, e.2 ++ [line]) else e).1 = e.1
    rw [if_neg he]

theorem keys_gEnsure_superset (g : List (String × List String)) (k k' : String)
    (h : k' ∈ g.map (·.1)) : k' ∈ (gEnsure g k).map (·.1) := by
  unfold gEnsure
  by_cases hp : (gLookup g k).isSome
  · rw [if_pos hp]; exact h
  · rw [if_neg hp]
    rw [List.map_append, List.mem_append]
    exact Or.inl h

theorem keys_gEnsure_self (g : List (String × List String)) (k : String) :
    k ∈ (gEnsure g k).map (·.1) := by
  unfold gEnsure
  by_cases hp : (gLookup g k).isSome
  · rw [if_pos hp]
    unfold gLookup at hp
    cases hfind : List.find? (fun e => e.1 == k) g with
    | none => rw [hfind] at hp; simp at hp
    | some e =>
      have hmem := List.mem_of_find?_eq_some hfind
      have hk : e.1 = k := by simpa using List.find?_some hfind
      exact List.mem_map.mpr ⟨e, hmem, hk⟩
  · rw [if_neg hp]
    rw [List.map_append, List.mem_append]
    exact Or.inr (by simp)

theorem gEnsure_mem_superset (g : List (String × List String)) (k : String)
    (e : String × List String) (h : e ∈ g) : e ∈ gEnsure g k := by
  unfold gEnsure
  by_cases hp : (gLookup g k).isSome
  · rw [if_pos hp]; exact h
  · rw [if_neg hp]; exact List.mem_append.mpr (Or.inl h)

theorem gPush_mem (g : List (String × List String)) (k line : String)
    (e : String × List String) (h : e ∈ g) :
    (if e.1 == k then (e.1, e.2 ++ [line]) else e) ∈ gPush g k line := by
  exact List.mem_map.mpr ⟨e, h, rfl⟩

theorem gPushAll_mem_of_ne (g : List (String × List String)) (k : String)
    (items : List String) (e : String × List String) (h : e ∈ g)
    (hne : (e.1 == k) = false) : e ∈ gPushAll g k items := by
  unfold gPushAll
  refine List.mem_map.mpr ⟨e, gEnsure_mem_superset g k e h, ?_⟩
  rw [if_neg (by simp_all)]

theorem gPushAll_mem_of_eq (g : List (String × List String)) (k : String)
    (items : List String) (e : String × List String) (h : e ∈ g)
    (heq : (e.1 == k) = true) : (e.1, e.2 ++ items) ∈ gPushAll g k items := by
  unfold gPushAll
  refine List.mem_map.mpr ⟨e, gEnsure_mem_superset g k e h, ?_⟩
  rw [if_pos heq]

theorem gPushAll_mem_key (g : List (String × List String)) (k : String)
    (items : List String) :
    ∃ ls, (k, ls ++ items) ∈ gPushAll g k items := by
  by_cases hp : (gLookup g k).isSome
  · unfold gLookup at hp
    cases hfind : List.find? (fun e => e.1 == k) g with
    | none => rw [hfind] at hp; simp at hp
    | some e =>
      have hmem := List.mem_of_find?_eq_some hfind
      have hk : e.1 = k := by simpa using List.find?_some hfind
      refine ⟨e.2, ?_⟩
      have := gPushAll_mem_of_eq g k items e hmem (by simp [hk])
      rw [hk] at this
      exact this
  · refine ⟨[], ?_⟩
    unfold gPushAll gEnsure
    rw [if_neg hp]
    refine List.mem_map.mpr ⟨(k, []), List.mem_append.mpr (Or.inr (by simp)), ?_⟩
    rw [if_pos (by simp)]

/-- The fold of `convertGroupsToContent` from an arbitrary accumulator. -/
theorem convertFold_acc (g : List (String × List String)) (acc : List String) :
    g.foldl (fun acc e => if e.2 != [] then acc ++ ["## " ++ e.1, ""] ++ e.2 ++ [""] else acc) acc
      = acc ++ g.foldl (fun acc e => if e.2 != [] then acc ++ ["## " ++ e.1, ""] ++ e.2 ++ [""] else acc) [] := by
  induction g generalizing acc with
  | nil => simp
  | cons e g ih =>
    rw [List.foldl_cons, List.foldl_cons]
    by_cases he : (e.2 != []) = true
    · rw [if_pos he, if_pos he]
      rw [ih (acc ++ ["## " ++ e.1, ""] ++ e.2 ++ [""]), ih (([] : List String) ++ ["## " ++ e.1, ""] ++ e.2 ++ [""])]
      simp
    · rw [if_neg he, if_neg he]
      exact ih acc

theorem mem_convertLines (g : List (String × List String)) (name l : String)
    (ls : List String) (hmem : (name, ls) ∈ g) (hl : l ∈ ls) :
    l ∈ g.foldl (fun acc e => if e.2 != [] then acc ++ ["## " ++ e.1, ""] ++ e.2 ++ [""] else acc) [] := by
  induction g with
  | nil => cases hmem
  | cons e g ih =>
    rw [List.foldl_cons]
    rcases List.mem_cons.mp hmem with heq | hmem'
    · rw [← heq]
      have hne : (ls != []) = true := by
        cases ls with
        | nil => cases hl
        | cons a t => simp
      rw [if_pos (by simpa [← heq] using hne)]
      rw [convertFold_acc]
      refine List.mem_append.mpr (Or.inl ?_)
      simp [hl]
    · by_cases he : (e.2 != []) = true
      · rw [if_pos he, convertFold_acc]
        exact List.mem_append.mpr (Or.inr (ih hmem'))
      · rw [if_neg he]
        exact ih hmem'

theorem convertLines_no_nl (g : List (String × List String))
    (hnl : ∀ e ∈ g, ('\n' : Char) ∉ e.1.data ∧ ∀ l ∈ e.2, ('\n' : Char) ∉ l.data) :
    ∀ l ∈ g.foldl (fun acc e => if e.2 != [] then acc ++ ["## " ++ e.1, ""] ++ e.2 ++ [""] else acc) [],
      ('\n' : Char) ∉ l.data := by
  induction g with
  | nil => simp
  | cons e g ih =>
    intro l hl
    rw [List.foldl_cons] at hl
    by_cases he : (e.2 != []) = true
    · rw [if_pos he, convertFold_acc] at hl
      rcases List.mem_append.mp hl with hl | hl
      · have hl' : l ∈ ("## " ++ e.1) :: "" :: (e.2 ++ [""]) := by simpa using hl
        rcases List.mem_cons.mp hl' with rfl | hl2
        · intro hc
          rw [String.data_append] at hc
          rcases List.mem_append.mp hc with hc | hc
          · simp [show ("## " : String).data = ['#', '#', ' '] from rfl] at hc
          · exact (hnl e (List.mem_cons_self _ _)).1 hc
        · rcases List.mem_cons.mp hl2 with rfl | hl3
          · decide
          · rcases List.mem_append.mp hl3 with hl4 | hl5
            · exact (hnl e (List.mem_cons_self _ _)).2 l hl4
            · have hemp : l = "" := by simpa using hl5
              subst hemp
              decide
      · exact ih (fun x hx => hnl x (List.mem_cons_of_mem _ hx)) l hl
    · rw [if_neg he] at hl
      exact ih (fun x hx => hnl x (List.mem_cons_of_mem _ hx)) l hl

theorem mem_convertGroups (g : List (String × List String))
    (hnl : ∀ e ∈ g, ('\n' : Char) ∉ e.1.data ∧ ∀ l ∈ e.2, ('\n' : Char) ∉ l.data)
    (name l : String) (ls : List String) (hmem : (name, ls) ∈ g) (hl : l ∈ ls) :
    l ∈ jsSplit '\n' (convertGroupsToContent g) := by
  unfold convertGroupsToContent
  rw [mem_jsSplit_jsJoin_iff _ _ (convertLines_no_nl g hnl)]
  exact Or.inr (mem_convertLines g name l ls hmem hl)

/-- First-occurrence decomposition for an arbitrary Bool predicate. -/
theorem exists_first_sat (p : α → Bool) (ls : List α) :
    (∀ l ∈ ls, p l = false) ∨
      ∃ A m B, ls = A ++ m :: B ∧ (∀ l ∈ A, p l = false) ∧ p m = true := by
  induction ls with
  | nil => exact Or.inl (by simp)
  | cons a ls ih =>
    by_cases ha : p a
    · exact Or.inr ⟨[], a, ls, by simp, by simp, ha⟩
    · rcases ih with h | ⟨A, m, B, hsplit, hA, hm⟩
      · refine Or.inl ?_
        intro l hl
        rcases List.mem_cons.mp hl with rfl | hl
        · simpa using ha
        · exact h l hl
      · refine Or.inr ⟨a :: A, m, B, by rw [hsplit]; rfl, ?_, hm⟩
        intro l hl
        rcases List.mem_cons.mp hl with rfl | hl
        · simpa using ha
        · exact hA l hl

theorem ofNat_bne_neg_one (k : Nat) : (Int.ofNat k != -1) = true := by
  rw [bne_iff_ne]
  intro hcon
  have hpos : (0 : Int) ≤ Int.ofNat k := Int.ofNat_nonneg k
  rw [hcon] at hpos
  norm_num at hpos

theorem no_nl_jsDrop (s : String) (n : Nat) (h : ('\n' : Char) ∉ s.data) :
    ('\n' : Char) ∉ (jsDrop s n).data := by
  intro hc
  exact h (List.drop_subset n s.data hc)

/-- Canonical case analysis for the frontmatter scan: no marker, exactly
one marker, or a first and a second marker. -/
theorem fmScan_cases (ls : List String) :
    ((∀ l ∈ ls, isMarkerLine l = false) ∧ fmScan ls = (-1, -1)) ∨
    (∃ A m B, ls = A ++ m :: B ∧ (∀ l ∈ A, isMarkerLine l = false) ∧
      isMarkerLine m = true ∧ (∀ l ∈ B, isMarkerLine l = false) ∧
      fmScan ls = (Int.ofNat A.length, -1)) ∨
    (∃ A m B m' C, ls = A ++ m :: (B ++ m' :: C) ∧
      (∀ l ∈ A, isMarkerLine l = false) ∧ isMarkerLine m = true ∧
      (∀ l ∈ B, isMarkerLine l = false) ∧ isMarkerLine m' = true ∧
      fmScan ls = (Int.ofNat A.length, Int.ofNat (A.length + 1 + B.length))) := by
  rcases exists_first_sat isMarkerLine ls with h | ⟨A, m, B, hsplit, hA, hm⟩
  · exact Or.inl ⟨h, fmScan_all_not ls h⟩
  · rcases exists_first_sat isMarkerLine B with hB | ⟨B1, m', B2, hB, hB1, hm'⟩
    · refine Or.inr (Or.inl ⟨A, m, B, hsplit, hA, hm, hB, ?_⟩)
      rw [hsplit]
      exact fmScan_one_marker A m B hA hm hB
    · refine Or.inr (Or.inr ⟨A, m, B1, m', B2, ?_, hA, hm, hB1, hm', ?_⟩)
      · rw [hsplit, hB]
      · rw [hsplit, hB]
        exact fmScan_two_markers A m B1 m' B2 hA hm hB1 hm'

/-! ## Tag scanner characterization -/

theorem scanLine_nil (line : String) : scanLine line [] = none := rfl

theorem scanLine_cons_some (line tag : String) (rest : List String) (txt : String)
    (h : tagMatch line tag = some txt) :
    scanLine line (tag :: rest) = some (tag, txt) := by
  show (match tagMatch line tag with
    | some txt => some (tag, txt)
    | none => scanLine line rest) = some (tag, txt)
  rw [h]

theorem scanLine_cons_none (line tag : String) (rest : List String)
    (h : tagMatch line tag = none) :
    scanLine line (tag :: rest) = scanLine line rest := by
  show (match tagMatch line tag with
    | some txt => some (tag, txt)
    | none => scanLine line rest) = scanLine line rest
  rw [h]

theorem scanLine_none_iff (line : String) (tags : List String) :
    scanLine line tags = none ↔ ∀ tg ∈ tags, tagMatch line tg = none := by
  induction tags with
  | nil => simp [scanLine_nil]
  | cons tag rest ih =>
    cases h : tagMatch line tag with
    | some txt =>
      rw [scanLine_cons_some line tag rest txt h]
      constructor
      · intro hcon; cases hcon
      · intro hall
        rw [hall tag (List.mem_cons_self _ _)] at h
        cases h
    | none =>
      rw [scanLine_cons_none line tag rest h, ih]
      constructor
      · intro hall tg htg
        rcases List.mem_cons.mp htg with rfl | htg
        · exact h
        · exact hall tg htg
      · intro hall tg htg
        exact hall tg (List.mem_cons_of_mem _ htg)

theorem scanLine_some_iff (line : String) (tags : List String) (t c : String) :
    scanLine line tags = some (t, c) ↔
      ∃ A B, tags = A ++ t :: B ∧ (∀ a ∈ A, tagMatch line a = none) ∧
        tagMatch line t = some c := by
  induction tags with
  | nil =>
    rw [scanLine_nil]
    constructor
    · intro hcon; cases hcon
    · rintro ⟨A, B, hsplit, -, -⟩
      exact absurd hsplit.symm (List.append_ne_nil_of_right_ne_nil A (by simp))
  | cons tag rest ih =>
    cases h : tagMatch line tag with
    | some txt =>
      rw [scanLine_cons_some line tag rest txt h]
      constructor
      · intro hsome
        have hpair : (tag, txt) = (t, c) := Option.some.inj hsome
        have ht : tag = t := congrArg Prod.fst hpair
        have hc : txt = c := congrArg Prod.snd hpair
        exact ⟨[], rest, by rw [← ht]; rfl, by simp, by rw [← ht, h, hc]⟩
      · rintro ⟨A, B, hsplit, hnone, hmatch⟩
        cases A with
        | nil =>
          simp only [List.nil_append, List.cons.injEq] at hsplit
          rw [← hsplit.1, h] at hmatch
          rw [Option.some.inj hmatch, hsplit.1]
        | cons a A' =>
          simp only [List.cons_append, List.cons.injEq] at hsplit
          have := hnone a (by simp)
          rw [← hsplit.1, h] at this
          cases this
    | none =>
      rw [scanLine_cons_none line tag rest h, ih]
      constructor
      · rintro ⟨A, B, hsplit, hnone, hmatch⟩
        refine ⟨tag :: A, B, by rw [hsplit]; rfl, ?_, hmatch⟩
        intro a ha
        rcases List.mem_cons.mp ha with rfl | ha
        · exact h
        · exact hnone a ha
      · rintro ⟨A, B, hsplit, hnone, hmatch⟩
        cases A with
        | nil =>
          simp only [List.nil_append, List.cons.injEq] at hsplit
          rw [← hsplit.1, h] at hmatch
          cases hmatch
        | cons a A' =>
          simp only [List.cons_append, List.cons.injEq] at hsplit
          refine ⟨A', B, hsplit.2, ?_, hmatch⟩
          intro x hx
          exact hnone x (List.mem_cons_of_mem _ hx)

/-! ## separateExistingAndNewTodos invariants -/

theorem sepStep_keys (st : SepSt) (line : String) (k : String)
    (h : k ∈ st.groups.map (·.1)) : k ∈ (separateStep st line).groups.map (·.1) := by
  unfold separateStep
  by_cases h1 : jsStartsWith (jsTrim line) "## " = true
  · rw [if_pos h1]
    exact keys_gEnsure_superset _ _ _ h
  · rw [if_neg h1]
    by_cases h2 : (jsStartsWith (jsTrim line) "- [ ]" || jsStartsWith (jsTrim line) "- [x]") = true
    · rw [if_pos h2]
      by_cases h3 : (st.inGroup && st.currentGroup != "") = true
      · rw [if_pos h3]
        show k ∈ (gPush st.groups st.currentGroup line).map (·.1)
        rw [keys_gPush]
        exact h
      · rw [if_neg h3]
        show k ∈ (gPush (gEnsure st.groups "未分類") "未分類" line).map (·.1)
        rw [keys_gPush]
        exact keys_gEnsure_superset _ _ _ h
    · rw [if_neg h2]
      exact h

theorem sepFold_keys (lines : List String) (st : SepSt) (k : String)
    (h : k ∈ st.groups.map (·.1)) :
    k ∈ (lines.foldl separateStep st).groups.map (·.1) := by
  induction lines generalizing st with
  | nil => exact h
  | cons l lines ih =>
    rw [List.foldl_cons]
    exact ih (separateStep st l) (sepStep_keys st l k h)

theorem sepFold_header (lines : List String) (st : SepSt) (line : String)
    (hline : line ∈ lines) (hh : jsStartsWith (jsTrim line) "## " = true) :
    jsTrim (jsDrop (jsTrim line) 3) ∈ (lines.foldl separateStep st).groups.map (·.1) := by
  induction lines generalizing st with
  | nil => cases hline
  | cons l lines ih =>
    rw [List.foldl_cons]
    rcases List.mem_cons.mp hline with rfl | hline'
    · apply sepFold_keys
      unfold separateStep
      rw [if_pos hh]
      exact keys_gEnsure_self _ _
    · exact ih (separateStep st l) hline'

theorem gEnsure_nl (g : List (String × List String)) (k : String)
    (hg : GNl g) (hk : ('\n' : Char) ∉ k.data) : GNl (gEnsure g k) := by
  intro e he
  unfold gEnsure at he
  by_cases hp : (gLookup g k).isSome
  · rw [if_pos hp] at he
    exact hg e he
  · rw [if_neg hp] at he
    rcases List.mem_append.mp he with he | he
    · exact hg e he
    · simp at he
      rw [he]
      exact ⟨hk, by simp⟩

theorem gPush_nl (g : List (String × List String)) (k line : String)
    (hg : GNl g) (hline : ('\n' : Char) ∉ line.data) : GNl (gPush g k line) := by
  intro e he
  unfold gPush at he
  obtain ⟨x, hx, hxe⟩ := List.mem_map.mp he
  by_cases hxk : (x.1 == k) = true
  · rw [if_pos hxk] at hxe
    rw [← hxe]
    obtain ⟨h1, h2⟩ := hg x hx
    refine ⟨h1, ?_⟩
    intro l hl
    rcases List.mem_append.mp hl with hl | hl
    · exact h2 l hl
    · simp at hl
      rw [hl]
      exact hline
  · rw [if_neg hxk] at hxe
    rw [← hxe]
    exact hg x hx

theorem no_nl_jsTrim_of (s : String) (h : ('\n' : Char) ∉ s.data) :
    ('\n' : Char) ∉ (jsTrim s).data := no_nl_jsTrim s h

theorem sepStep_nl (st : SepSt) (line : String) (hline : ('\n' : Char) ∉ line.data)
    (h : GNl st.groups) : GNl (separateStep st line).groups := by
  unfold separateStep
  have hname : ('\n' : Char) ∉ (jsTrim (jsDrop (jsTrim line) 3)).data :=
    no_nl_jsTrim _ (no_nl_jsDrop _ 3 (no_nl_jsTrim _ hline))
  by_cases h1 : jsStartsWith (jsTrim line) "## " = true
  · rw [if_pos h1]
    exact gEnsure_nl _ _ h hname
  · rw [if_neg h1]
    by_cases h2 : (jsStartsWith (jsTrim line) "- [ ]" || jsStartsWith (jsTrim line) "- [x]") = true
    · rw [if_pos h2]
      by_cases h3 : (st.inGroup && st.currentGroup != "") = true
      · rw [if_pos h3]
        exact gPush_nl _ _ _ h hline
      · rw [if_neg h3]
        exact gPush_nl _ _ _ (gEnsure_nl _ _ h (by decide)) hline
    · rw [if_neg h2]
      exact h

theorem sepFold_nl (lines : List String) (st : SepSt)
    (hlines : ∀ l ∈ lines, ('\n' : Char) ∉ l.data) (h : GNl st.groups) :
    GNl ((lines.foldl separateStep st).groups) := by
  induction lines generalizing st with
  | nil => exact h
  | cons l lines ih =>
    rw [List.foldl_cons]
    exact ih (separateStep st l) (fun x hx => hlines x (List.mem_cons_of_mem _ hx))
      (sepStep_nl st l (hlines l (List.mem_cons_self _ _)) h)

theorem default_groups_nl : GNl (DEFAULT_GROUPS.map (fun g => (g, ([] : List String)))) := by
  intro e he
  fin_cases he <;> exact ⟨by decide, by simp⟩

theorem separate_groups_nl (c : String) :
    GNl (separateExistingAndNewTodos c).1 := by
  unfold separateExistingAndNewTodos
  exact sepFold_nl _ _ (fun l hl => no_sep_of_mem_jsSplit '\n' c l hl) default_groups_nl

theorem classifyExistingGroups_nl (content : Option String) :
    GNl (classifyExistingGroups content) := by
  cases content with
  | none => intro e he; cases he
  | some c =>
    show GNl (if jsTrim c != "" then (separateExistingAndNewTodos c).1 else [])
    by_cases h : (jsTrim c != "") = true
    · rw [if_pos h]
      exact separate_groups_nl c
    · rw [if_neg h]
      intro e he; cases he

/-! ## delayed-policy characterization -/

theorem delayedKeepChecked_iff (s : Settings) (now : Int) (line : String)
    (hstart : jsStartsWith line "- [x]" = true) :
    delayedKeepChecked s now line = true ↔
      (match s.completedTodos.find? (fun r => r.text == jsDrop line 6) with
       | some r => now - r.completedAt < s.autoDeleteHours * 3600 * 1000
       | none => False) := by
  unfold delayedKeepChecked
  rw [hstart]
  cases hfind : s.completedTodos.find? (fun r => r.text == jsDrop line 6) with
  | none => simp
  | some r => simp

theorem checked_not_unchecked (l : String) (h : jsStartsWith l "- [x]" = true) :
    jsStartsWith l "- [ ]" = false :=
  not_jsStartsWith_of_ne l "- [x]" "- [ ]" (by decide) (by decide) h

theorem unchecked_not_checked (l : String) (h : jsStartsWith l "- [ ]" = true) :
    jsStartsWith l "- [x]" = false :=
  not_jsStartsWith_of_ne l "- [ ]" "- [x]" (by decide) (by decide) h

theorem startsWith_item6_5 (t : String) (h : jsStartsWith t "- [ ] " = true) :
    jsStartsWith t "- [ ]" = true :=
  jsStartsWith_mono t "- [ ] " "- [ ]" h (by decide)

theorem rebuildOutput_delayed (s : Settings) (now : Int) (existing : String)
    (N : List String) (h : s.completedTodoHandling = TodoHandling.delayed) :
    rebuildOutput s now existing N =
      jsJoin '\n' ((jsSplit '\n' existing).filter (delayedKeepChecked s now) ++
        (jsSplit '\n' existing).filter (fun l => jsStartsWith l "- [ ]") ++ N) := by
  unfold rebuildOutput
  rw [h]

theorem rebuildOutput_immediate (s : Settings) (now : Int) (existing : String)
    (N : List String) (h : s.completedTodoHandling = TodoHandling.immediate) :
    rebuildOutput s now existing N =
      jsJoin '\n' ((jsSplit '\n' existing).filter (fun l => jsStartsWith l "- [ ]") ++ N) := by
  unfold rebuildOutput
  rw [h]

theorem rebuildOutput_keep (s : Settings) (now : Int) (existing : String)
    (N : List String) (h : s.completedTodoHandling = TodoHandling.keep) :
    rebuildOutput s now existing N =
      jsJoin '\n' ((jsSplit '\n' existing).filter (fun l => jsStartsWith l "- [x]") ++
        (jsSplit '\n' existing).filter (fun l => jsStartsWith l "- [ ]") ++ N) := by
  unfold rebuildOutput
  rw [h]

theorem gPushAll_nl (g : List (String × List String)) (k : String) (items : List String)
    (hg : GNl g) (hk : ('\n' : Char) ∉ k.data)
    (hitems : ∀ t ∈ items, ('\n' : Char) ∉ t.data) : GNl (gPushAll g k items) := by
  intro e he
  unfold gPushAll at he
  obtain ⟨x, hx, hxe⟩ := List.mem_map.mp he
  have hxg : ('\n' : Char) ∉ x.1.data ∧ ∀ l ∈ x.2, ('\n' : Char) ∉ l.data :=
    gEnsure_nl g k hg hk x hx
  by_cases hxk : (x.1 == k) = true
  · rw [if_pos hxk] at hxe
    rw [← hxe]
    refine ⟨hxg.1, ?_⟩
    intro l hl
    rcases List.mem_append.mp hl with hl | hl
    · exact hxg.2 l hl
    · exact hitems l hl
  · rw [if_neg hxk] at hxe
    rw [← hxe]
    exact hxg

theorem classifyWritten_eq_fallback (g : List (String × List String))
    (newTodos : List String) (resp : Option String)
    (h : resp = none ∨ resp = some "" ∨
      ∃ c, resp = some c ∧ jsTrim (mergeExistingAndNewClassification g c) = "") :
    classifyWritten g newTodos resp = classifyFallback g newTodos := by
  rcases h with rfl | rfl | ⟨c, rfl, htrim⟩
  · rfl
  · rfl
  · show (if c == "" then classifyFallback g newTodos
      else
        if jsTrim (mergeExistingAndNewClassification g c) == "" then
          classifyFallback g newTodos
        else mergeExistingAndNewClassification g c) = classifyFallback g newTodos
    by_cases hc : (c == "") = true
    · rw [if_pos hc]
    · rw [if_neg hc, if_pos (by simp [htrim])]

/-! # Claims -/

/-- C7 counterexample: the claim "a frontmatter block is recognized iff
the first non-empty region of the document consists of a marker line,
key: value lines, and a second marker line" is false on the code: a
document whose first non-empty content is ordinary text is still
recognized, because the scan simply takes the first two `---` lines
wherever they occur (src/main.ts 215-226). -/
theorem claim_C7_counterexample :
    codeFmRecognized "hello\n---\nfoo: bar\n---" = true ∧
    specFmRecognized "hello\n---\nfoo: bar\n---" = false := by
  decide

/-- C7 (amended): a frontmatter block is recognized iff the document
contains at least two lines whose trimmed content is `---`; the block
runs from the first such line to the second, with no constraint on the
content before the first marker or on the lines between the markers. -/
theorem claim_C7 (content : String) :
    codeFmRecognized content = true ↔
      2 ≤ ((jsSplit '\n' content).filter isMarkerLine).length := by
  unfold codeFmRecognized
  rcases fmScan_cases (jsSplit '\n' content) with ⟨hall, heq⟩ |
    ⟨A, m, B, hsplit, hA, hm, hB, heq⟩ | ⟨A, m, B, m', C, hsplit, hA, hm, hB, hm', heq⟩
  · rw [heq]
    have hf : (jsSplit '\n' content).filter isMarkerLine = [] :=
      List.filter_eq_nil_iff.mpr (fun a ha => by simp [hall a ha])
    rw [hf]
    simp
  · rw [heq]
    have hf : (jsSplit '\n' content).filter isMarkerLine = [m] := by
      rw [hsplit, List.filter_append, List.filter_cons_of_pos hm,
        List.filter_eq_nil_iff.mpr (fun a ha => by simp [hA a ha]),
        List.filter_eq_nil_iff.mpr (fun a ha => by simp [hB a ha])]
      rfl
    rw [hf]
    simp
  · rw [heq]
    have hf : (jsSplit '\n' content).filter isMarkerLine
        = m :: m' :: C.filter isMarkerLine := by
      rw [hsplit, List.filter_append, List.filter_cons_of_pos hm,
        List.filter_eq_nil_iff.mpr (fun a ha => by simp [hA a ha]),
        List.filter_append,
        List.filter_eq_nil_iff.mpr (fun a ha => by simp [hB a ha]),
        List.filter_cons_of_pos hm']
      rfl
    rw [hf]
    simp only [List.length_cons]
    constructor
    · intro _
      omega
    · intro _
      exact ofNat_bne_neg_one _

/-- C8: the per-line tag scan yields at most one item per line (its
result is a single optional match); a line produces an item iff some tag
in the list matches `^\s*<tag>\s+(.+)$`, tags are tested in list order,
and the first matching tag wins: the scan returns `(t, c)` exactly when
the tag list splits as `A ++ t :: B` with every tag in `A` failing to
match and `t` matching with capture `c`. -/
theorem claim_C8 (line : String) (tags : List String) :
    (∀ t c, scanLine line tags = some (t, c) ↔
      ∃ A B, tags = A ++ t :: B ∧ (∀ a ∈ A, tagMatch line a = none) ∧
        tagMatch line t = some c) ∧
    (scanLine line tags = none ↔ ∀ tg ∈ tags, tagMatch line tg = none) :=
  ⟨fun t c => scanLine_some_iff line tags t c, scanLine_none_iff line tags⟩

/-- C9: `separateExistingAndNewTodos` always returns an empty `newTodos`
list, and its `existingGroups` mapping always contains the seven
canonical group names as keys, plus a key for every `## ` header line of
the input. -/
theorem claim_C9 (content : String) :
    (separateExistingAndNewTodos content).2 = [] ∧
    (∀ g ∈ DEFAULT_GROUPS,
      g ∈ ((separateExistingAndNewTodos content).1).map (·.1)) ∧
    (∀ line ∈ jsSplit '\n' content, jsStartsWith (jsTrim line) "## " = true →
      jsTrim (jsDrop (jsTrim line) 3) ∈ ((separateExistingAndNewTodos content).1).map (·.1)) := by
  refine ⟨rfl, ?_, ?_⟩
  · intro g hg
    apply sepFold_keys
    show g ∈ (DEFAULT_GROUPS.map (fun g => (g, ([] : List String)))).map (·.1)
    rw [List.map_map]
    simpa using hg
  · intro line hline hh
    exact sepFold_header _ _ line hline hh

/-- C9 witness: instance of the theorem at a concrete document. -/
theorem claim_C9_witness :
    jsTrim (jsDrop (jsTrim "## Alpha") 3) ∈
      ((separateExistingAndNewTodos "## Alpha\n- [ ] x").1).map (·.1) :=
  (claim_C9 "## Alpha\n- [ ] x").2.2 "## Alpha" (by decide) (by decide)

/-- C1 counterexample: the claim fails for the malformed (non-JSON)
response `"- [ ] x"` — `JSON.parse` throws on it, so the code takes the
markdown-merge path; the merge output is non-empty, so no fallback runs:
the existing item line `- [ ] c (f)` sitting in the non-canonical group
`Custom` is dropped from the written document, and the newly collected
item line `- [ ] b (g)` does not appear in it either, contradicting both
halves of the claimed guarantee. -/
theorem claim_C1_counterexample :
    ("- [ ] c (f)" ∈ taskLines "## Custom\n- [ ] c (f)") ∧
    ("- [ ] c (f)" ∉ jsSplit '\n'
      (classifyWritten (classifyExistingGroups (some "## Custom\n- [ ] c (f)"))
        ["- [ ] b (g)"] (some "- [ ] x"))) ∧
    ("- [ ] b (g)" ∉ jsSplit '\n'
      (classifyWritten (classifyExistingGroups (some "## Custom\n- [ ] c (f)"))
        ["- [ ] b (g)"] (some "- [ ] x"))) := by
  decide

/-- C1 (amended): the lossless-fallback guarantee holds exactly on the
fallback path — when the classifier response is missing or empty, or
when the markdown merge of a response that is not JSON-with-`groups`
produces blank output. There the written document contains every item
line of every parsed existing group and all newly collected item lines
(in the catch-all group). A non-empty malformed response whose markdown
merge is non-blank instead produces the merge output, which preserves
canonical groups only and contains the response's item lines rather than
the collected ones. -/
theorem claim_C1 (content : Option String) (newTodos : List String) (resp : Option String)
    (hnl : ∀ t ∈ newTodos, ('\n' : Char) ∉ t.data)
    (hresp : resp = none ∨ resp = some "" ∨
      ∃ c, resp = some c ∧
        jsTrim (mergeExistingAndNewClassification (classifyExistingGroups content) c) = "") :
    (∀ name ls, (name, ls) ∈ classifyExistingGroups content →
      ∀ l ∈ ls, l ∈ jsSplit '\n'
        (classifyWritten (classifyExistingGroups content) newTodos resp)) ∧
    (∀ t ∈ newTodos, t ∈ jsSplit '\n'
      (classifyWritten (classifyExistingGroups content) newTodos resp)) := by
  rw [classifyWritten_eq_fallback _ _ _ hresp]
  unfold classifyFallback
  have hGNl : GNl (gPushAll (classifyExistingGroups content) "未分類" newTodos) :=
    gPushAll_nl _ _ _ (classifyExistingGroups_nl content) (by decide) hnl
  constructor
  · intro name ls hmem l hl
    by_cases hname : (name == "未分類") = true
    · have := gPushAll_mem_of_eq (classifyExistingGroups content) "未分類" newTodos
        (name, ls) hmem hname
      exact mem_convertGroups _ hGNl name l (ls ++ newTodos) this
        (List.mem_append.mpr (Or.inl hl))
    · have := gPushAll_mem_of_ne (classifyExistingGroups content) "未分類" newTodos
        (name, ls) hmem (by simpa using hname)
      exact mem_convertGroups _ hGNl name l ls this hl
  · intro t ht
    obtain ⟨ls, hmem⟩ := gPushAll_mem_key (classifyExistingGroups content) "未分類" newTodos
    exact mem_convertGroups _ hGNl "未分類" t (ls ++ newTodos) hmem
      (List.mem_append.mpr (Or.inr ht))

/-- C1 witness: the fallback on a missing response preserves a
non-canonical existing group and places the new item in the catch-all. -/
theorem claim_C1_witness :
    "- [ ] c (f)" ∈ jsSplit '\n'
      (classifyWritten (classifyExistingGroups (some "## Custom\n- [ ] c (f)"))
        ["- [ ] b (g)"] none) :=
  (claim_C1 (some "## Custom\n- [ ] c (f)") ["- [ ] b (g)"] none
    (by decide) (Or.inl rfl)).1 "Custom" ["- [ ] c (f)"] (by decide)
    "- [ ] c (f)" (by decide)

/-- C2: the claim describes record creation that the code does not
contain — nothing in the repository ever writes
`settings.completedTodos` (it is only read by the `delayed` filter), so
observing a checked line for the first time creates no record, and under
the `delayed` policy the line is dropped immediately. At the failing
input below the stored record list stays empty and the checked line
vanishes from the rebuilt output. -/
theorem claim_C2 :
    ((collectTodosRun [⟨"TODO.md", "TODO", "- [x] old task\n- [ ] keep"⟩]
      (mkSettings [] ["#TODO"] TodoHandling.delayed 1 []) 1000).2.1).completedTodos = [] ∧
    "- [x] old task" ∉ jsSplit '\n'
      (readV (collectTodosRun [⟨"TODO.md", "TODO", "- [x] old task\n- [ ] keep"⟩]
        (mkSettings [] ["#TODO"] TodoHandling.delayed 1 []) 1000).1 "TODO.md") := by
  decide

/-- C5 counterexample: the completed-item sweep is not idempotent. For
the output document (path equals the configured output path) containing
a checked line and no frontmatter markers, under a non-immediate policy
the first application synthesizes an empty frontmatter block containing
a blank line (`---`, ``, `---`), and the second application removes the
blank line, so `f(f(x)) ≠ f(x)`. -/
theorem claim_C5_counterexample :
    processCompletedTodos (mkSettings [] ["#TODO"] TodoHandling.keep 24 [])
        (processCompletedTodos (mkSettings [] ["#TODO"] TodoHandling.keep 24 [])
          "- [x] a" "TODO.md") "TODO.md"
      ≠ processCompletedTodos (mkSettings [] ["#TODO"] TodoHandling.keep 24 [])
          "- [x] a" "TODO.md" := by
  decide

/-- C6 counterexample: the rebuilt output's rendered item lines need not
be a set. With an existing output document already containing the same
unchecked line twice, the rebuild keeps both copies (the dedup set only
guards newly collected lines, the rebuild filters pass existing lines
through unchanged). -/
theorem claim_C6_counterexample :
    ¬ (taskLines (readV (collectTodos [⟨"TODO.md", "TODO", "- [ ] a\n- [ ] a"⟩]
        (mkSettings [] ["#TODO"] TodoHandling.immediate 24 []) 0).1 "TODO.md")).Nodup := by
  decide

/-- C3 counterexample: the claim's "a record whose text matches exists
and is fresh" reading fails: with two stored records of the same text,
the code tests freshness of the *first* matching record only
(`Array.find`), so a checked line is dropped although a fresh record
with matching text exists. -/
theorem claim_C3_counterexample :
    (∃ r ∈ ([⟨"t", 0⟩, ⟨"t", 3600000⟩] : List CompletedTodo),
        r.text = jsDrop "- [x] t" 6 ∧ (3600000 : Int) - r.completedAt < 1 * 3600 * 1000) ∧
    "- [x] t" ∉ jsSplit '\n'
      (rebuildOutput (mkSettings [] ["#TODO"] TodoHandling.delayed 1 [⟨"t", 0⟩, ⟨"t", 3600000⟩])
        3600000 "- [x] t" []) := by
  decide

/-- C3 (amended): under the `delayed` policy, a checked existing line is
kept in the rebuilt output iff the *first* stored record whose text
equals the line after the 6-character checked prefix satisfies
`now - completedAt < autoDeleteHours * 3600 * 1000`; every unchecked
existing line and every new line is always kept. -/
theorem claim_C3 (s : Settings) (now : Int) (existing : String) (N : List String)
    (hdel : s.completedTodoHandling = TodoHandling.delayed)
    (hN : ∀ t ∈ N, jsStartsWith t "- [ ] " = true ∧ ('\n' : Char) ∉ t.data) :
    (∀ line ∈ jsSplit '\n' existing, jsStartsWith line "- [x]" = true →
      (line ∈ jsSplit '\n' (rebuildOutput s now existing N) ↔
        match s.completedTodos.find? (fun r => r.text == jsDrop line 6) with
        | some r => now - r.completedAt < s.autoDeleteHours * 3600 * 1000
        | none => False)) ∧
    (∀ line ∈ jsSplit '\n' existing, jsStartsWith line "- [ ]" = true →
      line ∈ jsSplit '\n' (rebuildOutput s now existing N)) ∧
    (∀ t ∈ N, t ∈ jsSplit '\n' (rebuildOutput s now existing N)) := by
  have hlnl : ∀ l ∈ jsSplit '\n' existing, ('\n' : Char) ∉ l.data :=
    fun l hl => no_sep_of_mem_jsSplit '\n' existing l hl
  rw [rebuildOutput_delayed s now existing N hdel]
  have hparts : ∀ l ∈ (jsSplit '\n' existing).filter (delayedKeepChecked s now) ++
      (jsSplit '\n' existing).filter (fun l => jsStartsWith l "- [ ]") ++ N,
      ('\n' : Char) ∉ l.data := by
    intro l hl
    rcases List.mem_append.mp hl with hl | hl
    · rcases List.mem_append.mp hl with hl | hl
      · exact hlnl l (List.mem_of_mem_filter hl)
      · exact hlnl l (List.mem_of_mem_filter hl)
    · exact (hN l hl).2
  refine ⟨?_, ?_, ?_⟩
  · intro line hline hstart
    rw [mem_jsSplit_jsJoin_iff _ line hparts]
    rw [← delayedKeepChecked_iff s now line hstart]
    constructor
    · rintro (⟨-, rfl⟩ | hmem)
      · rw [jsStartsWith_iff] at hstart
        simp [show ("" : String).data = [] from rfl] at hstart
      · rcases List.mem_append.mp hmem with hmem | hmem
        · rcases List.mem_append.mp hmem with hmem | hmem
          · exact (List.mem_filter.mp hmem).2
          · have := (List.mem_filter.mp hmem).2
            rw [checked_not_unchecked line hstart] at this
            cases this
        · have := startsWith_item6_5 line (hN line hmem).1
          rw [checked_not_unchecked line hstart] at this
          cases this
    · intro hkeep
      refine Or.inr (List.mem_append.mpr (Or.inl (List.mem_append.mpr (Or.inl ?_))))
      exact List.mem_filter.mpr ⟨hline, hkeep⟩
  · intro line hline hstart
    rw [mem_jsSplit_jsJoin_iff _ line hparts]
    refine Or.inr (List.mem_append.mpr (Or.inl (List.mem_append.mpr (Or.inr ?_))))
    exact List.mem_filter.mpr ⟨hline, hstart⟩
  · intro t ht
    rw [mem_jsSplit_jsJoin_iff _ t hparts]
    exact Or.inr (List.mem_append.mpr (Or.inr ht))

/-! ## Scan-state invariants -/

theorem contains_iff_mem (l : List String) (x : String) : l.contains x = true ↔ x ∈ l := by
  show List.elem x l = true ↔ x ∈ l
  exact List.elem_iff

theorem mem_addTask (E : List String) (x t : String) :
    t ∈ addTask E x ↔ t ∈ E ∨ t = x := by
  unfold addTask
  by_cases h : E.contains x = true
  · rw [if_pos h]
    constructor
    · exact fun ht => Or.inl ht
    · rintro (ht | rfl)
      · exact ht
      · exact (contains_iff_mem E t).mp h
  · rw [if_neg h]
    rw [List.mem_append]
    simp

theorem mem_seedFold (lines : List String) (acc : List String) (t : String) :
    t ∈ lines.foldl (fun E l => if isTaskLine l then addTask E l else E) acc ↔
      t ∈ acc ∨ t ∈ lines.filter isTaskLine := by
  induction lines generalizing acc with
  | nil => simp
  | cons l lines ih =>
    rw [List.foldl_cons]
    by_cases hl : isTaskLine l = true
    · rw [if_pos hl, ih, List.filter_cons_of_pos hl]
      rw [mem_addTask]
      constructor
      · rintro ((ht | rfl) | ht)
        · exact Or.inl ht
        · exact Or.inr (List.mem_cons_self _ _)
        · exact Or.inr (List.mem_cons_of_mem _ ht)
      · rintro (ht | ht)
        · exact Or.inl (Or.inl ht)
        · rcases List.mem_cons.mp ht with rfl | ht
          · exact Or.inl (Or.inr rfl)
          · exact Or.inr ht
    · rw [if_neg hl, ih, List.filter_cons_of_neg hl]

theorem mem_seedTasks (lines : List String) (t : String) :
    t ∈ seedTasks lines ↔ t ∈ lines.filter isTaskLine := by
  unfold seedTasks
  rw [mem_seedFold]
  simp

theorem tagMatch_no_nl (line tag txt : String) (h : tagMatch line tag = some txt)
    (hline : ('\n' : Char) ∉ line.data) : ('\n' : Char) ∉ txt.data := by
  unfold tagMatch at h
  by_cases h1 : ((line.data.dropWhile isWs).take tag.data.length == tag.data) = true
  · rw [if_pos h1] at h
    have hsub : ∀ n, ('\n' : Char) ∉ ((line.data.dropWhile isWs).drop tag.data.length).drop n := by
      intro n hc
      exact hline ((List.dropWhile_sublist isWs).subset
        (List.drop_subset _ _ (List.drop_subset _ _ hc)))
    by_cases h2 : (((line.data.dropWhile isWs).drop tag.data.length).takeWhile isWs).length = 0
    · rw [if_pos h2] at h
      cases h
    · rw [if_neg h2] at h
      by_cases h3 : (((line.data.dropWhile isWs).drop tag.data.length).takeWhile isWs).length
          < ((line.data.dropWhile isWs).drop tag.data.length).length
      · rw [if_pos h3] at h
        rw [← Option.some.inj h]
        exact hsub _
      · rw [if_neg h3] at h
        by_cases h4 : 2 ≤ (((line.data.dropWhile isWs).drop tag.data.length).takeWhile isWs).length
        · rw [if_pos h4] at h
          rw [← Option.some.inj h]
          exact hsub _
        · rw [if_neg h4] at h
          cases h
  · rw [if_neg h1] at h
    cases h

theorem scanLine_no_nl (line : String) (tags : List String) (tg txt : String)
    (h : scanLine line tags = some (tg, txt)) (hline : ('\n' : Char) ∉ line.data) :
    ('\n' : Char) ∉ txt.data := by
  obtain ⟨A, B, -, -, hmatch⟩ := (scanLine_some_iff line tags tg txt).mp h
  exact tagMatch_no_nl line tg txt hmatch hline

theorem newTask_eq_append (txt b : String) :
    "- [ ] " ++ txt ++ " (" ++ b ++ ")" = "- [ ] " ++ (txt ++ " (" ++ b ++ ")") := by
  apply String.ext
  simp [String.data_append]

theorem newTask_startsWith (txt b : String) :
    jsStartsWith ("- [ ] " ++ txt ++ " (" ++ b ++ ")") "- [ ] " = true :=
  jsStartsWith_of_append _ _ _ (newTask_eq_append txt b)

theorem newTask_no_nl (txt b : String) (ht : ('\n' : Char) ∉ txt.data)
    (hb : ('\n' : Char) ∉ b.data) :
    ('\n' : Char) ∉ ("- [ ] " ++ txt ++ " (" ++ b ++ ")").data := by
  intro hc
  simp only [String.data_append, List.mem_append] at hc
  rcases hc with (((hc | hc) | hc) | hc) | hc
  · simp [show ("- [ ] " : String).data = ['-', ' ', '[', ' ', ']', ' '] from rfl] at hc
  · exact ht hc
  · simp [show (" (" : String).data = [' ', '('] from rfl] at hc
  · exact hb hc
  · simp [show (")" : String).data = [')'] from rfl] at hc

theorem scanLineStep_none (tags : List String) (b : String) (acc : ScanAcc) (line : String)
    (h : scanLine line tags = none) : scanLineStep tags b acc line = acc := by
  unfold scanLineStep
  rw [h]

theorem scanLineStep_some_dup (tags : List String) (b : String) (acc : ScanAcc)
    (line : String) (m : String × String) (h : scanLine line tags = some m)
    (hc : acc.existingTasks.contains ("- [ ] " ++ m.2 ++ " (" ++ b ++ ")") = true) :
    scanLineStep tags b acc line = { acc with todoFound := true } := by
  unfold scanLineStep
  rw [h]
  show (if acc.existingTasks.contains ("- [ ] " ++ m.2 ++ " (" ++ b ++ ")") then
      { acc with todoFound := true }
    else
      { existingTasks := acc.existingTasks ++ ["- [ ] " ++ m.2 ++ " (" ++ b ++ ")"]
        newTasks := acc.newTasks ++ ["- [ ] " ++ m.2 ++ " (" ++ b ++ ")"]
        todoFound := true }) = { acc with todoFound := true }
  rw [if_pos hc]

theorem scanLineStep_some_new (tags : List String) (b : String) (acc : ScanAcc)
    (line : String) (m : String × String) (h : scanLine line tags = some m)
    (hc : acc.existingTasks.contains ("- [ ] " ++ m.2 ++ " (" ++ b ++ ")") = false) :
    scanLineStep tags b acc line =
      { existingTasks := acc.existingTasks ++ ["- [ ] " ++ m.2 ++ " (" ++ b ++ ")"]
        newTasks := acc.newTasks ++ ["- [ ] " ++ m.2 ++ " (" ++ b ++ ")"]
        todoFound := true } := by
  unfold scanLineStep
  rw [h]
  show (if acc.existingTasks.contains ("- [ ] " ++ m.2 ++ " (" ++ b ++ ")") then
      { acc with todoFound := true }
    else
      { existingTasks := acc.existingTasks ++ ["- [ ] " ++ m.2 ++ " (" ++ b ++ ")"]
        newTasks := acc.newTasks ++ ["- [ ] " ++ m.2 ++ " (" ++ b ++ ")"]
        todoFound := true }) = _
  rw [if_neg (show ¬ (acc.existingTasks.contains ("- [ ] " ++ m.2 ++ " (" ++ b ++ ")") = true) by
    rw [hc]; exact Bool.false_ne_true)]

theorem scanLineStep_inv (tags : List String) (b : String) (seed0 : List String)
    (acc : ScanAcc) (line : String)
    (hinv : ScanInv seed0 acc.existingTasks acc.newTasks)
    (hline : ('\n' : Char) ∉ line.data) (hb : ('\n' : Char) ∉ b.data) :
    ScanInv seed0 (scanLineStep tags b acc line).existingTasks
      (scanLineStep tags b acc line).newTasks := by
  cases hscan : scanLine line tags with
  | none =>
    rw [scanLineStep_none tags b acc line hscan]
    exact hinv
  | some m =>
    by_cases hc : acc.existingTasks.contains ("- [ ] " ++ m.2 ++ " (" ++ b ++ ")") = true
    · rw [scanLineStep_some_dup tags b acc line m hscan hc]
      exact hinv
    · rw [scanLineStep_some_new tags b acc line m hscan
        (by revert hc; cases acc.existingTasks.contains ("- [ ] " ++ m.2 ++ " (" ++ b ++ ")") <;> simp)]
      obtain ⟨hseed, hnodup, hNE, hNseed, hshape⟩ := hinv
      have hnotE : ("- [ ] " ++ m.2 ++ " (" ++ b ++ ")") ∉ acc.existingTasks := by
        intro hmem
        exact hc ((contains_iff_mem _ _).mpr hmem)
      refine ⟨?_, ?_, ?_, ?_, ?_⟩
      · intro t ht
        exact List.mem_append.mpr (Or.inl (hseed t ht))
      · rw [List.nodup_append]
        refine ⟨hnodup, by simp, ?_⟩
        intro t htN hts
        simp at hts
        rw [hts] at htN
        exact hnotE (hNE _ htN)
      · intro t ht
        rcases List.mem_append.mp ht with ht | ht
        · exact List.mem_append.mpr (Or.inl (hNE t ht))
        · simp at ht
          rw [ht]
          exact List.mem_append.mpr (Or.inr (by simp))
      · intro t ht
        rcases List.mem_append.mp ht with ht | ht
        · exact hNseed t ht
        · simp at ht
          rw [ht]
          intro hts
          exact hnotE (hseed _ hts)
      · intro t ht
        rcases List.mem_append.mp ht with ht | ht
        · exact hshape t ht
        · simp at ht
          rw [ht]
          exact ⟨newTask_startsWith _ _,
            newTask_no_nl _ _ (scanLine_no_nl line tags m.1 m.2 (by rw [hscan]) hline) hb⟩

theorem scanFileLines_inv (tags : List String) (b : String) (seed0 : List String)
    (E N : List String) (lines : List String)
    (hinv : ScanInv seed0 E N)
    (hlines : ∀ l ∈ lines, ('\n' : Char) ∉ l.data) (hb : ('\n' : Char) ∉ b.data) :
    ScanInv seed0 (scanFileLines tags b E N lines).existingTasks
      (scanFileLines tags b E N lines).newTasks := by
  unfold scanFileLines
  suffices h : ∀ (acc : ScanAcc), ScanInv seed0 acc.existingTasks acc.newTasks →
      ScanInv seed0 (lines.foldl (scanLineStep tags b) acc).existingTasks
        (lines.foldl (scanLineStep tags b) acc).newTasks by
    exact h ⟨E, N, false⟩ hinv
  clear hinv
  induction lines with
  | nil => intro acc h; exact h
  | cons l lines ih =>
    intro acc h
    rw [List.foldl_cons]
    exact ih (fun x hx => hlines x (List.mem_cons_of_mem _ hx)) _
      (scanLineStep_inv tags b seed0 acc l h (hlines l (List.mem_cons_self _ _)) hb)

theorem processFile_inv (s : Settings) (seed0 : List String) (st : PassSt)
    (path b : String) (hinv : ScanInv seed0 st.existingTasks st.newTasks)
    (hb : ('\n' : Char) ∉ b.data) :
    ScanInv seed0 (processFile s st path b).existingTasks
      (processFile s st path b).newTasks := by
  unfold processFile
  by_cases hskip : skipByFrontmatter (readV st.vault path) = true
  · rw [if_pos hskip]
    exact hinv
  · rw [if_neg hskip]
    have hacc := scanFileLines_inv s.todoTags b seed0 st.existingTasks st.newTasks
      (jsSplit '\n' (readV st.vault path)) hinv
      (fun l hl => no_sep_of_mem_jsSplit '\n' _ l hl) hb
    by_cases hfound : (scanFileLines s.todoTags b st.existingTasks st.newTasks
        (jsSplit '\n' (readV st.vault path))).todoFound = true
    · rw [if_pos hfound]
      exact hacc
    · rw [if_neg hfound]
      exact hacc

/-- C3 witness: a fresh first record keeps a checked line; an unchecked
line and a new line are kept. -/
theorem claim_C3_witness :
    "- [x] t" ∈ jsSplit '\n'
      (rebuildOutput (mkSettings [] ["#TODO"] TodoHandling.delayed 1 [⟨"t", 0⟩])
        10 "- [x] t\n- [ ] u" ["- [ ] n (x)"]) :=
  ((claim_C3 (mkSettings [] ["#TODO"] TodoHandling.delayed 1 [⟨"t", 0⟩])
    10 "- [x] t\n- [ ] u" ["- [ ] n (x)"] rfl (by decide)).1
    "- [x] t" (by decide) (by decide)).mpr
    (show (10 : Int) - 0 < 1 * 3600 * 1000 by norm_num)

/-! ## Vault frame lemmas -/

theorem path_modify_entry (f : VFile) (p c : String) :
    (if f.path == p then (⟨f.path, f.basename, c⟩ : VFile) else f).path = f.path := by
  by_cases h : (f.path == p) = true
  · rw [if_pos h]
  · rw [if_neg h]

theorem getFile_modifyV_map (v : List VFile) (p c q : String) :
    getFile (modifyV v p c) q
      = (getFile v q).map (fun f => if f.path == p then ⟨f.path, f.basename, c⟩ else f) := by
  unfold getFile modifyV
  rw [List.find?_map]
  congr 2
  funext x
  show ((if x.path == p then (⟨x.path, x.basename, c⟩ : VFile) else x).path == q) = (x.path == q)
  rw [path_modify_entry]

theorem getFile_modifyV_ne (v : List VFile) (p c q : String) (h : q ≠ p) :
    getFile (modifyV v p c) q = getFile v q := by
  rw [getFile_modifyV_map]
  cases hg : getFile v q with
  | none => rfl
  | some f =>
    have hg2 : List.find? (fun x => x.path == q) v = some f := hg
    have hfq := List.find?_some (p := fun x : VFile => x.path == q) hg2
    have hfq2 : f.path = q := by simpa using hfq
    have hfp : ¬ ((f.path == p) = true) := by
      intro hc
      exact h (hfq2.symm.trans (by simpa using hc))
    show some (if f.path == p then (⟨f.path, f.basename, c⟩ : VFile) else f) = some f
    rw [if_neg hfp]

theorem getFile_modifyV_eq (v : List VFile) (p c : String) :
    getFile (modifyV v p c) p = (getFile v p).map (fun f => ⟨f.path, f.basename, c⟩) := by
  rw [getFile_modifyV_map]
  cases hg : getFile v p with
  | none => rfl
  | some f =>
    have hg2 : List.find? (fun x => x.path == p) v = some f := hg
    have hfp := List.find?_some (p := fun x : VFile => x.path == p) hg2
    show some (if f.path == p then (⟨f.path, f.basename, c⟩ : VFile) else f)
      = some (⟨f.path, f.basename, c⟩ : VFile)
    rw [if_pos hfp]

theorem readV_modifyV_ne (v : List VFile) (p c q : String) (h : q ≠ p) :
    readV (modifyV v p c) q = readV v q := by
  unfold readV
  rw [getFile_modifyV_ne v p c q h]

/-! ## processFile structure -/

theorem processFile_skip (s : Settings) (st : PassSt) (path b : String)
    (h : skipByFrontmatter (readV st.vault path) = true) :
    processFile s st path b = st := by
  unfold processFile
  rw [if_pos h]

theorem processFile_vault_cases (s : Settings) (st : PassSt) (path b : String) :
    (processFile s st path b).vault = st.vault ∨
    (processFile s st path b).vault =
      modifyV st.vault path (sourceFileNewContent (readV st.vault path)) := by
  unfold processFile
  by_cases h1 : skipByFrontmatter (readV st.vault path) = true
  · rw [if_pos h1]
    exact Or.inl rfl
  · rw [if_neg h1]
    by_cases h2 : (scanFileLines s.todoTags b st.existingTasks st.newTasks
        (jsSplit '\n' (readV st.vault path))).todoFound = true
    · rw [if_pos h2]
      exact Or.inr rfl
    · rw [if_neg h2]
      exact Or.inl rfl

theorem processFile_effs_cases (s : Settings) (st : PassSt) (path b : String) :
    (processFile s st path b).effs = st.effs ∨
    (processFile s st path b).effs =
      st.effs ++ [Eff.modifyF path (sourceFileNewContent (readV st.vault path))] := by
  unfold processFile
  by_cases h1 : skipByFrontmatter (readV st.vault path) = true
  · rw [if_pos h1]
    exact Or.inl rfl
  · rw [if_neg h1]
    by_cases h2 : (scanFileLines s.todoTags b st.existingTasks st.newTasks
        (jsSplit '\n' (readV st.vault path))).todoFound = true
    · rw [if_pos h2]
      exact Or.inr rfl
    · rw [if_neg h2]
      exact Or.inl rfl

theorem processFile_getFile_ne (s : Settings) (st : PassSt) (path b q : String)
    (hq : q ≠ path) :
    getFile (processFile s st path b).vault q = getFile st.vault q := by
  rcases processFile_vault_cases s st path b with h | h
  · rw [h]
  · rw [h, getFile_modifyV_ne _ _ _ _ hq]

/-! ## scanDirs structure -/

theorem dirFiles_ne_out (allF : List (String × String)) (out dir : String)
    (f : String × String) (hf : f ∈ dirFiles allF out dir) : f.1 ≠ out := by
  unfold dirFiles at hf
  have := (List.mem_filter.mp hf).2
  have hb : (f.1 != out) = true := by
    revert this
    cases h1 : (f.1 != out) <;> simp [h1]
  exact bne_iff_ne.mp hb

theorem dirFiles_subset (allF : List (String × String)) (out dir : String)
    (f : String × String) (hf : f ∈ dirFiles allF out dir) : f ∈ allF :=
  List.mem_of_mem_filter hf

theorem foldFiles_getFile_out (s : Settings) (files : List (String × String))
    (st : PassSt) (q : String) (hf : ∀ f ∈ files, f.1 ≠ q) :
    getFile (files.foldl (fun st f => processFile s st f.1 f.2) st).vault q
      = getFile st.vault q := by
  induction files generalizing st with
  | nil => rfl
  | cons f files ih =>
    rw [List.foldl_cons]
    rw [ih (processFile s st f.1 f.2) (fun x hx => hf x (List.mem_cons_of_mem _ hx))]
    exact processFile_getFile_ne s st f.1 f.2 q (Ne.symm (hf f (List.mem_cons_self _ _)))

theorem scanDirs_getFile_out (s : Settings) (out : String)
    (allF : List (String × String)) (st : PassSt) :
    getFile (scanDirs s out allF st).vault out = getFile st.vault out := by
  unfold scanDirs
  induction s.targetDirectories generalizing st with
  | nil => rfl
  | cons d ds ih =>
    rw [List.foldl_cons]
    rw [ih]
    exact foldFiles_getFile_out s (dirFiles allF out d) st out
      (fun f hf => dirFiles_ne_out allF out d f hf)

theorem foldFiles_inv (s : Settings) (seed0 : List String)
    (files : List (String × String)) (st : PassSt)
    (hinv : ScanInv seed0 st.existingTasks st.newTasks)
    (hb : ∀ f ∈ files, ('\n' : Char) ∉ f.2.data) :
    ScanInv seed0 (files.foldl (fun st f => processFile s st f.1 f.2) st).existingTasks
      (files.foldl (fun st f => processFile s st f.1 f.2) st).newTasks := by
  induction files generalizing st with
  | nil => exact hinv
  | cons f files ih =>
    rw [List.foldl_cons]
    exact ih (processFile s st f.1 f.2)
      (processFile_inv s seed0 st f.1 f.2 hinv (hb f (List.mem_cons_self _ _)))
      (fun x hx => hb x (List.mem_cons_of_mem _ hx))

theorem scanDirs_inv (s : Settings) (seed0 : List String) (out : String)
    (allF : List (String × String)) (st : PassSt)
    (hinv : ScanInv seed0 st.existingTasks st.newTasks)
    (hb : ∀ f ∈ allF, ('\n' : Char) ∉ f.2.data) :
    ScanInv seed0 (scanDirs s out allF st).existingTasks
      (scanDirs s out allF st).newTasks := by
  unfold scanDirs
  induction s.targetDirectories generalizing st with
  | nil => exact hinv
  | cons d ds ih =>
    rw [List.foldl_cons]
    exact ih _ (foldFiles_inv s seed0 (dirFiles allF out d) st hinv
      (fun f hf => hb f (dirFiles_subset allF out d f hf)))

theorem foldFiles_effs (s : Settings) (files : List (String × String)) (st : PassSt) :
    ∀ e ∈ (files.foldl (fun st f => processFile s st f.1 f.2) st).effs,
      e ∈ st.effs ∨ ∃ p c, e = Eff.modifyF p c := by
  induction files generalizing st with
  | nil => exact fun e he => Or.inl he
  | cons f files ih =>
    intro e he
    rw [List.foldl_cons] at he
    rcases ih (processFile s st f.1 f.2) e he with hmem | hmod
    · rcases processFile_effs_cases s st f.1 f.2 with hc | hc
      · rw [hc] at hmem
        exact Or.inl hmem
      · rw [hc] at hmem
        rcases List.mem_append.mp hmem with hmem | hmem
        · exact Or.inl hmem
        · simp at hmem
          exact Or.inr ⟨_, _, hmem⟩
    · exact Or.inr hmod

theorem scanDirs_effs (s : Settings) (out : String) (allF : List (String × String))
    (st : PassSt) :
    ∀ e ∈ (scanDirs s out allF st).effs,
      e ∈ st.effs ∨ ∃ p c, e = Eff.modifyF p c := by
  unfold scanDirs
  induction s.targetDirectories generalizing st with
  | nil => exact fun e he => Or.inl he
  | cons d ds ih =>
    intro e he
    rw [List.foldl_cons] at he
    rcases ih _ e he with hmem | hmod
    · exact foldFiles_effs s (dirFiles allF out d) st e hmem
    · exact Or.inr hmod

/-! ## collectTodos branch equations -/

theorem collectTodos_none_eq (v0 : List VFile) (s : Settings) (now : Int)
    (h : getFile v0 (outPathOf s) = none) :
    collectTodos v0 s now
      = (v0, [Eff.notice ("出力ファイルが存在しません: " ++ outPathOf s)]) := by
  unfold collectTodos
  rw [h]

theorem collectTodos_protected_eq (v0 : List VFile) (s : Settings) (now : Int)
    (tf : VFile) (h : getFile v0 (outPathOf s) = some tf)
    (hprot : (s.protectClassifiedFiles && decide (s.lastClassificationTime > 0) &&
      decide (now - s.lastClassificationTime < 24 * 3600 * 1000)) = true) :
    collectTodos v0 s now = (v0, [Eff.notice "分類済みファイルは保護されています（24時間以内）"]) := by
  unfold collectTodos
  rw [h]
  show (if s.protectClassifiedFiles && decide (s.lastClassificationTime > 0) &&
      decide (now - s.lastClassificationTime < 24 * 3600 * 1000) then
    (v0, [Eff.notice "分類済みファイルは保護されています（24時間以内）"])
  else collectTodosMain v0 s now tf) = _
  rw [if_pos hprot]

theorem collectTodos_main_eq (v0 : List VFile) (s : Settings) (now : Int)
    (tf : VFile) (h : getFile v0 (outPathOf s) = some tf)
    (hprot : (s.protectClassifiedFiles && decide (s.lastClassificationTime > 0) &&
      decide (now - s.lastClassificationTime < 24 * 3600 * 1000)) = false) :
    collectTodos v0 s now = collectTodosMain v0 s now tf := by
  unfold collectTodos
  rw [h]
  show (if s.protectClassifiedFiles && decide (s.lastClassificationTime > 0) &&
      decide (now - s.lastClassificationTime < 24 * 3600 * 1000) then
    (v0, [Eff.notice "分類済みファイルは保護されています（24時間以内）"])
  else collectTodosMain v0 s now tf) = _
  rw [if_neg (by rw [hprot]; exact Bool.false_ne_true)]

theorem collectTodosMain_eq (v0 : List VFile) (s : Settings) (now : Int) (tf : VFile)
    (h : getFile v0 (outPathOf s) = some tf) :
    collectTodosMain v0 s now tf =
      (modifyV (scanDirs s (outPathOf s) (mdFiles v0)
          ⟨v0, seedTasks (jsSplit '\n' tf.content), [], []⟩).vault (outPathOf s)
          (rebuildOutput s now tf.content
            (scanDirs s (outPathOf s) (mdFiles v0)
              ⟨v0, seedTasks (jsSplit '\n' tf.content), [], []⟩).newTasks),
        (scanDirs s (outPathOf s) (mdFiles v0)
          ⟨v0, seedTasks (jsSplit '\n' tf.content), [], []⟩).effs ++
          [Eff.modifyF (outPathOf s)
            (rebuildOutput s now tf.content
              (scanDirs s (outPathOf s) (mdFiles v0)
                ⟨v0, seedTasks (jsSplit '\n' tf.content), [], []⟩).newTasks)]) := by
  simp only [collectTodosMain, h]

theorem collectTodos_effs_cases (v0 : List VFile) (s : Settings) (now : Int) :
    ∀ e ∈ (collectTodos v0 s now).2, (∃ m, e = Eff.notice m) ∨ ∃ p c, e = Eff.modifyF p c := by
  intro e he
  cases hg : getFile v0 (outPathOf s) with
  | none =>
    rw [collectTodos_none_eq v0 s now hg] at he
    simp at he
    exact Or.inl ⟨_, he⟩
  | some tf =>
    by_cases hprot : (s.protectClassifiedFiles && decide (s.lastClassificationTime > 0) &&
        decide (now - s.lastClassificationTime < 24 * 3600 * 1000)) = true
    · rw [collectTodos_protected_eq v0 s now tf hg hprot] at he
      simp at he
      exact Or.inl ⟨_, he⟩
    · have hprot2 : (s.protectClassifiedFiles && decide (s.lastClassificationTime > 0) &&
          decide (now - s.lastClassificationTime < 24 * 3600 * 1000)) = false := by
        cases hb : (s.protectClassifiedFiles && decide (s.lastClassificationTime > 0) &&
            decide (now - s.lastClassificationTime < 24 * 3600 * 1000))
        · rfl
        · exact absurd hb hprot
      rw [collectTodos_main_eq v0 s now tf hg hprot2,
        collectTodosMain_eq v0 s now tf hg] at he
      rcases List.mem_append.mp he with hmem | hmem
      · rcases scanDirs_effs s (outPathOf s) (mdFiles v0) _ e hmem with hnil | hmod
        · exact absurd hnil (List.not_mem_nil e)
        · exact Or.inr hmod
      · simp at hmem
        exact Or.inr ⟨_, _, hmem⟩

/-- C10: when the configured output path resolves to no file, `collectTodos`
returns the store unchanged with only a notice, and in every run, no effect is
ever a file creation: the create branch is unreachable. -/
theorem claim_C10 (v0 : List VFile) (s : Settings) (now : Int) :
    (getFile v0 (outPathOf s) = none →
      collectTodos v0 s now
        = (v0, [Eff.notice ("出力ファイルが存在しません: " ++ outPathOf s)])) ∧
    (∀ e ∈ (collectTodos v0 s now).2, ∀ p c, e ≠ Eff.createF p c) := by
  constructor
  · intro h
    exact collectTodos_none_eq v0 s now h
  · intro e he p c hc
    rcases collectTodos_effs_cases v0 s now e he with ⟨m, hm⟩ | ⟨p2, c2, hm⟩ <;>
      rw [hm] at hc <;> exact Eff.noConfusion hc

/-! ## String algebra helpers -/

theorem string_eq_of_data (a b : String) (h : a.data = b.data) : a = b := by
  rw [← mk_data a, ← mk_data b, h]

theorem string_append_assoc (a b c : String) : a ++ b ++ c = a ++ (b ++ c) := by
  apply string_eq_of_data
  rw [String.data_append, String.data_append, String.data_append, String.data_append,
    List.append_assoc]

theorem bool_not_true (b : Bool) (h : ¬ b = true) : b = false := by
  cases b
  · rfl
  · exact absurd rfl h

theorem ofNat_beq_neg_one (k : Nat) : (Int.ofNat k == -1) = false := by
  cases hb : (Int.ofNat k == -1)
  · rfl
  · exfalso
    have h := ofNat_bne_neg_one k
    rw [bne, hb] at h
    exact absurd h (by decide)

/-! ## Slices at the frontmatter markers -/

theorem jsSlice_head {α : Type} (A : List α) (m : α) (X : List α) :
    jsSlice (A ++ m :: X) 0 (Int.ofNat A.length + 1) = A ++ [m] := by
  rw [show (Int.ofNat A.length + 1 : Int) = Int.ofNat (A.length + 1) from rfl]
  rw [jsSlice_zero_coe]
  rw [show A ++ m :: X = (A ++ [m]) ++ X from by simp]
  rw [show A.length + 1 = (A ++ [m]).length from by simp]
  exact List.take_left _ _

theorem jsSlice_mid {α : Type} (A : List α) (m : α) (B X : List α) :
    jsSlice (A ++ m :: (B ++ X)) (Int.ofNat A.length + 1)
      (Int.ofNat (A.length + 1 + B.length)) = B := by
  rw [show (Int.ofNat A.length + 1 : Int) = Int.ofNat (A.length + 1) from rfl]
  rw [jsSlice_coe]
  have hlen : (A ++ m :: (B ++ X)).length = A.length + 1 + B.length + X.length := by
    simp
    omega
  have h1 : min (A.length + 1) (A ++ m :: (B ++ X)).length = A.length + 1 := by
    rw [hlen]
    omega
  have h2 : min (A.length + 1 + B.length) (A ++ m :: (B ++ X)).length
      = A.length + 1 + B.length := by
    rw [hlen]
    omega
  rw [h1, h2, show A.length + 1 + B.length - (A.length + 1) = B.length from by omega]
  rw [show A ++ m :: (B ++ X) = (A ++ [m]) ++ (B ++ X) from by simp]
  rw [show A.length + 1 = (A ++ [m]).length from by simp]
  rw [List.drop_left]
  exact List.take_left _ _

theorem jsSliceFrom_mid {α : Type} (A : List α) (m : α) (B : List α) (m2 : α) (C : List α) :
    jsSliceFrom (A ++ m :: (B ++ m2 :: C)) (Int.ofNat (A.length + 1 + B.length)) = m2 :: C := by
  rw [jsSliceFrom_coe]
  rw [show A ++ m :: (B ++ m2 :: C) = (A ++ m :: B) ++ m2 :: C from by simp]
  rw [show A.length + 1 + B.length = (A ++ m :: B).length from by
    simp only [List.length_append, List.length_cons]
    omega]
  exact List.drop_left _ _

/-! ## Equation forms of the frontmatter-driven definitions -/

theorem skipByFrontmatter_eq (content : String) :
    skipByFrontmatter content =
      (if (fmScan (jsSplit '\n' content)).2 == -1 then false
      else addTodoTruthy (parseYaml (jsJoin '\n' (jsSlice (jsSplit '\n' content)
        ((fmScan (jsSplit '\n' content)).1 + 1) (fmScan (jsSplit '\n' content)).2)))) := rfl

theorem sourceFileNewContent_eq (content : String) :
    sourceFileNewContent content =
      (if (fmScan (jsSplit '\n' content)).2 == -1 then
        "---\n" ++ "add_todo: true\n" ++ "---\n" ++ content
      else
        jsJoin '\n' (jsSlice (jsSplit '\n' content) 0 ((fmScan (jsSplit '\n' content)).1 + 1))
          ++ "\n" ++
          jsJoin '\n' (renderFm (fmUpsert (parseYaml (jsJoin '\n'
            (jsSlice (jsSplit '\n' content) ((fmScan (jsSplit '\n' content)).1 + 1)
              (fmScan (jsSplit '\n' content)).2))) "add_todo" "true")) ++ "\n" ++
          jsJoin '\n' (jsSliceFrom (jsSplit '\n' content) (fmScan (jsSplit '\n' content)).2)) := rfl

theorem skipByFrontmatter_two (content : String) (a b : Nat)
    (hscan : fmScan (jsSplit '\n' content) = (Int.ofNat a, Int.ofNat b)) :
    skipByFrontmatter content = addTodoTruthy (parseYaml (jsJoin '\n'
      (jsSlice (jsSplit '\n' content) (Int.ofNat a + 1) (Int.ofNat b)))) := by
  rw [skipByFrontmatter_eq, hscan]
  rw [if_neg (by
    rw [show ((Int.ofNat a, Int.ofNat b) : Int × Int).2 = Int.ofNat b from rfl,
      ofNat_beq_neg_one]
    exact Bool.false_ne_true)]

theorem sourceFileNewContent_two (content : String) (a b : Nat)
    (hscan : fmScan (jsSplit '\n' content) = (Int.ofNat a, Int.ofNat b)) :
    sourceFileNewContent content =
      jsJoin '\n' (jsSlice (jsSplit '\n' content) 0 (Int.ofNat a + 1)) ++ "\n" ++
        jsJoin '\n' (renderFm (fmUpsert (parseYaml (jsJoin '\n'
          (jsSlice (jsSplit '\n' content) (Int.ofNat a + 1) (Int.ofNat b)))) "add_todo" "true"))
        ++ "\n" ++
        jsJoin '\n' (jsSliceFrom (jsSplit '\n' content) (Int.ofNat b)) := by
  rw [sourceFileNewContent_eq, hscan]
  rw [if_neg (by
    rw [show ((Int.ofNat a, Int.ofNat b) : Int × Int).2 = Int.ofNat b from rfl,
      ofNat_beq_neg_one]
    exact Bool.false_ne_true)]

theorem sourceFileNewContent_none (content : String)
    (hscan : (fmScan (jsSplit '\n' content)).2 = -1) :
    sourceFileNewContent content = "---\n" ++ "add_todo: true\n" ++ "---\n" ++ content := by
  rw [sourceFileNewContent_eq]
  rw [if_pos (by rw [hscan]; rfl)]

/-! ## The rewritten source document carries a truthy sentinel -/

theorem renderFm_no_nl (m : List (String × String)) (hwf : WfFm m) :
    ∀ l ∈ renderFm m, ('\n' : Char) ∉ l.data := by
  intro l hl
  unfold renderFm at hl
  obtain ⟨e, he, rfl⟩ := List.mem_map.mp hl
  obtain ⟨_, _, hk, _, hv⟩ := hwf.2 e he
  intro hc
  rw [String.data_append, String.data_append] at hc
  rcases List.mem_append.mp hc with hc | hc
  · rcases List.mem_append.mp hc with hc | hc
    · exact hk hc
    · simp [show (": " : String).data = [':', ' '] from rfl] at hc
  · exact hv hc

theorem jsSplit_prefix3 (content : String) :
    jsSplit '\n' ("---\n" ++ "add_todo: true\n" ++ "---\n" ++ content)
      = "---" :: "add_todo: true" :: "---" :: jsSplit '\n' content := by
  have e0 : "---\n" ++ "add_todo: true\n" ++ "---\n" ++ content
      = "---" ++ "\n" ++ ("add_todo: true" ++ "\n" ++ ("---" ++ "\n" ++ content)) := by
    apply string_eq_of_data
    simp only [String.data_append]
    simp
  rw [e0, jsSplit_newline_cons "---" _ (by decide),
    jsSplit_newline_cons "add_todo: true" _ (by decide),
    jsSplit_newline_cons "---" _ (by decide)]

theorem skip_prepend (content : String) :
    skipByFrontmatter ("---\n" ++ "add_todo: true\n" ++ "---\n" ++ content) = true := by
  have hsp := jsSplit_prefix3 content
  have hscan : fmScan (jsSplit '\n' ("---\n" ++ "add_todo: true\n" ++ "---\n" ++ content))
      = (Int.ofNat 0, Int.ofNat 2) := by
    rw [hsp]
    exact fmScan_two_markers [] "---" ["add_todo: true"] "---" (jsSplit '\n' content)
      (by intro l hl; cases hl) (by decide)
      (by intro l hl; rw [List.mem_singleton.mp hl]; decide) (by decide)
  rw [skipByFrontmatter_two _ 0 2 hscan, hsp]
  have hslice : jsSlice ("---" :: "add_todo: true" :: "---" :: jsSplit '\n' content)
      (Int.ofNat 0 + 1) (Int.ofNat 2) = ["add_todo: true"] :=
    jsSlice_mid [] "---" ["add_todo: true"] ("---" :: jsSplit '\n' content)
  rw [hslice]
  decide

theorem skip_sourceFileNewContent (content : String) :
    skipByFrontmatter (sourceFileNewContent content) = true := by
  rcases fmScan_cases (jsSplit '\n' content) with ⟨_, hscan⟩ |
    ⟨A, m, B, hsp, hA, hm, hB, hscan⟩ |
    ⟨A, m, B, m2, C, hsp, hA, hm, hB, hm2, hscan⟩
  · rw [sourceFileNewContent_none content (by rw [hscan])]
    exact skip_prepend content
  · rw [sourceFileNewContent_none content (by rw [hscan])]
    exact skip_prepend content
  · rw [sourceFileNewContent_two content A.length (A.length + 1 + B.length) hscan]
    have hnl : ∀ l ∈ jsSplit '\n' content, ('\n' : Char) ∉ l.data :=
      fun l hl => no_sep_of_mem_jsSplit '\n' content l hl
    have hs1 : jsSlice (jsSplit '\n' content) 0 (Int.ofNat A.length + 1) = A ++ [m] := by
      rw [hsp]
      exact jsSlice_head A m (B ++ m2 :: C)
    have hs2 : jsSlice (jsSplit '\n' content) (Int.ofNat A.length + 1)
        (Int.ofNat (A.length + 1 + B.length)) = B := by
      rw [hsp]
      exact jsSlice_mid A m B (m2 :: C)
    have hs3 : jsSliceFrom (jsSplit '\n' content) (Int.ofNat (A.length + 1 + B.length))
        = m2 :: C := by
      rw [hsp]
      exact jsSliceFrom_mid A m B m2 C
    rw [hs1, hs2, hs3]
    have hwf0 : WfFm (parseYaml (jsJoin '\n' B)) := parseYaml_wf _
    have hwf : WfFm (fmUpsert (parseYaml (jsJoin '\n' B)) "add_todo" "true") :=
      fmUpsert_wf _ _ _ hwf0 (by decide) (by decide) (by decide) (by decide) (by decide)
    have hmem : ("add_todo", "true") ∈ fmUpsert (parseYaml (jsJoin '\n' B)) "add_todo" "true" :=
      fmUpsert_mem_self _ _ _
    have hRnl := renderFm_no_nl _ hwf
    have hRne : renderFm (fmUpsert (parseYaml (jsJoin '\n' B)) "add_todo" "true") ≠ [] := by
      unfold renderFm
      intro hcon
      rw [List.map_eq_nil_iff] at hcon
      rw [hcon] at hmem
      cases hmem
    have hmem1 : ∀ l ∈ A ++ [m], ('\n' : Char) ∉ l.data := by
      intro l hl
      apply hnl l
      rw [hsp]
      rcases List.mem_append.mp hl with hl | hl
      · exact List.mem_append.mpr (Or.inl hl)
      · rw [List.mem_singleton.mp hl]
        exact List.mem_append.mpr (Or.inr (List.mem_cons_self _ _))
    have hreassoc : jsJoin '\n' (A ++ [m]) ++ "\n" ++
        jsJoin '\n' (renderFm (fmUpsert (parseYaml (jsJoin '\n' B)) "add_todo" "true"))
        ++ "\n" ++ jsJoin '\n' (m2 :: C)
      = jsJoin '\n' (A ++ [m]) ++ "\n" ++
        (jsJoin '\n' (renderFm (fmUpsert (parseYaml (jsJoin '\n' B)) "add_todo" "true"))
          ++ "\n" ++ jsJoin '\n' (m2 :: C)) := by
      simp only [string_append_assoc]
    have hsplit2 : jsSplit '\n' (jsJoin '\n' (A ++ [m]) ++ "\n" ++
        jsJoin '\n' (renderFm (fmUpsert (parseYaml (jsJoin '\n' B)) "add_todo" "true"))
        ++ "\n" ++ jsJoin '\n' (m2 :: C))
      = (A ++ [m]) ++ (renderFm (fmUpsert (parseYaml (jsJoin '\n' B)) "add_todo" "true")
          ++ (m2 :: C)) := by
      rw [hreassoc]
      rw [jsSplit_join_append (A ++ [m]) _ (by simp) hmem1]
      rw [jsSplit_join_append _ _ hRne hRnl]
      rw [jsSplit_jsJoin '\n' (m2 :: C) (by simp) (by
        intro l hl
        apply hnl l
        rw [hsp]
        exact List.mem_append.mpr (Or.inr (List.mem_cons_of_mem _
          (List.mem_append.mpr (Or.inr hl)))))]

    have hshape : (A ++ [m]) ++ (renderFm (fmUpsert (parseYaml (jsJoin '\n' B))
        "add_todo" "true") ++ (m2 :: C))
      = A ++ m :: (renderFm (fmUpsert (parseYaml (jsJoin '\n' B)) "add_todo" "true")
          ++ m2 :: C) := by
      simp
    have hscan2 : fmScan (jsSplit '\n' (jsJoin '\n' (A ++ [m]) ++ "\n" ++
        jsJoin '\n' (renderFm (fmUpsert (parseYaml (jsJoin '\n' B)) "add_todo" "true"))
        ++ "\n" ++ jsJoin '\n' (m2 :: C)))
      = (Int.ofNat A.length, Int.ofNat (A.length + 1 +
          (renderFm (fmUpsert (parseYaml (jsJoin '\n' B)) "add_todo" "true")).length)) := by
      rw [hsplit2, hshape]
      exact fmScan_two_markers A m _ m2 C hA hm
        (fun l hl => renderFm_not_marker _ l hl) hm2
    rw [skipByFrontmatter_two _ A.length
      (A.length + 1 + (renderFm (fmUpsert (parseYaml (jsJoin '\n' B)) "add_todo" "true")).length)
      hscan2]
    rw [hsplit2, hshape]
    have hslice : jsSlice (A ++ m :: (renderFm (fmUpsert (parseYaml (jsJoin '\n' B))
        "add_todo" "true") ++ m2 :: C)) (Int.ofNat A.length + 1)
        (Int.ofNat (A.length + 1 +
          (renderFm (fmUpsert (parseYaml (jsJoin '\n' B)) "add_todo" "true")).length))
      = renderFm (fmUpsert (parseYaml (jsJoin '\n' B)) "add_todo" "true") :=
      jsSlice_mid A m _ (m2 :: C)
    rw [hslice]
    exact addTodoTruthy_parse_render _ hwf hmem

/-! ## Inert documents: skipped or contributing nothing -/

theorem tagMatch_empty (tag : String) : tagMatch "" tag = none := by
  simp only [tagMatch]
  rw [show List.dropWhile isWs ("" : String).data = [] from rfl]
  rw [List.take_nil, List.drop_nil]
  by_cases hc : (([] : List Char) == tag.data) = true
  · rw [if_pos hc]
    rfl
  · rw [if_neg hc]

theorem scanLine_empty (tags : List String) : scanLine "" tags = none := by
  induction tags with
  | nil => rfl
  | cons tag rest ih =>
    rw [scanLine_cons_none "" tag rest (tagMatch_empty tag)]
    exact ih

theorem inert_empty (s : Settings) : Inert s "" :=
  Or.inr (by
    intro line hline
    rw [show jsSplit '\n' "" = [""] from rfl] at hline
    rw [List.mem_singleton.mp hline]
    exact scanLine_empty s.todoTags)

theorem foldl_scanLineStep_false (tags : List String) (b : String) (acc : ScanAcc)
    (lines : List String)
    (h : (lines.foldl (scanLineStep tags b) acc).todoFound = false) :
    acc.todoFound = false ∧ ∀ line ∈ lines, scanLine line tags = none := by
  induction lines generalizing acc with
  | nil => exact ⟨h, by intro l hl; cases hl⟩
  | cons l lines ih =>
    rw [List.foldl_cons] at h
    have hrec := ih (scanLineStep tags b acc l) h
    cases hscan : scanLine l tags with
    | some m =>
      exfalso
      by_cases hdup : acc.existingTasks.contains ("- [ ] " ++ m.2 ++ " (" ++ b ++ ")") = true
      · rw [scanLineStep_some_dup tags b acc l m hscan hdup] at hrec
        cases hrec.1
      · rw [scanLineStep_some_new tags b acc l m hscan (bool_not_true _ hdup)] at hrec
        cases hrec.1
    | none =>
      rw [scanLineStep_none tags b acc l hscan] at hrec
      refine ⟨hrec.1, ?_⟩
      intro line hline
      rcases List.mem_cons.mp hline with rfl | hline
      · exact hscan
      · exact hrec.2 line hline

theorem foldl_scanLineStep_id (tags : List String) (b : String) (acc : ScanAcc)
    (lines : List String) (h : ∀ l ∈ lines, scanLine l tags = none) :
    lines.foldl (scanLineStep tags b) acc = acc := by
  induction lines generalizing acc with
  | nil => rfl
  | cons l lines ih =>
    rw [List.foldl_cons, scanLineStep_none tags b acc l (h l (List.mem_cons_self _ _))]
    exact ih acc (fun x hx => h x (List.mem_cons_of_mem _ hx))

theorem processFile_self_inert (s : Settings) (st : PassSt) (path b : String) :
    Inert s (readV (processFile s st path b).vault path) := by
  unfold processFile
  by_cases h1 : skipByFrontmatter (readV st.vault path) = true
  · rw [if_pos h1]
    exact Or.inl h1
  · rw [if_neg h1]
    by_cases h2 : (scanFileLines s.todoTags b st.existingTasks st.newTasks
        (jsSplit '\n' (readV st.vault path))).todoFound = true
    · rw [if_pos h2]
      show Inert s (readV (modifyV st.vault path
        (sourceFileNewContent (readV st.vault path))) path)
      unfold readV
      rw [getFile_modifyV_eq]
      cases hg : getFile st.vault path with
      | none => exact inert_empty s
      | some g =>
        show Inert s (sourceFileNewContent g.content)
        exact Or.inl (skip_sourceFileNewContent _)
    · rw [if_neg h2]
      show Inert s (readV st.vault path)
      refine Or.inr ?_
      intro line hline
      exact (foldl_scanLineStep_false s.todoTags b
        ⟨st.existingTasks, st.newTasks, false⟩ (jsSplit '\n' (readV st.vault path))
        (bool_not_true _ h2)).2 line hline

theorem processFile_inert_pres (s : Settings) (st : PassSt) (path b q : String)
    (hq : Inert s (readV st.vault q)) :
    Inert s (readV (processFile s st path b).vault q) := by
  rcases processFile_vault_cases s st path b with h | h
  · rw [h]
    exact hq
  · rw [h]
    by_cases hqp : q = path
    · subst hqp
      unfold readV
      rw [getFile_modifyV_eq]
      cases hg : getFile st.vault q with
      | none => exact inert_empty s
      | some g =>
        show Inert s (sourceFileNewContent g.content)
        exact Or.inl (skip_sourceFileNewContent _)
    · rw [readV_modifyV_ne st.vault path _ q hqp]
      exact hq

theorem processFile_inert_id (s : Settings) (st : PassSt) (path b : String)
    (h : Inert s (readV st.vault path)) :
    processFile s st path b = st := by
  unfold processFile
  rcases h with h | h
  · rw [if_pos h]
  · by_cases h1 : skipByFrontmatter (readV st.vault path) = true
    · rw [if_pos h1]
    · rw [if_neg h1]
      have hacc : scanFileLines s.todoTags b st.existingTasks st.newTasks
          (jsSplit '\n' (readV st.vault path))
          = ⟨st.existingTasks, st.newTasks, false⟩ := by
        unfold scanFileLines
        exact foldl_scanLineStep_id s.todoTags b _ _ h
      rw [hacc]
      rw [if_neg (by intro hcon; cases hcon)]

theorem foldFiles_inert_pres (s : Settings) (files : List (String × String)) (st : PassSt)
    (q : String) (hq : Inert s (readV st.vault q)) :
    Inert s (readV (files.foldl (fun st f => processFile s st f.1 f.2) st).vault q) := by
  induction files generalizing st with
  | nil => exact hq
  | cons g files ih =>
    rw [List.foldl_cons]
    exact ih (processFile s st g.1 g.2) (processFile_inert_pres s st g.1 g.2 q hq)

theorem foldFiles_inert (s : Settings) (files : List (String × String)) (st : PassSt) :
    ∀ f ∈ files,
      Inert s (readV (files.foldl (fun st f => processFile s st f.1 f.2) st).vault f.1) := by
  induction files generalizing st with
  | nil => intro f hf; cases hf
  | cons g files ih =>
    intro f hf
    rw [List.foldl_cons]
    rcases List.mem_cons.mp hf with rfl | hf
    · exact foldFiles_inert_pres s files _ f.1 (processFile_self_inert s st f.1 f.2)
    · exact ih (processFile s st g.1 g.2) f hf

theorem foldDirs_inert_pres (s : Settings) (out : String) (allF : List (String × String))
    (L : List String) (st : PassSt) (q : String) (hq : Inert s (readV st.vault q)) :
    Inert s (readV (L.foldl (fun st dir => (dirFiles allF out dir).foldl
      (fun st f => processFile s st f.1 f.2) st) st).vault q) := by
  induction L generalizing st with
  | nil => exact hq
  | cons d L ih =>
    rw [List.foldl_cons]
    exact ih _ (foldFiles_inert_pres s (dirFiles allF out d) st q hq)

theorem scanDirs_inert (s : Settings) (out : String) (allF : List (String × String))
    (st : PassSt) :
    ∀ dir ∈ s.targetDirectories, ∀ f ∈ dirFiles allF out dir,
      Inert s (readV (scanDirs s out allF st).vault f.1) := by
  unfold scanDirs
  have key : ∀ (L : List String) (st : PassSt), ∀ dir ∈ L, ∀ f ∈ dirFiles allF out dir,
      Inert s (readV (L.foldl (fun st dir => (dirFiles allF out dir).foldl
        (fun st f => processFile s st f.1 f.2) st) st).vault f.1) := by
    intro L
    induction L with
    | nil => intro st dir hdir; cases hdir
    | cons d L ih =>
      intro st dir hdir f hf
      rw [List.foldl_cons]
      rcases List.mem_cons.mp hdir with rfl | hdir
      · exact foldDirs_inert_pres s out allF L _ f.1
          (foldFiles_inert s (dirFiles allF out dir) st f hf)
      · exact ih _ dir hdir f hf
  exact key s.targetDirectories st

theorem foldFiles_all_inert_id (s : Settings) (files : List (String × String)) (st : PassSt)
    (h : ∀ f ∈ files, Inert s (readV st.vault f.1)) :
    files.foldl (fun st f => processFile s st f.1 f.2) st = st := by
  induction files with
  | nil => rfl
  | cons g files ih =>
    rw [List.foldl_cons, processFile_inert_id s st g.1 g.2 (h g (List.mem_cons_self _ _))]
    exact ih (fun f hf => h f (List.mem_cons_of_mem _ hf))

theorem scanDirs_all_inert_id (s : Settings) (out : String) (allF : List (String × String))
    (st : PassSt)
    (h : ∀ dir ∈ s.targetDirectories, ∀ f ∈ dirFiles allF out dir,
      Inert s (readV st.vault f.1)) :
    scanDirs s out allF st = st := by
  unfold scanDirs
  have key : ∀ (L : List String), (∀ dir ∈ L, ∀ f ∈ dirFiles allF out dir,
      Inert s (readV st.vault f.1)) →
      L.foldl (fun st dir => (dirFiles allF out dir).foldl
        (fun st f => processFile s st f.1 f.2) st) st = st := by
    intro L
    induction L with
    | nil => intro _; rfl
    | cons d L ih =>
      intro hL
      rw [List.foldl_cons,
        foldFiles_all_inert_id s _ st (hL d (List.mem_cons_self _ _))]
      exact ih (fun dir hdir => hL dir (List.mem_cons_of_mem _ hdir))
  exact key s.targetDirectories h

/-! ## The scan pass preserves paths and basenames -/

theorem basename_modify_entry (f : VFile) (p c : String) :
    (if f.path == p then (⟨f.path, f.basename, c⟩ : VFile) else f).basename = f.basename := by
  by_cases h : (f.path == p) = true
  · rw [if_pos h]
  · rw [if_neg h]

theorem map_pb_modifyV (v : List VFile) (p c : String) :
    (modifyV v p c).map (fun f => (f.path, f.basename))
      = v.map (fun f => (f.path, f.basename)) := by
  unfold modifyV
  rw [List.map_map]
  apply List.map_congr_left
  intro f _
  show ((if f.path == p then (⟨f.path, f.basename, c⟩ : VFile) else f).path,
    (if f.path == p then (⟨f.path, f.basename, c⟩ : VFile) else f).basename)
    = (f.path, f.basename)
  rw [path_modify_entry, basename_modify_entry]

theorem processFile_map_pb (s : Settings) (st : PassSt) (path b : String) :
    (processFile s st path b).vault.map (fun f => (f.path, f.basename))
      = st.vault.map (fun f => (f.path, f.basename)) := by
  rcases processFile_vault_cases s st path b with h | h
  · rw [h]
  · rw [h, map_pb_modifyV]

theorem foldFiles_map_pb (s : Settings) (files : List (String × String)) (st : PassSt) :
    (files.foldl (fun st f => processFile s st f.1 f.2) st).vault.map
        (fun f => (f.path, f.basename))
      = st.vault.map (fun f => (f.path, f.basename)) := by
  induction files generalizing st with
  | nil => rfl
  | cons g files ih =>
    rw [List.foldl_cons, ih (processFile s st g.1 g.2), processFile_map_pb]

theorem scanDirs_map_pb (s : Settings) (out : String) (allF : List (String × String))
    (st : PassSt) :
    (scanDirs s out allF st).vault.map (fun f => (f.path, f.basename))
      = st.vault.map (fun f => (f.path, f.basename)) := by
  unfold scanDirs
  induction s.targetDirectories generalizing st with
  | nil => rfl
  | cons d ds ih =>
    rw [List.foldl_cons, ih _, foldFiles_map_pb]

theorem mdFiles_eq_map (v : List VFile) :
    mdFiles v = (v.map (fun f => (f.path, f.basename))).filter
      (fun x => jsEndsWith x.1 ".md") := by
  unfold mdFiles
  induction v with
  | nil => rfl
  | cons f v ih =>
    rw [List.map_cons, List.filter_cons, List.filter_cons]
    by_cases hf : jsEndsWith f.path ".md" = true
    · rw [if_pos hf, if_pos (by exact hf), List.map_cons, ih]
    · rw [if_neg hf, if_neg (by exact hf), ih]

/-! ## Stability of the output rebuild on its own output -/

theorem filter_false_nil {α : Type} (l : List α) (p : α → Bool)
    (h : ∀ a ∈ l, p a = false) : l.filter p = [] := by
  induction l with
  | nil => rfl
  | cons a l ih =>
    rw [List.filter_cons,
      if_neg (by rw [h a (List.mem_cons_self a l)]; exact Bool.false_ne_true)]
    exact ih (fun x hx => h x (List.mem_cons_of_mem _ hx))

theorem filter_filter_self {α : Type} (l : List α) (p : α → Bool) :
    (l.filter p).filter p = l.filter p :=
  List.filter_eq_self.mpr (fun a ha => List.of_mem_filter ha)

theorem split_join_filter (M : List String) (q : String → Bool)
    (hm : ∀ x ∈ M, ('\n' : Char) ∉ x.data) (hqe : q "" = false) :
    (jsSplit '\n' (jsJoin '\n' M)).filter q = M.filter q := by
  by_cases hM : M = []
  · subst hM
    rw [jsJoin_nil, jsSplit_empty]
    simp [List.filter_cons, hqe]
  · rw [jsSplit_jsJoin '\n' M hM hm]

theorem dkc_empty (s : Settings) (now : Int) : delayedKeepChecked s now "" = false := by
  unfold delayedKeepChecked
  rw [show jsStartsWith "" "- [x]" = false from by decide]
  rfl

theorem dkc_checked (s : Settings) (now : Int) (l : String)
    (h : delayedKeepChecked s now l = true) : jsStartsWith l "- [x]" = true := by
  unfold delayedKeepChecked at h
  simp only [Bool.and_eq_true] at h
  exact h.1

theorem rebuild_stable (s : Settings) (now : Int) (existing : String) (N : List String)
    (hNt : ∀ t ∈ N, jsStartsWith t "- [ ] " = true ∧ ('\n' : Char) ∉ t.data) :
    rebuildOutput s now (rebuildOutput s now existing N) [] = rebuildOutput s now existing N := by
  have hlnl : ∀ l ∈ jsSplit '\n' existing, ('\n' : Char) ∉ l.data :=
    fun l hl => no_sep_of_mem_jsSplit '\n' existing l hl
  have hNnl : ∀ t ∈ N, ('\n' : Char) ∉ t.data := fun t ht => (hNt t ht).2
  have hNu : ∀ t ∈ N, jsStartsWith t "- [ ]" = true :=
    fun t ht => startsWith_item6_5 t (hNt t ht).1
  have hNnx : ∀ t ∈ N, jsStartsWith t "- [x]" = false :=
    fun t ht => unchecked_not_checked t (hNu t ht)
  have hNdkc : ∀ t ∈ N, delayedKeepChecked s now t = false := by
    intro t ht
    apply bool_not_true
    intro hcon
    have h1 := dkc_checked s now t hcon
    rw [hNnx t ht] at h1
    exact Bool.false_ne_true h1
  cases hpol : s.completedTodoHandling with
  | immediate =>
    rw [rebuildOutput_immediate s now existing N hpol]
    rw [rebuildOutput_immediate s now _ [] hpol]
    rw [split_join_filter _ _ (by
        intro x hx
        rcases List.mem_append.mp hx with hx | hx
        · exact hlnl x (List.mem_of_mem_filter hx)
        · exact hNnl x hx)
      (by decide)]
    rw [List.filter_append, filter_filter_self, List.filter_eq_self.mpr hNu,
      List.append_nil]
  | delayed =>
    rw [rebuildOutput_delayed s now existing N hpol]
    rw [rebuildOutput_delayed s now _ [] hpol]
    have hmnl : ∀ x ∈ (jsSplit '\n' existing).filter (delayedKeepChecked s now) ++
        (jsSplit '\n' existing).filter (fun l => jsStartsWith l "- [ ]") ++ N,
        ('\n' : Char) ∉ x.data := by
      intro x hx
      rcases List.mem_append.mp hx with hx | hx
      · rcases List.mem_append.mp hx with hx | hx
        · exact hlnl x (List.mem_of_mem_filter hx)
        · exact hlnl x (List.mem_of_mem_filter hx)
      · exact hNnl x hx
    rw [split_join_filter _ _ hmnl (dkc_empty s now),
      split_join_filter _ _ hmnl (by decide)]
    rw [List.filter_append, List.filter_append, List.filter_append, List.filter_append]
    rw [filter_filter_self]
    rw [filter_false_nil ((jsSplit '\n' existing).filter (fun l => jsStartsWith l "- [ ]"))
      (delayedKeepChecked s now) (by
        intro a ha
        apply bool_not_true
        intro hcon
        have h1 := List.of_mem_filter ha
        rw [checked_not_unchecked a (dkc_checked s now a hcon)] at h1
        exact Bool.false_ne_true h1)]
    rw [filter_false_nil N (delayedKeepChecked s now) hNdkc]
    rw [filter_false_nil ((jsSplit '\n' existing).filter (delayedKeepChecked s now))
      (fun l => jsStartsWith l "- [ ]") (by
        intro a ha
        exact checked_not_unchecked a (dkc_checked s now a (List.of_mem_filter ha)))]
    rw [filter_filter_self, List.filter_eq_self.mpr hNu]
    simp
  | keep =>
    rw [rebuildOutput_keep s now existing N hpol]
    rw [rebuildOutput_keep s now _ [] hpol]
    have hmnl : ∀ x ∈ (jsSplit '\n' existing).filter (fun l => jsStartsWith l "- [x]") ++
        (jsSplit '\n' existing).filter (fun l => jsStartsWith l "- [ ]") ++ N,
        ('\n' : Char) ∉ x.data := by
      intro x hx
      rcases List.mem_append.mp hx with hx | hx
      · rcases List.mem_append.mp hx with hx | hx
        · exact hlnl x (List.mem_of_mem_filter hx)
        · exact hlnl x (List.mem_of_mem_filter hx)
      · exact hNnl x hx
    rw [split_join_filter _ _ hmnl (by decide), split_join_filter _ _ hmnl (by decide)]
    rw [List.filter_append, List.filter_append, List.filter_append, List.filter_append]
    rw [filter_filter_self]
    rw [filter_false_nil ((jsSplit '\n' existing).filter (fun l => jsStartsWith l "- [ ]"))
      (fun l => jsStartsWith l "- [x]") (by
        intro a ha
        have h1 : jsStartsWith a "- [ ]" = true :=
          List.of_mem_filter (p := fun l => jsStartsWith l "- [ ]") ha
        show jsStartsWith a "- [x]" = false
        exact unchecked_not_checked a h1)]
    rw [filter_false_nil N (fun l => jsStartsWith l "- [x]") hNnx]
    rw [filter_false_nil ((jsSplit '\n' existing).filter (fun l => jsStartsWith l "- [x]"))
      (fun l => jsStartsWith l "- [ ]") (by
        intro a ha
        have h1 : jsStartsWith a "- [x]" = true :=
          List.of_mem_filter (p := fun l => jsStartsWith l "- [x]") ha
        show jsStartsWith a "- [ ]" = false
        exact checked_not_unchecked a h1)]
    rw [filter_filter_self, List.filter_eq_self.mpr hNu]
    simp

/-! ## No-duplication of the rebuilt output -/

theorem taskLines_jsJoin (M : List String) (hm : ∀ x ∈ M, ('\n' : Char) ∉ x.data) :
    taskLines (jsJoin '\n' M) = M.filter isTaskLine := by
  unfold taskLines
  cases M with
  | nil => decide
  | cons x t => rw [jsSplit_jsJoin '\n' (x :: t) (by simp) hm]

theorem filter_task_sub_nodup (lines : List String) (p : String → Bool)
    (hex : (lines.filter isTaskLine).Nodup) :
    ((lines.filter p).filter isTaskLine).Nodup :=
  List.Nodup.sublist (List.Sublist.filter isTaskLine (List.filter_sublist lines)) hex

theorem append_filter_task_nodup (lines : List String) (p1 p2 : String → Bool)
    (hex : (lines.filter isTaskLine).Nodup)
    (hdisj : ∀ l, p1 l = true → p2 l = true → False) :
    ((lines.filter p1 ++ lines.filter p2).filter isTaskLine).Nodup := by
  rw [List.filter_append]
  refine List.Nodup.append (filter_task_sub_nodup lines p1 hex)
    (filter_task_sub_nodup lines p2 hex) ?_
  intro a ha1 ha2
  exact hdisj a (List.of_mem_filter (List.mem_of_mem_filter ha1))
    (List.of_mem_filter (List.mem_of_mem_filter ha2))

theorem taskLines_append_nodup (lines A N : List String)
    (hA : ∀ a ∈ A, a ∈ lines)
    (hAnd : (A.filter isTaskLine).Nodup)
    (hN : N.Nodup)
    (hNt : ∀ t ∈ N, jsStartsWith t "- [ ] " = true ∧ ('\n' : Char) ∉ t.data)
    (hNs : ∀ t ∈ N, t ∉ lines.filter isTaskLine)
    (hlines : ∀ l ∈ lines, ('\n' : Char) ∉ l.data) :
    (taskLines (jsJoin '\n' (A ++ N))).Nodup := by
  rw [taskLines_jsJoin]
  · rw [List.filter_append]
    have hNf : N.filter isTaskLine = N := by
      apply List.filter_eq_self.mpr
      intro t ht
      unfold isTaskLine
      rw [startsWith_item6_5 t (hNt t ht).1]
      rfl
    rw [hNf]
    refine List.Nodup.append hAnd hN ?_
    intro a haA haN
    exact hNs a haN (List.mem_filter.mpr
      ⟨hA a (List.mem_of_mem_filter haA), List.of_mem_filter haA⟩)
  · intro x hx
    rcases List.mem_append.mp hx with hx | hx
    · exact hlines x (hA x hx)
    · exact (hNt x hx).2

theorem rebuild_nodup (s : Settings) (now : Int) (existing : String) (N : List String)
    (hex : (taskLines existing).Nodup)
    (hN : N.Nodup)
    (hNt : ∀ t ∈ N, jsStartsWith t "- [ ] " = true ∧ ('\n' : Char) ∉ t.data)
    (hNs : ∀ t ∈ N, t ∉ seedTasks (jsSplit '\n' existing)) :
    (taskLines (rebuildOutput s now existing N)).Nodup := by
  have hlines : ∀ l ∈ jsSplit '\n' existing, ('\n' : Char) ∉ l.data :=
    fun l hl => no_sep_of_mem_jsSplit '\n' existing l hl
  have hexf : (((jsSplit '\n' existing).filter isTaskLine)).Nodup := hex
  have hNs2 : ∀ t ∈ N, t ∉ (jsSplit '\n' existing).filter isTaskLine := by
    intro t ht hmem
    exact hNs t ht ((mem_seedTasks (jsSplit '\n' existing) t).mpr hmem)
  cases hpol : s.completedTodoHandling with
  | immediate =>
    rw [rebuildOutput_immediate s now existing N hpol]
    exact taskLines_append_nodup (jsSplit '\n' existing) _ N
      (fun a ha => List.mem_of_mem_filter ha)
      (filter_task_sub_nodup _ _ hexf) hN hNt hNs2 hlines
  | delayed =>
    rw [rebuildOutput_delayed s now existing N hpol]
    rw [List.append_assoc ((jsSplit '\n' existing).filter (delayedKeepChecked s now))
      ((jsSplit '\n' existing).filter (fun l => jsStartsWith l "- [ ]")) N,
      ← List.append_assoc]
    refine taskLines_append_nodup (jsSplit '\n' existing) _ N ?_ ?_ hN hNt hNs2 hlines
    · intro a ha
      rcases List.mem_append.mp ha with ha | ha <;> exact List.mem_of_mem_filter ha
    · refine append_filter_task_nodup (jsSplit '\n' existing) _ _ hexf ?_
      intro l h1 h2
      have hx : jsStartsWith l "- [x]" = true := by
        unfold delayedKeepChecked at h1
        simp only [Bool.and_eq_true] at h1
        exact h1.1
      rw [checked_not_unchecked l hx] at h2
      exact Bool.false_ne_true h2
  | keep =>
    rw [rebuildOutput_keep s now existing N hpol]
    rw [List.append_assoc ((jsSplit '\n' existing).filter (fun l => jsStartsWith l "- [x]"))
      ((jsSplit '\n' existing).filter (fun l => jsStartsWith l "- [ ]")) N,
      ← List.append_assoc]
    refine taskLines_append_nodup (jsSplit '\n' existing) _ N ?_ ?_ hN hNt hNs2 hlines
    · intro a ha
      rcases List.mem_append.mp ha with ha | ha <;> exact List.mem_of_mem_filter ha
    · refine append_filter_task_nodup (jsSplit '\n' existing) _ _ hexf ?_
      intro l h1 h2
      rw [checked_not_unchecked l h1] at h2
      exact Bool.false_ne_true h2

theorem collectTodosMain_outContent (v0 : List VFile) (s : Settings) (now : Int)
    (tf : VFile) (hg : getFile v0 (outPathOf s) = some tf) :
    outContent (collectTodosMain v0 s now tf).1 s
      = some (rebuildOutput s now tf.content
          (scanDirs s (outPathOf s) (mdFiles v0)
            ⟨v0, seedTasks (jsSplit '\n' tf.content), [], []⟩).newTasks) := by
  simp only [collectTodosMain, hg]
  unfold outContent
  rw [getFile_modifyV_eq,
    (scanDirs_getFile_out s (outPathOf s) (mdFiles v0)
      ⟨v0, seedTasks (jsSplit '\n' tf.content), [], []⟩).trans hg]
  rfl

theorem scanState_inv (v0 : List VFile) (s : Settings) (tf : VFile)
    (hb : ∀ f ∈ v0, ('\n' : Char) ∉ f.basename.data) :
    ScanInv (seedTasks (jsSplit '\n' tf.content))
      (scanDirs s (outPathOf s) (mdFiles v0)
        ⟨v0, seedTasks (jsSplit '\n' tf.content), [], []⟩).existingTasks
      (scanDirs s (outPathOf s) (mdFiles v0)
        ⟨v0, seedTasks (jsSplit '\n' tf.content), [], []⟩).newTasks := by
  have hbm : ∀ f ∈ mdFiles v0, ('\n' : Char) ∉ f.2.data := by
    intro f hf
    unfold mdFiles at hf
    obtain ⟨g, hg1, rfl⟩ := List.mem_map.mp hf
    exact hb g (List.mem_of_mem_filter hg1)
  refine scanDirs_inv s (seedTasks (jsSplit '\n' tf.content)) (outPathOf s)
    (mdFiles v0) ⟨v0, seedTasks (jsSplit '\n' tf.content), [], []⟩ ?_ hbm
  refine ⟨fun t ht => ht, List.nodup_nil, ?_, ?_, ?_⟩ <;>
    intro t ht <;> exact absurd ht (List.not_mem_nil t)

/-- C6: amended no-duplication. The claim's universal form fails (see the
counterexample: duplicate item lines already present in the output document
survive the rebuild). Under the amendment — the pre-existing output document's
item lines hold no duplicate, and source basenames are newline-free — every
run of `collectTodos` leaves an output document whose item lines are pairwise
distinct, even when two source documents carry byte-identical tagged lines. -/
theorem claim_C6 (v0 : List VFile) (s : Settings) (now : Int)
    (hb : ∀ f ∈ v0, ('\n' : Char) ∉ f.basename.data)
    (hex : ∀ tf, getFile v0 (outPathOf s) = some tf → (taskLines tf.content).Nodup) :
    ∀ c, outContent (collectTodos v0 s now).1 s = some c → (taskLines c).Nodup := by
  intro c hc
  cases hg : getFile v0 (outPathOf s) with
  | none =>
    rw [collectTodos_none_eq v0 s now hg] at hc
    unfold outContent at hc
    rw [hg] at hc
    simp at hc
  | some tf =>
    have hexd := hex tf hg
    by_cases hprot : (s.protectClassifiedFiles && decide (s.lastClassificationTime > 0) &&
        decide (now - s.lastClassificationTime < 24 * 3600 * 1000)) = true
    · rw [collectTodos_protected_eq v0 s now tf hg hprot] at hc
      unfold outContent at hc
      rw [hg] at hc
      have hcc : tf.content = c := by simpa using hc
      rw [← hcc]
      exact hexd
    · have hprot2 : (s.protectClassifiedFiles && decide (s.lastClassificationTime > 0) &&
          decide (now - s.lastClassificationTime < 24 * 3600 * 1000)) = false := by
        cases hb2 : (s.protectClassifiedFiles && decide (s.lastClassificationTime > 0) &&
            decide (now - s.lastClassificationTime < 24 * 3600 * 1000))
        · rfl
        · exact absurd hb2 hprot
      rw [collectTodos_main_eq v0 s now tf hg hprot2,
        collectTodosMain_outContent v0 s now tf hg] at hc
      have hcc : rebuildOutput s now tf.content
          (scanDirs s (outPathOf s) (mdFiles v0)
            ⟨v0, seedTasks (jsSplit '\n' tf.content), [], []⟩).newTasks = c :=
        Option.some.inj hc
      rw [← hcc]
      have hinv := scanState_inv v0 s tf hb
      exact rebuild_nodup s now tf.content _ hexd hinv.2.1 hinv.2.2.2.2 hinv.2.2.2.1

theorem collectTodos_outContent_some (v : List VFile) (s : Settings) (now : Int) (tf : VFile)
    (hg : getFile v (outPathOf s) = some tf)
    (hprot2 : (s.protectClassifiedFiles && decide (s.lastClassificationTime > 0) &&
      decide (now - s.lastClassificationTime < 24 * 3600 * 1000)) = false) :
    outContent (collectTodos v s now).1 s
      = some (rebuildOutput s now tf.content
          (scanDirs s (outPathOf s) (mdFiles v)
            ⟨v, seedTasks (jsSplit '\n' tf.content), [], []⟩).newTasks) := by
  rw [collectTodos_main_eq v s now tf hg hprot2]
  exact collectTodosMain_outContent v s now tf hg

/-- C4: idempotence of the collection pass. Running `collectTodos` twice in a
row (same settings, same clock reading) leaves the same output document text
as running it once: after the first pass every candidate source document is
inert — it either carries the freshly written truthy `add_todo` sentinel or
matched no tag at all — so the second pass collects nothing and its rebuild
reproduces the output verbatim. Source basenames are assumed newline-free. -/
theorem claim_C4 (v0 : List VFile) (s : Settings) (now : Int)
    (hb : ∀ f ∈ v0, ('\n' : Char) ∉ f.basename.data) :
    outContent (collectTodos (collectTodos v0 s now).1 s now).1 s
      = outContent (collectTodos v0 s now).1 s := by
  cases hg : getFile v0 (outPathOf s) with
  | none =>
    have h1 : (collectTodos v0 s now).1 = v0 := by
      rw [collectTodos_none_eq v0 s now hg]
    rw [h1, h1]
  | some tf =>
    by_cases hprot : (s.protectClassifiedFiles && decide (s.lastClassificationTime > 0) &&
        decide (now - s.lastClassificationTime < 24 * 3600 * 1000)) = true
    · have h1 : (collectTodos v0 s now).1 = v0 := by
        rw [collectTodos_protected_eq v0 s now tf hg hprot]
      rw [h1, h1]
    · have hprot2 : (s.protectClassifiedFiles && decide (s.lastClassificationTime > 0) &&
          decide (now - s.lastClassificationTime < 24 * 3600 * 1000)) = false :=
        bool_not_true _ hprot
      have hmid : getFile (scanDirs s (outPathOf s) (mdFiles v0)
          ⟨v0, seedTasks (jsSplit '\n' tf.content), [], []⟩).vault (outPathOf s) = some tf :=
        (scanDirs_getFile_out s (outPathOf s) (mdFiles v0)
          ⟨v0, seedTasks (jsSplit '\n' tf.content), [], []⟩).trans hg
      have hv1 : (collectTodos v0 s now).1
          = modifyV (scanDirs s (outPathOf s) (mdFiles v0)
              ⟨v0, seedTasks (jsSplit '\n' tf.content), [], []⟩).vault (outPathOf s)
            (rebuildOutput s now tf.content (scanDirs s (outPathOf s) (mdFiles v0)
              ⟨v0, seedTasks (jsSplit '\n' tf.content), [], []⟩).newTasks) := by
        rw [collectTodos_main_eq v0 s now tf hg hprot2, collectTodosMain_eq v0 s now tf hg]
      have hg1 : getFile (modifyV (scanDirs s (outPathOf s) (mdFiles v0)
          ⟨v0, seedTasks (jsSplit '\n' tf.content), [], []⟩).vault (outPathOf s)
            (rebuildOutput s now tf.content (scanDirs s (outPathOf s) (mdFiles v0)
              ⟨v0, seedTasks (jsSplit '\n' tf.content), [], []⟩).newTasks)) (outPathOf s)
          = some ⟨tf.path, tf.basename, rebuildOutput s now tf.content
              (scanDirs s (outPathOf s) (mdFiles v0)
                ⟨v0, seedTasks (jsSplit '\n' tf.content), [], []⟩).newTasks⟩ := by
        rw [getFile_modifyV_eq, hmid]
        rfl
      have hout1 : outContent (modifyV (scanDirs s (outPathOf s) (mdFiles v0)
          ⟨v0, seedTasks (jsSplit '\n' tf.content), [], []⟩).vault (outPathOf s)
            (rebuildOutput s now tf.content (scanDirs s (outPathOf s) (mdFiles v0)
              ⟨v0, seedTasks (jsSplit '\n' tf.content), [], []⟩).newTasks)) s
          = some (rebuildOutput s now tf.content (scanDirs s (outPathOf s) (mdFiles v0)
              ⟨v0, seedTasks (jsSplit '\n' tf.content), [], []⟩).newTasks) := by
        unfold outContent
        rw [hg1]
        rfl
      have hpb : (modifyV (scanDirs s (outPathOf s) (mdFiles v0)
          ⟨v0, seedTasks (jsSplit '\n' tf.content), [], []⟩).vault (outPathOf s)
            (rebuildOutput s now tf.content (scanDirs s (outPathOf s) (mdFiles v0)
              ⟨v0, seedTasks (jsSplit '\n' tf.content), [], []⟩).newTasks)).map
            (fun f => (f.path, f.basename))
          = v0.map (fun f => (f.path, f.basename)) := by
        rw [map_pb_modifyV]
        exact scanDirs_map_pb s (outPathOf s) (mdFiles v0)
          ⟨v0, seedTasks (jsSplit '\n' tf.content), [], []⟩
      have hmd : mdFiles (modifyV (scanDirs s (outPathOf s) (mdFiles v0)
          ⟨v0, seedTasks (jsSplit '\n' tf.content), [], []⟩).vault (outPathOf s)
            (rebuildOutput s now tf.content (scanDirs s (outPathOf s) (mdFiles v0)
              ⟨v0, seedTasks (jsSplit '\n' tf.content), [], []⟩).newTasks))
          = mdFiles v0 :=
        (mdFiles_eq_map _).trans
          ((congrArg (fun l => List.filter (fun x => jsEndsWith x.1 ".md") l) hpb).trans
            (mdFiles_eq_map v0).symm)
      have hinert2 : ∀ dir ∈ s.targetDirectories,
          ∀ f ∈ dirFiles (mdFiles (modifyV (scanDirs s (outPathOf s) (mdFiles v0)
            ⟨v0, seedTasks (jsSplit '\n' tf.content), [], []⟩).vault (outPathOf s)
              (rebuildOutput s now tf.content (scanDirs s (outPathOf s) (mdFiles v0)
                ⟨v0, seedTasks (jsSplit '\n' tf.content), [], []⟩).newTasks)))
            (outPathOf s) dir,
          Inert s (readV (modifyV (scanDirs s (outPathOf s) (mdFiles v0)
            ⟨v0, seedTasks (jsSplit '\n' tf.content), [], []⟩).vault (outPathOf s)
              (rebuildOutput s now tf.content (scanDirs s (outPathOf s) (mdFiles v0)
                ⟨v0, seedTasks (jsSplit '\n' tf.content), [], []⟩).newTasks)) f.1) := by
        intro dir hdir f hf
        rw [hmd] at hf
        have hne : f.1 ≠ outPathOf s := dirFiles_ne_out (mdFiles v0) (outPathOf s) dir f hf
        rw [readV_modifyV_ne (scanDirs s (outPathOf s) (mdFiles v0)
          ⟨v0, seedTasks (jsSplit '\n' tf.content), [], []⟩).vault (outPathOf s)
          (rebuildOutput s now tf.content (scanDirs s (outPathOf s) (mdFiles v0)
            ⟨v0, seedTasks (jsSplit '\n' tf.content), [], []⟩).newTasks) f.1 hne]
        exact scanDirs_inert s (outPathOf s) (mdFiles v0)
          ⟨v0, seedTasks (jsSplit '\n' tf.content), [], []⟩ dir hdir f hf
      have hst2 : scanDirs s (outPathOf s)
          (mdFiles (modifyV (scanDirs s (outPathOf s) (mdFiles v0)
            ⟨v0, seedTasks (jsSplit '\n' tf.content), [], []⟩).vault (outPathOf s)
              (rebuildOutput s now tf.content (scanDirs s (outPathOf s) (mdFiles v0)
                ⟨v0, seedTasks (jsSplit '\n' tf.content), [], []⟩).newTasks)))
          ⟨modifyV (scanDirs s (outPathOf s) (mdFiles v0)
            ⟨v0, seedTasks (jsSplit '\n' tf.content), [], []⟩).vault (outPathOf s)
              (rebuildOutput s now tf.content (scanDirs s (outPathOf s) (mdFiles v0)
                ⟨v0, seedTasks (jsSplit '\n' tf.content), [], []⟩).newTasks),
            seedTasks (jsSplit '\n' (rebuildOutput s now tf.content
              (scanDirs s (outPathOf s) (mdFiles v0)
                ⟨v0, seedTasks (jsSplit '\n' tf.content), [], []⟩).newTasks)), [], []⟩
          = ⟨modifyV (scanDirs s (outPathOf s) (mdFiles v0)
              ⟨v0, seedTasks (jsSplit '\n' tf.content), [], []⟩).vault (outPathOf s)
                (rebuildOutput s now tf.content (scanDirs s (outPathOf s) (mdFiles v0)
                  ⟨v0, seedTasks (jsSplit '\n' tf.content), [], []⟩).newTasks),
              seedTasks (jsSplit '\n' (rebuildOutput s now tf.content
                (scanDirs s (outPathOf s) (mdFiles v0)
                  ⟨v0, seedTasks (jsSplit '\n' tf.content), [], []⟩).newTasks)), [], []⟩ :=
        scanDirs_all_inert_id s (outPathOf s) _ _
          (fun dir hdir f hf => hinert2 dir hdir f hf)
      rw [hv1]
      rw [collectTodos_outContent_some _ s now
        ⟨tf.path, tf.basename, rebuildOutput s now tf.content
          (scanDirs s (outPathOf s) (mdFiles v0)
            ⟨v0, seedTasks (jsSplit '\n' tf.content), [], []⟩).newTasks⟩ hg1 hprot2]
      rw [hout1]
      show some (rebuildOutput s now
        (rebuildOutput s now tf.content (scanDirs s (outPathOf s) (mdFiles v0)
          ⟨v0, seedTasks (jsSplit '\n' tf.content), [], []⟩).newTasks)
        (scanDirs s (outPathOf s)
          (mdFiles (modifyV (scanDirs s (outPathOf s) (mdFiles v0)
            ⟨v0, seedTasks (jsSplit '\n' tf.content), [], []⟩).vault (outPathOf s)
              (rebuildOutput s now tf.content (scanDirs s (outPathOf s) (mdFiles v0)
                ⟨v0, seedTasks (jsSplit '\n' tf.content), [], []⟩).newTasks)))
          ⟨modifyV (scanDirs s (outPathOf s) (mdFiles v0)
            ⟨v0, seedTasks (jsSplit '\n' tf.content), [], []⟩).vault (outPathOf s)
              (rebuildOutput s now tf.content (scanDirs s (outPathOf s) (mdFiles v0)
                ⟨v0, seedTasks (jsSplit '\n' tf.content), [], []⟩).newTasks),
            seedTasks (jsSplit '\n' (rebuildOutput s now tf.content
              (scanDirs s (outPathOf s) (mdFiles v0)
                ⟨v0, seedTasks (jsSplit '\n' tf.content), [], []⟩).newTasks)), [], []⟩).newTasks)
        = some (rebuildOutput s now tf.content (scanDirs s (outPathOf s) (mdFiles v0)
            ⟨v0, seedTasks (jsSplit '\n' tf.content), [], []⟩).newTasks)
      rw [hst2]
      show some (rebuildOutput s now
        (rebuildOutput s now tf.content (scanDirs s (outPathOf s) (mdFiles v0)
          ⟨v0, seedTasks (jsSplit '\n' tf.content), [], []⟩).newTasks) [])
        = some (rebuildOutput s now tf.content (scanDirs s (outPathOf s) (mdFiles v0)
            ⟨v0, seedTasks (jsSplit '\n' tf.content), [], []⟩).newTasks)
      exact congrArg some (rebuild_stable s now tf.content
        (scanDirs s (outPathOf s) (mdFiles v0)
          ⟨v0, seedTasks (jsSplit '\n' tf.content), [], []⟩).newTasks
        (scanState_inv v0 s tf hb).2.2.2.2)

theorem claim_C4_witness :
    outContent (collectTodos (collectTodos [⟨"TODO.md", "TODO", ""⟩]
        (mkSettings [] ["#TODO"] TodoHandling.immediate 1 []) 0).1
      (mkSettings [] ["#TODO"] TodoHandling.immediate 1 []) 0).1
      (mkSettings [] ["#TODO"] TodoHandling.immediate 1 [])
    = outContent (collectTodos [⟨"TODO.md", "TODO", ""⟩]
        (mkSettings [] ["#TODO"] TodoHandling.immediate 1 []) 0).1
      (mkSettings [] ["#TODO"] TodoHandling.immediate 1 []) :=
  claim_C4 [⟨"TODO.md", "TODO", ""⟩] (mkSettings [] ["#TODO"] TodoHandling.immediate 1 []) 0
    (by decide)

theorem claim_C6_witness : (taskLines "").Nodup :=
  claim_C6 [⟨"TODO.md", "TODO", ""⟩] (mkSettings [] ["#TODO"] TodoHandling.immediate 1 []) 0
    (by decide)
    (by
      intro tf htf
      have h2 : some (⟨"TODO.md", "TODO", ""⟩ : VFile) = some tf := htf
      cases Option.some.inj h2
      decide)
    "" (by decide)

/-! ## Idempotence pieces for the completed-item sweep -/

theorem map_eq_self_of {α : Type} (l : List α) (f : α → α) (h : ∀ a ∈ l, f a = a) :
    l.map f = l := by
  induction l with
  | nil => rfl
  | cons a l ih =>
    rw [List.map_cons, h a (List.mem_cons_self _ _),
      ih (fun x hx => h x (List.mem_cons_of_mem _ hx))]

theorem parse_render_self (m : List (String × String)) (hwf : WfFm m)
    (hkey : "" ∉ m.map (·.1)) :
    parseYaml (jsJoin '\n' (renderFm m)) = m := by
  rw [parseYaml_render m hwf]
  apply List.filter_eq_self.mpr
  intro e he
  have hne : e.1 ≠ "" := fun hc => hkey (List.mem_map.mpr ⟨e, he, hc⟩)
  rw [show (e.1 == "") = false from beq_eq_false_iff_ne.mpr hne]
  rfl

theorem keys_fmUpsert_subset (m : List (String × String)) (k v q : String)
    (hq : q ∈ (fmUpsert m k v).map (·.1)) : q ∈ m.map (·.1) ∨ q = k := by
  by_cases h : m.any (fun e => e.1 == k) = true
  · rw [keys_fmUpsert_present m k v h] at hq
    exact Or.inl hq
  · rw [fmUpsert_eq_append m k v (bool_not_true _ h), List.map_append] at hq
    rcases List.mem_append.mp hq with hq | hq
    · exact Or.inl hq
    · simp at hq
      exact Or.inr hq

theorem fmUpsert_idem (m : List (String × String)) (k v : String) :
    fmUpsert (fmUpsert m k v) k v = fmUpsert m k v := by
  by_cases h : m.any (fun e => e.1 == k) = true
  · unfold fmUpsert
    rw [if_pos h]
    have h2 : (m.map (fun e => if e.1 == k then (e.1, v) else e)).any
        (fun e => e.1 == k) = true := by
      obtain ⟨e, he, hek⟩ := List.any_eq_true.mp h
      refine List.any_eq_true.mpr ⟨(if e.1 == k then (e.1, v) else e),
        List.mem_map.mpr ⟨e, he, rfl⟩, ?_⟩
      rw [if_pos hek]
      exact hek
    rw [if_pos h2, List.map_map]
    apply List.map_congr_left
    intro e _
    by_cases hek : (e.1 == k) = true
    · show (if (if e.1 == k then (e.1, v) else e).1 == k then
          ((if e.1 == k then (e.1, v) else e).1, v)
        else (if e.1 == k then (e.1, v) else e)) = if e.1 == k then (e.1, v) else e
      rw [if_pos hek]
      show (if ((e.1, v).1 == k) then ((e.1, v).1, v) else (e.1, v)) = (e.1, v)
      rw [if_pos (show ((e.1, v).1 == k) = true from hek)]
    · show (if (if e.1 == k then (e.1, v) else e).1 == k then
          ((if e.1 == k then (e.1, v) else e).1, v)
        else (if e.1 == k then (e.1, v) else e)) = if e.1 == k then (e.1, v) else e
      rw [if_neg hek, if_neg hek]
  · have hf : m.any (fun e => e.1 == k) = false := bool_not_true _ h
    rw [fmUpsert_eq_append m k v hf]
    unfold fmUpsert
    rw [if_pos (List.any_eq_true.mpr ⟨(k, v),
      List.mem_append.mpr (Or.inr (List.mem_singleton.mpr rfl)), by simp⟩)]
    rw [List.map_append]
    rw [map_eq_self_of m _ (fun e he => if_neg (fun hc =>
      keys_not_mem_of_any_false m k hf
        (List.mem_map.mpr ⟨e, he, by simpa using hc⟩)))]
    rw [show [(k, v)].map (fun e => if e.1 == k then (e.1, v) else e) = [(k, v)] from by simp]

/-! ## Slices with a `-1` bound, as `slice(x, -1)` and `slice(-1)` produce -/

theorem jsSlice_neg_one_mid {α : Type} (A : List α) (m : α) (B : List α) (c : α) :
    jsSlice (A ++ m :: (B ++ [c])) (Int.ofNat A.length + 1) (-1) = B := by
  rw [show (Int.ofNat A.length + 1 : Int) = Int.ofNat (A.length + 1) from rfl]
  rw [jsSlice_coe_neg_one]
  have hlen : (A ++ m :: (B ++ [c])).length = A.length + 1 + B.length + 1 := by
    simp
    omega
  have h1 : min (A.length + 1) (A ++ m :: (B ++ [c])).length = A.length + 1 := by
    rw [hlen]
    omega
  rw [h1, hlen, show A.length + 1 + B.length + 1 - 1 - (A.length + 1) = B.length from by omega]
  rw [show A ++ m :: (B ++ [c]) = (A ++ [m]) ++ (B ++ [c]) from by simp]
  rw [show A.length + 1 = (A ++ [m]).length from by simp]
  rw [List.drop_left]
  exact List.take_left _ _

theorem jsSliceFrom_neg_one_mid {α : Type} (A : List α) (m : α) (B : List α) (c : α) :
    jsSliceFrom (A ++ m :: (B ++ [c])) (-1) = [c] := by
  rw [jsSliceFrom_neg_one]
  have hlen : (A ++ m :: (B ++ [c])).length = A.length + 1 + B.length + 1 := by
    simp
    omega
  rw [hlen, show A.length + 1 + B.length + 1 - 1 = ((A ++ [m]) ++ B).length from by
    simp only [List.length_append, List.length_cons, List.length_nil]
    omega]
  rw [show A ++ m :: (B ++ [c]) = ((A ++ [m]) ++ B) ++ [c] from by simp]
  exact List.drop_left _ _

theorem jsSlice_neg_one_end {α : Type} (A : List α) (m : α) :
    jsSlice (A ++ [m]) (Int.ofNat A.length + 1) (-1) = [] := by
  rw [show (Int.ofNat A.length + 1 : Int) = Int.ofNat (A.length + 1) from rfl]
  rw [jsSlice_coe_neg_one]
  have hlen : (A ++ [m]).length = A.length + 1 := by simp
  rw [hlen, show A.length + 1 - 1 - min (A.length + 1) (A.length + 1) = 0 from by omega]
  rw [List.take_zero]

theorem jsSliceFrom_neg_one_end {α : Type} (A : List α) (m : α) :
    jsSliceFrom (A ++ [m]) (-1) = [m] := by
  rw [jsSliceFrom_neg_one]
  have hlen : (A ++ [m]).length = A.length + 1 := by simp
  rw [hlen, show A.length + 1 - 1 = A.length from by omega]
  exact List.drop_left _ _

/-! ## Equation forms of the completed-item sweep -/

theorem processCompletedTodos_eq (s : Settings) (content filePath : String) :
    processCompletedTodos s content filePath =
      (if (jsSplit '\n' content).any (fun l => jsStartsWith l "- [x]") then
        (if s.completedTodoHandling = TodoHandling.immediate then
          jsJoin '\n' ((jsSplit '\n' content).filter (fun l => !jsStartsWith l "- [x]"))
        else if (fmScan (jsSplit '\n' content)).1 == -1 then
          jsJoin '\n' (["---", jsJoin '\n' (renderFm
            (if filePath != jsOr s.outputFilePath "TODO.md" then [("add_todo", "true")]
              else [])), "---"] ++ jsSplit '\n' content)
        else
          jsJoin '\n' (jsSlice (jsSplit '\n' content) 0 ((fmScan (jsSplit '\n' content)).1 + 1) ++
            renderFm (if filePath != jsOr s.outputFilePath "TODO.md" then
                fmUpsert (parseYaml (jsJoin '\n' (jsSlice (jsSplit '\n' content)
                  ((fmScan (jsSplit '\n' content)).1 + 1) (fmScan (jsSplit '\n' content)).2)))
                  "add_todo" "true"
              else parseYaml (jsJoin '\n' (jsSlice (jsSplit '\n' content)
                ((fmScan (jsSplit '\n' content)).1 + 1) (fmScan (jsSplit '\n' content)).2))) ++
            jsSliceFrom (jsSplit '\n' content) (fmScan (jsSplit '\n' content)).2))
      else content) := rfl

theorem pct_not_completed (s : Settings) (content filePath : String)
    (h : (jsSplit '\n' content).any (fun l => jsStartsWith l "- [x]") = false) :
    processCompletedTodos s content filePath = content := by
  rw [processCompletedTodos_eq]
  rw [if_neg (by rw [h]; exact Bool.false_ne_true)]

theorem pct_immediate (s : Settings) (content filePath : String)
    (hHC : (jsSplit '\n' content).any (fun l => jsStartsWith l "- [x]") = true)
    (himm : s.completedTodoHandling = TodoHandling.immediate) :
    processCompletedTodos s content filePath =
      jsJoin '\n' ((jsSplit '\n' content).filter (fun l => !jsStartsWith l "- [x]")) := by
  rw [processCompletedTodos_eq, if_pos hHC, if_pos himm]

theorem pct_prepend (s : Settings) (content filePath : String)
    (hHC : (jsSplit '\n' content).any (fun l => jsStartsWith l "- [x]") = true)
    (himm : s.completedTodoHandling ≠ TodoHandling.immediate)
    (hse : ((fmScan (jsSplit '\n' content)).1 == -1) = true) :
    processCompletedTodos s content filePath =
      jsJoin '\n' (["---", jsJoin '\n' (renderFm
        (if filePath != jsOr s.outputFilePath "TODO.md" then [("add_todo", "true")]
          else [])), "---"] ++ jsSplit '\n' content) := by
  rw [processCompletedTodos_eq, if_pos hHC, if_neg himm, if_pos hse]

theorem pct_update (s : Settings) (content filePath : String) (a : Nat) (e : Int)
    (hHC : (jsSplit '\n' content).any (fun l => jsStartsWith l "- [x]") = true)
    (himm : s.completedTodoHandling ≠ TodoHandling.immediate)
    (hscan : fmScan (jsSplit '\n' content) = (Int.ofNat a, e)) :
    processCompletedTodos s content filePath =
      jsJoin '\n' (jsSlice (jsSplit '\n' content) 0 (Int.ofNat a + 1) ++
        renderFm (if filePath != jsOr s.outputFilePath "TODO.md" then
            fmUpsert (parseYaml (jsJoin '\n' (jsSlice (jsSplit '\n' content)
              (Int.ofNat a + 1) e))) "add_todo" "true"
          else parseYaml (jsJoin '\n' (jsSlice (jsSplit '\n' content)
            (Int.ofNat a + 1) e))) ++
        jsSliceFrom (jsSplit '\n' content) e) := by
  rw [processCompletedTodos_eq, if_pos hHC, if_neg himm, hscan]
  rw [if_neg (by
    rw [show ((Int.ofNat a, e) : Int × Int).1 = Int.ofNat a from rfl, ofNat_beq_neg_one]
    exact Bool.false_ne_true)]

theorem pct_second_two (s : Settings) (filePath : String) (A : List String) (m : String)
    (FM : List (String × String)) (m2 : String) (C : List String)
    (hA : ∀ l ∈ A, isMarkerLine l = false) (hm : isMarkerLine m = true)
    (hm2 : isMarkerLine m2 = true)
    (hAnl : ∀ l ∈ A ++ [m], ('\n' : Char) ∉ l.data)
    (hCnl : ∀ l ∈ m2 :: C, ('\n' : Char) ∉ l.data)
    (himm : s.completedTodoHandling ≠ TodoHandling.immediate)
    (hwf : WfFm FM) (hkey : "" ∉ FM.map (·.1))
    (hstable : (if filePath != jsOr s.outputFilePath "TODO.md" then
        fmUpsert FM "add_todo" "true" else FM) = FM) :
    processCompletedTodos s (jsJoin '\n' ((A ++ [m]) ++ renderFm FM ++ (m2 :: C))) filePath
      = jsJoin '\n' ((A ++ [m]) ++ renderFm FM ++ (m2 :: C)) := by
  have hRnl := renderFm_no_nl FM hwf
  have hUnl : ∀ l ∈ (A ++ [m]) ++ renderFm FM ++ (m2 :: C), ('\n' : Char) ∉ l.data := by
    intro l hl
    rcases List.mem_append.mp hl with hl | hl
    · rcases List.mem_append.mp hl with hl | hl
      · exact hAnl l hl
      · exact hRnl l hl
    · exact hCnl l hl
  have hsplit2 : jsSplit '\n' (jsJoin '\n' ((A ++ [m]) ++ renderFm FM ++ (m2 :: C)))
      = (A ++ [m]) ++ renderFm FM ++ (m2 :: C) :=
    jsSplit_jsJoin '\n' _ (by simp) hUnl
  by_cases hHC2 : (jsSplit '\n' (jsJoin '\n' ((A ++ [m]) ++ renderFm FM ++ (m2 :: C)))).any
      (fun l => jsStartsWith l "- [x]") = true
  case neg => exact pct_not_completed s _ filePath (bool_not_true _ hHC2)
  case pos =>
  have hshape : (A ++ [m]) ++ renderFm FM ++ (m2 :: C)
      = A ++ m :: (renderFm FM ++ m2 :: C) := by simp
  have hscan2 : fmScan (jsSplit '\n' (jsJoin '\n' ((A ++ [m]) ++ renderFm FM ++ (m2 :: C))))
      = (Int.ofNat A.length, Int.ofNat (A.length + 1 + (renderFm FM).length)) := by
    rw [hsplit2, hshape]
    exact fmScan_two_markers A m (renderFm FM) m2 C hA hm
      (fun l hl => renderFm_not_marker FM l hl) hm2
  rw [pct_update s _ filePath A.length (Int.ofNat (A.length + 1 + (renderFm FM).length))
    hHC2 himm hscan2]
  rw [hsplit2]
  have hsl1 : jsSlice ((A ++ [m]) ++ renderFm FM ++ (m2 :: C)) 0 (Int.ofNat A.length + 1)
      = A ++ [m] := by
    rw [hshape]
    exact jsSlice_head A m _
  have hsl2 : jsSlice ((A ++ [m]) ++ renderFm FM ++ (m2 :: C)) (Int.ofNat A.length + 1)
      (Int.ofNat (A.length + 1 + (renderFm FM).length)) = renderFm FM := by
    rw [hshape]
    exact jsSlice_mid A m (renderFm FM) (m2 :: C)
  have hsl3 : jsSliceFrom ((A ++ [m]) ++ renderFm FM ++ (m2 :: C))
      (Int.ofNat (A.length + 1 + (renderFm FM).length)) = m2 :: C := by
    rw [hshape]
    exact jsSliceFrom_mid A m (renderFm FM) m2 C
  rw [hsl1, hsl2, hsl3, parse_render_self FM hwf hkey, hstable]

theorem pct_second_one (s : Settings) (filePath : String) (A : List String) (m : String)
    (FM : List (String × String)) (c : String)
    (hA : ∀ l ∈ A, isMarkerLine l = false) (hm : isMarkerLine m = true)
    (hc : isMarkerLine c = false)
    (hAnl : ∀ l ∈ A ++ [m], ('\n' : Char) ∉ l.data)
    (hcnl : ('\n' : Char) ∉ c.data)
    (himm : s.completedTodoHandling ≠ TodoHandling.immediate)
    (hwf : WfFm FM) (hkey : "" ∉ FM.map (·.1))
    (hstable : (if filePath != jsOr s.outputFilePath "TODO.md" then
        fmUpsert FM "add_todo" "true" else FM) = FM) :
    processCompletedTodos s (jsJoin '\n' ((A ++ [m]) ++ renderFm FM ++ [c])) filePath
      = jsJoin '\n' ((A ++ [m]) ++ renderFm FM ++ [c]) := by
  have hRnl := renderFm_no_nl FM hwf
  have hUnl : ∀ l ∈ (A ++ [m]) ++ renderFm FM ++ [c], ('\n' : Char) ∉ l.data := by
    intro l hl
    rcases List.mem_append.mp hl with hl | hl
    · rcases List.mem_append.mp hl with hl | hl
      · exact hAnl l hl
      · exact hRnl l hl
    · rw [List.mem_singleton.mp hl]
      exact hcnl
  have hsplit2 : jsSplit '\n' (jsJoin '\n' ((A ++ [m]) ++ renderFm FM ++ [c]))
      = (A ++ [m]) ++ renderFm FM ++ [c] :=
    jsSplit_jsJoin '\n' _ (by simp) hUnl
  by_cases hHC2 : (jsSplit '\n' (jsJoin '\n' ((A ++ [m]) ++ renderFm FM ++ [c]))).any
      (fun l => jsStartsWith l "- [x]") = true
  case neg => exact pct_not_completed s _ filePath (bool_not_true _ hHC2)
  case pos =>
  have hshape : (A ++ [m]) ++ renderFm FM ++ [c] = A ++ m :: (renderFm FM ++ [c]) := by simp
  have hscan2 : fmScan (jsSplit '\n' (jsJoin '\n' ((A ++ [m]) ++ renderFm FM ++ [c])))
      = (Int.ofNat A.length, -1) := by
    rw [hsplit2, hshape]
    exact fmScan_one_marker A m (renderFm FM ++ [c]) hA hm (by
      intro l hl
      rcases List.mem_append.mp hl with hl | hl
      · exact renderFm_not_marker FM l hl
      · rw [List.mem_singleton.mp hl]
        exact hc)
  rw [pct_update s _ filePath A.length (-1) hHC2 himm hscan2]
  rw [hsplit2]
  have hsl1 : jsSlice ((A ++ [m]) ++ renderFm FM ++ [c]) 0 (Int.ofNat A.length + 1)
      = A ++ [m] := by
    rw [hshape]
    exact jsSlice_head A m _
  have hsl2 : jsSlice ((A ++ [m]) ++ renderFm FM ++ [c]) (Int.ofNat A.length + 1) (-1)
      = renderFm FM := by
    rw [hshape]
    exact jsSlice_neg_one_mid A m (renderFm FM) c
  have hsl3 : jsSliceFrom ((A ++ [m]) ++ renderFm FM ++ [c]) (-1) = [c] := by
    rw [hshape]
    exact jsSliceFrom_neg_one_mid A m (renderFm FM) c
  rw [hsl1, hsl2, hsl3, parse_render_self FM hwf hkey, hstable]

/-- C5: amended idempotence of the completed-item sweep. The sweep is
idempotent under any of: the policy is `immediate`; the document has no
checked line; the document has no frontmatter marker and the path differs
from the output path (so a well-formed `add_todo: true` block is written);
or a first marker exists and the parsed block holds no whitespace-only key.
The unconditional claim fails — see the counterexample, where the sweep at
the output path wraps the document in `---`/blank/`---` and the second
application collapses the blank line away. -/
theorem claim_C5 (s : Settings) (x filePath : String)
    (h : s.completedTodoHandling = TodoHandling.immediate ∨
      (∀ l ∈ jsSplit '\n' x, jsStartsWith l "- [x]" = false) ∨
      ((fmScan (jsSplit '\n' x)).1 = -1 ∧ filePath ≠ jsOr s.outputFilePath "TODO.md") ∨
      ((fmScan (jsSplit '\n' x)).1 ≠ -1 ∧
        "" ∉ (parseYaml (jsJoin '\n' (jsSlice (jsSplit '\n' x)
          ((fmScan (jsSplit '\n' x)).1 + 1) (fmScan (jsSplit '\n' x)).2))).map (·.1))) :
    processCompletedTodos s (processCompletedTodos s x filePath) filePath
      = processCompletedTodos s x filePath := by
  by_cases hHC : (jsSplit '\n' x).any (fun l => jsStartsWith l "- [x]") = true
  case neg =>
    have h0 : processCompletedTodos s x filePath = x :=
      pct_not_completed s x filePath (bool_not_true _ hHC)
    rw [h0, h0]
  case pos =>
  by_cases himm : s.completedTodoHandling = TodoHandling.immediate
  case pos =>
    rw [pct_immediate s x filePath hHC himm]
    apply pct_not_completed
    apply bool_not_true
    intro hcon
    obtain ⟨l, hl, hpl⟩ := List.any_eq_true.mp hcon
    by_cases hf : (jsSplit '\n' x).filter (fun l => !jsStartsWith l "- [x]") = []
    · rw [hf, jsJoin_nil, jsSplit_empty] at hl
      rw [List.mem_singleton.mp hl] at hpl
      exact absurd hpl (by decide)
    · rw [jsSplit_jsJoin '\n' _ hf (fun t ht =>
        no_sep_of_mem_jsSplit '\n' x t (List.mem_of_mem_filter ht))] at hl
      have h1 : (!jsStartsWith l "- [x]") = true :=
        List.of_mem_filter (p := fun l => !jsStartsWith l "- [x]") hl
      rw [hpl] at h1
      exact absurd h1 (by decide)
  case neg =>
  rcases h with himm2 | hnc | ⟨hse, hpath⟩ | ⟨hse, hkey⟩
  · exact absurd himm2 himm
  · obtain ⟨l, hl, hpl⟩ := List.any_eq_true.mp hHC
    rw [hnc l hl] at hpl
    exact absurd hpl (by decide)
  · -- no marker at all: the fresh block is written, and it re-parses stably
    have hbne : (filePath != jsOr s.outputFilePath "TODO.md") = true := bne_iff_ne.mpr hpath
    have hf1 : processCompletedTodos s x filePath
        = jsJoin '\n' ("---" :: "add_todo: true" :: "---" :: jsSplit '\n' x) := by
      rw [pct_prepend s x filePath hHC himm (by rw [hse]; decide)]
      rw [if_pos hbne]
      rw [show renderFm [("add_todo", "true")] = ["add_todo: true"] from rfl, jsJoin_singleton]
      rfl
    rw [hf1]
    have hsplit2 : jsSplit '\n' (jsJoin '\n'
        ("---" :: "add_todo: true" :: "---" :: jsSplit '\n' x))
        = "---" :: "add_todo: true" :: "---" :: jsSplit '\n' x :=
      jsSplit_jsJoin '\n' _ (by simp) (by
        intro l hl
        rcases List.mem_cons.mp hl with rfl | hl
        · decide
        rcases List.mem_cons.mp hl with rfl | hl
        · decide
        rcases List.mem_cons.mp hl with rfl | hl
        · decide
        · exact no_sep_of_mem_jsSplit '\n' x l hl)
    have hHC2 : (jsSplit '\n' (jsJoin '\n'
        ("---" :: "add_todo: true" :: "---" :: jsSplit '\n' x))).any
        (fun l => jsStartsWith l "- [x]") = true := by
      rw [hsplit2]
      obtain ⟨l, hl, hpl⟩ := List.any_eq_true.mp hHC
      exact List.any_eq_true.mpr ⟨l, List.mem_cons_of_mem _ (List.mem_cons_of_mem _
        (List.mem_cons_of_mem _ hl)), hpl⟩
    have hscan2 : fmScan (jsSplit '\n' (jsJoin '\n'
        ("---" :: "add_todo: true" :: "---" :: jsSplit '\n' x)))
        = (Int.ofNat 0, Int.ofNat 2) := by
      rw [hsplit2]
      exact fmScan_two_markers [] "---" ["add_todo: true"] "---" (jsSplit '\n' x)
        (by intro l hl; cases hl) (by decide)
        (by intro l hl; rw [List.mem_singleton.mp hl]; decide) (by decide)
    rw [pct_update s _ filePath 0 (Int.ofNat 2) hHC2 himm hscan2]
    rw [hsplit2]
    rw [if_pos hbne]
    have hslA : jsSlice ("---" :: "add_todo: true" :: "---" :: jsSplit '\n' x) 0
        (Int.ofNat 0 + 1) = ["---"] :=
      jsSlice_head [] "---" ("add_todo: true" :: "---" :: jsSplit '\n' x)
    have hslB : jsSlice ("---" :: "add_todo: true" :: "---" :: jsSplit '\n' x)
        (Int.ofNat 0 + 1) (Int.ofNat 2) = ["add_todo: true"] :=
      jsSlice_mid [] "---" ["add_todo: true"] ("---" :: jsSplit '\n' x)
    have hslC : jsSliceFrom ("---" :: "add_todo: true" :: "---" :: jsSplit '\n' x)
        (Int.ofNat 2) = "---" :: jsSplit '\n' x :=
      jsSliceFrom_mid [] "---" ["add_todo: true"] "---" (jsSplit '\n' x)
    rw [hslA, hslB, hslC, jsJoin_singleton]
    rw [show fmUpsert (parseYaml "add_todo: true") "add_todo" "true"
      = [("add_todo", "true")] from by decide]
    rw [show renderFm [("add_todo", "true")] = ["add_todo: true"] from rfl]
    rfl
  · -- a first marker exists and the parsed block has no empty key
    have hnl : ∀ l ∈ jsSplit '\n' x, ('\n' : Char) ∉ l.data :=
      fun l hl => no_sep_of_mem_jsSplit '\n' x l hl
    rcases fmScan_cases (jsSplit '\n' x) with ⟨hall, hscan⟩ |
      ⟨A, m, B, hsp, hA, hm, hB, hscan⟩ | ⟨A, m, B, m2, C, hsp, hA, hm, hB, hm2, hscan⟩
    · exact absurd (show (fmScan (jsSplit '\n' x)).1 = -1 from by rw [hscan]) hse
    · -- one marker
      have hAnl : ∀ l ∈ A ++ [m], ('\n' : Char) ∉ l.data := by
        intro l hl
        apply hnl l
        rw [hsp]
        rcases List.mem_append.mp hl with hl | hl
        · exact List.mem_append.mpr (Or.inl hl)
        · rw [List.mem_singleton.mp hl]
          exact List.mem_append.mpr (Or.inr (List.mem_cons_self _ _))
      rcases List.eq_nil_or_concat B with rfl | ⟨B0, bl, rfl⟩
      · -- the marker is the last line
        have hs1 : jsSlice (jsSplit '\n' x) 0 (Int.ofNat A.length + 1) = A ++ [m] := by
          rw [hsp]
          exact jsSlice_head A m []
        have hs2 : jsSlice (jsSplit '\n' x) (Int.ofNat A.length + 1) (-1) = [] := by
          rw [hsp]
          exact jsSlice_neg_one_end A m
        have hs3 : jsSliceFrom (jsSplit '\n' x) (-1) = [m] := by
          rw [hsp]
          exact jsSliceFrom_neg_one_end A m
        rw [pct_update s x filePath A.length (-1) hHC himm hscan]
        rw [hs1, hs2, hs3]
        rw [show parseYaml (jsJoin '\n' ([] : List String)) = [] from by decide]
        by_cases hb : (filePath != jsOr s.outputFilePath "TODO.md") = true
        · rw [if_pos hb]
          exact pct_second_two s filePath A m (fmUpsert [] "add_todo" "true") m []
            hA hm hm hAnl
            (by
              intro l hl
              rw [List.mem_singleton.mp hl]
              exact hAnl m (List.mem_append.mpr (Or.inr (List.mem_cons_self _ _))))
            himm
            (fmUpsert_wf [] _ _ ⟨List.nodup_nil, by intro e he; cases he⟩
              (by decide) (by decide) (by decide) (by decide) (by decide))
            (by decide)
            (by rw [if_pos hb]; exact fmUpsert_idem [] "add_todo" "true")
        · rw [if_neg hb]
          exact pct_second_two s filePath A m [] m []
            hA hm hm hAnl
            (by
              intro l hl
              rw [List.mem_singleton.mp hl]
              exact hAnl m (List.mem_append.mpr (Or.inr (List.mem_cons_self _ _))))
            himm
            ⟨List.nodup_nil, by intro e he; cases he⟩
            (by simp [renderFm])
            (by rw [if_neg hb])
      · -- lines after the marker, none of them a marker
        rw [List.concat_eq_append] at hsp hB
        have hs1 : jsSlice (jsSplit '\n' x) 0 (Int.ofNat A.length + 1) = A ++ [m] := by
          rw [hsp]
          exact jsSlice_head A m (B0 ++ [bl])
        have hs2 : jsSlice (jsSplit '\n' x) (Int.ofNat A.length + 1) (-1) = B0 := by
          rw [hsp]
          exact jsSlice_neg_one_mid A m B0 bl
        have hs3 : jsSliceFrom (jsSplit '\n' x) (-1) = [bl] := by
          rw [hsp]
          exact jsSliceFrom_neg_one_mid A m B0 bl
        have hk : "" ∉ (parseYaml (jsJoin '\n' (jsSlice (jsSplit '\n' x)
            (Int.ofNat A.length + 1) (-1)))).map (·.1) := by
          rw [hscan] at hkey
          exact hkey
        rw [hs2] at hk
        have hbl : isMarkerLine bl = false :=
          hB bl (List.mem_append.mpr (Or.inr (List.mem_singleton.mpr rfl)))
        have hblnl : ('\n' : Char) ∉ bl.data := by
          apply hnl bl
          rw [hsp]
          exact List.mem_append.mpr (Or.inr (List.mem_cons_of_mem _
            (List.mem_append.mpr (Or.inr (List.mem_singleton.mpr rfl)))))
        rw [pct_update s x filePath A.length (-1) hHC himm hscan]
        rw [hs1, hs2, hs3]
        by_cases hb : (filePath != jsOr s.outputFilePath "TODO.md") = true
        · rw [if_pos hb]
          exact pct_second_one s filePath A m
            (fmUpsert (parseYaml (jsJoin '\n' B0)) "add_todo" "true") bl
            hA hm hbl hAnl hblnl himm
            (fmUpsert_wf _ _ _ (parseYaml_wf _)
              (by decide) (by decide) (by decide) (by decide) (by decide))
            (by
              intro hc
              rcases keys_fmUpsert_subset (parseYaml (jsJoin '\n' B0)) "add_todo" "true" "" hc
                with hc2 | hc2
              · exact hk hc2
              · exact absurd hc2 (by decide))
            (by rw [if_pos hb]; exact fmUpsert_idem (parseYaml (jsJoin '\n' B0)) "add_todo" "true")
        · rw [if_neg hb]
          exact pct_second_one s filePath A m (parseYaml (jsJoin '\n' B0)) bl
            hA hm hbl hAnl hblnl himm (parseYaml_wf _) hk
            (by rw [if_neg hb])
    · -- two markers
      have hAnl : ∀ l ∈ A ++ [m], ('\n' : Char) ∉ l.data := by
        intro l hl
        apply hnl l
        rw [hsp]
        rcases List.mem_append.mp hl with hl | hl
        · exact List.mem_append.mpr (Or.inl hl)
        · rw [List.mem_singleton.mp hl]
          exact List.mem_append.mpr (Or.inr (List.mem_cons_self _ _))
      have hCnl : ∀ l ∈ m2 :: C, ('\n' : Char) ∉ l.data := by
        intro l hl
        apply hnl l
        rw [hsp]
        exact List.mem_append.mpr (Or.inr (List.mem_cons_of_mem _
          (List.mem_append.mpr (Or.inr hl))))
      have hs1 : jsSlice (jsSplit '\n' x) 0 (Int.ofNat A.length + 1) = A ++ [m] := by
        rw [hsp]
        exact jsSlice_head A m (B ++ m2 :: C)
      have hs2 : jsSlice (jsSplit '\n' x) (Int.ofNat A.length + 1)
          (Int.ofNat (A.length + 1 + B.length)) = B := by
        rw [hsp]
        exact jsSlice_mid A m B (m2 :: C)
      have hs3 : jsSliceFrom (jsSplit '\n' x) (Int.ofNat (A.length + 1 + B.length))
          = m2 :: C := by
        rw [hsp]
        exact jsSliceFrom_mid A m B m2 C
      have hk : "" ∉ (parseYaml (jsJoin '\n' (jsSlice (jsSplit '\n' x)
          (Int.ofNat A.length + 1) (Int.ofNat (A.length + 1 + B.length))))).map (·.1) := by
        rw [hscan] at hkey
        exact hkey
      rw [hs2] at hk
      rw [pct_update s x filePath A.length (Int.ofNat (A.length + 1 + B.length))
        hHC himm hscan]
      rw [hs1, hs2, hs3]
      by_cases hb : (filePath != jsOr s.outputFilePath "TODO.md") = true
      · rw [if_pos hb]
        exact pct_second_two s filePath A m
          (fmUpsert (parseYaml (jsJoin '\n' B)) "add_todo" "true") m2 C
          hA hm hm2 hAnl hCnl himm
          (fmUpsert_wf _ _ _ (parseYaml_wf _)
            (by decide) (by decide) (by decide) (by decide) (by decide))
          (by
            intro hc
            rcases keys_fmUpsert_subset (parseYaml (jsJoin '\n' B)) "add_todo" "true" "" hc
              with hc2 | hc2
            · exact hk hc2
            · exact absurd hc2 (by decide))
          (by rw [if_pos hb]; exact fmUpsert_idem (parseYaml (jsJoin '\n' B)) "add_todo" "true")
      · rw [if_neg hb]
        exact pct_second_two s filePath A m (parseYaml (jsJoin '\n' B)) m2 C
          hA hm hm2 hAnl hCnl himm (parseYaml_wf _) hk
          (by rw [if_neg hb])

theorem claim_C5_witness :
    processCompletedTodos (mkSettings [] ["#TODO"] TodoHandling.keep 24 [])
        (processCompletedTodos (mkSettings [] ["#TODO"] TodoHandling.keep 24 [])
          "- [x] a" "note.md") "note.md"
      = processCompletedTodos (mkSettings [] ["#TODO"] TodoHandling.keep 24 [])
          "- [x] a" "note.md" :=
  claim_C5 (mkSettings [] ["#TODO"] TodoHandling.keep 24 []) "- [x] a" "note.md"
    (Or.inr (Or.inr (Or.inl ⟨by decide, by decide⟩)))

theorem claim_C10_witness :
    collectTodos [] (mkSettings [] ["#TODO"] TodoHandling.immediate 1 []) 0
      = ([], [Eff.notice ("出力ファイルが存在しません: "
          ++ outPathOf (mkSettings [] ["#TODO"] TodoHandling.immediate 1 []))]) :=
  (claim_C10 [] (mkSettings [] ["#TODO"] TodoHandling.immediate 1 []) 0).1 rfl

end ObsidianTodo
